import Mathlib

/-!
Verification of the block allocator in `src/osmem.c` (os_malloc / os_free /
os_calloc / os_realloc).

The C code is shallowly embedded.  Header records (`struct block_meta`) live
in an address-keyed association list that models the in-band headers written
into heap memory; field assignments through pointers become individual
field updates keyed by header address, performed in exactly the order of the
C statements, so pointer aliasing (e.g. `fragment` called with `req = 0`, or
the `new_block->prev = heap_end` slip in `initialise_heap`) behaves as in C.
All `size_t` arithmetic is carried out modulo 2^64 through `wadd`, `wsub`,
`wmul` and `align`.  The operating system is modelled as: a contiguous arena
starting at address 4096 grown by `sbrk`, and anonymous mappings handed out
downward from address 2^62; a grant that would make the two regions collide
fails, and a failed grant is fatal in the C code (`DIE`), which the embedding
represents by returning `none`.  Dereferencing an address that holds no
header (wild or dangling pointer) and loops that chase a cycle of corrupted
links are undefined behaviour in C; the embedding also returns `none` there.

`struct block_meta` itself is declared in `block_meta.h`, which is not part
of the sources; its layout is modelled from the spec (see `SIZEOF_BLOCK`).
-/

set_option maxHeartbeats 1600000

namespace OSMem

/-- 2^64, the modulus of `size_t` arithmetic. -/
def W64 : Nat := 2 ^ 64

/-- `size_t` addition (wraps modulo 2^64). -/
def wadd (a b : Nat) : Nat := (a + b) % W64

/-- `size_t` subtraction (wraps modulo 2^64); arguments are < 2^64. -/
def wsub (a b : Nat) : Nat := (W64 + a - b) % W64

/-- `size_t` multiplication (wraps modulo 2^64). -/
def wmul (a b : Nat) : Nat := (a * b) % W64

/-- `ALIGN(size) = (((size_t)(size) + (ALIGNMENT - 1)) & ~0x7)` from
`osmem.c`: add 7 modulo 2^64, then clear the low three bits. -/
def align (n : Nat) : Nat := wadd n 7 / 8 * 8

/-- `PAGE_SIZE` from `osmem.c`. -/
def PAGE_SIZE : Nat := 4 * 1024

/-- `MMAP_THRESHOLD` from `osmem.c`. -/
def MMAP_THRESHOLD : Nat := 128 * 1024

/-- Modelled from the spec: `sizeof(struct block_meta)` for the header
declared in `block_meta.h` (a file not present under `src/`).  The header
holds a `size_t`, an `int` status and two pointers (§3, §4.1 of the spec);
on the 64-bit platform assumed throughout, that is 32 bytes, already a
multiple of 8, so `sizeof(struct block_meta) = ALIGN(sizeof(struct
block_meta)) = 32`. -/
def SIZEOF_BLOCK : Nat := 32

/-- Block status, from `block_meta.h` as described by the spec (§3): the
zero-initialised value (fresh OS memory) is `FREE`. -/
inductive Status where
  | FREE : Status
  | ALLOC : Status
  | MAPPED : Status
deriving DecidableEq, Repr

/-- One `struct block_meta` header.  `prev`/`next` are header addresses,
`none` standing for `NULL`. -/
structure BlockMeta where
  size : Nat
  status : Status
  prev : Option Nat
  next : Option Nat
deriving DecidableEq, Repr

/-- The header a freshly granted (kernel-zeroed) piece of memory reads as:
all bytes zero, i.e. size 0, status 0 (= `STATUS_FREE`), null links. -/
def zeroMeta : BlockMeta := ⟨0, Status.FREE, none, none⟩

/-- Base of the contiguous arena (initial program break). -/
def HEAP_BASE : Nat := 4096

/-- Top of the address range used for anonymous mappings; mappings are
handed out downward from here. -/
def MMAP_TOP : Nat := 2 ^ 62

/-- The whole process state: the header records present in memory (keyed
by header address, later entries shadowed by earlier ones), the allocator's
globals `heap_start`, `heap_end`, `heap_pre`, the current program break,
the low end of the granted mapping area, the granted mappings
(base, length in bytes), and the byte contents of memory. -/
structure Heap where
  blocks : List (Nat × BlockMeta)
  heap_start : Option Nat
  heap_end : Option Nat
  heap_pre : Option Nat
  brk : Nat
  mmapNext : Nat
  granted : List (Nat × Nat)
  mem : Nat → Nat

/-- The state at process start: empty registry, arena not yet grown,
no mappings, memory contents unspecified (arbitrarily 170 = 0xAA). -/
def initState : Heap :=
  { blocks := [], heap_start := none, heap_end := none, heap_pre := none,
    brk := HEAP_BASE, mmapNext := MMAP_TOP, granted := [], mem := fun _ => 170 }

/-- Look an address up in a header listing (first entry wins). -/
def lookupB : List (Nat × BlockMeta) → Nat → Option BlockMeta
  | [], _ => none
  | (x, b) :: t, a => if x = a then some b else lookupB t a

/-- Read the header record stored at address `a`. -/
def getBlock (h : Heap) (a : Nat) : Option BlockMeta :=
  lookupB h.blocks a

/-- Store a header record at address `a` (shadowing any previous one). -/
def setBlock (h : Heap) (a : Nat) (b : BlockMeta) : Heap :=
  { h with blocks := (a, b) :: h.blocks }

/-- Interpret the raw bytes at a fresh address as a header: if no record is
tracked there yet, start from the kernel-zeroed header `zeroMeta`.  (Every
code path that reaches `ensure` at an address holding stale non-zero bytes
overwrites all four fields before reading any of them.) -/
def ensure (h : Heap) (a : Nat) : Heap :=
  match getBlock h a with
  | some _ => h
  | none => setBlock h a zeroMeta

/-- Field assignment `a->f = v` through a pointer: undefined behaviour
(`none`) if no header lives at `a`. -/
def setF (h : Heap) (a : Nat) (f : BlockMeta → BlockMeta) : Option Heap :=
  match getBlock h a with
  | some b => some (setBlock h a (f b))
  | none => none

def setSize (h : Heap) (a n : Nat) : Option Heap :=
  setF h a (fun b => { b with size := n })

def setStatus (h : Heap) (a : Nat) (s : Status) : Option Heap :=
  setF h a (fun b => { b with status := s })

def setPrev (h : Heap) (a : Nat) (p : Option Nat) : Option Heap :=
  setF h a (fun b => { b with prev := p })

def setNext (h : Heap) (a : Nat) (p : Option Nat) : Option Heap :=
  setF h a (fun b => { b with next := p })

/-- Zero the `n` bytes starting at `a` (fresh OS grants are zero-filled). -/
def zeroRange (m : Nat → Nat) (a n : Nat) : Nat → Nat :=
  fun x => if a ≤ x ∧ x < a + n then 0 else m x

/-- `sbrk(n)`: extend the arena by `n` bytes, returning the old break.
Fails (fatal in C via `DIE`) when the grant would collide with the mapping
area. -/
def sbrkOp (h : Heap) (n : Nat) : Option (Nat × Heap) :=
  if h.brk + n ≤ h.mmapNext then
    some (h.brk, { h with brk := h.brk + n, mem := zeroRange h.mem h.brk n })
  else none

/-- Round up to whole pages (mappings are page-granular). -/
def pageAlign (n : Nat) : Nat := (n + 4095) / 4096 * 4096

/-- `mmap(NULL, req, ...)`: grant `pageAlign req` fresh zeroed bytes just
below the previously lowest mapping.  `mmap` with length 0 fails, as does a
grant that would collide with the arena; failure is fatal in C (`DIE`). -/
def mmapOp (h : Heap) (req : Nat) : Option (Nat × Heap) :=
  if req = 0 then none
  else
    let len := pageAlign req
    if h.brk + len ≤ h.mmapNext then
      let a := h.mmapNext - len
      some (a, { h with mmapNext := a
                        granted := (a, len) :: h.granted
                        mem := zeroRange h.mem a len })
    else none

/-- `munmap(a, len)`: drop the grant based at `a` and every header stored
in the unmapped pages (reading them afterwards is fatal). -/
def munmapOp (h : Heap) (a len : Nat) : Heap :=
  { h with granted := h.granted.filter (fun g => g.1 ≠ a)
           blocks := h.blocks.filter
             (fun p => ¬ (a ≤ p.1 ∧ p.1 < a + pageAlign len)) }

/-- Is the byte range `[a, a+n)` inside granted memory (the arena or a
single mapping)? -/
def rangeOwned (h : Heap) (a n : Nat) : Prop :=
  n = 0 ∨ (HEAP_BASE ≤ a ∧ a + n ≤ h.brk) ∨
    ∃ g ∈ h.granted, g.1 ≤ a ∧ a + n ≤ g.1 + g.2

instance (h : Heap) (a n : Nat) : Decidable (rangeOwned h a n) := by
  unfold rangeOwned
  exact inferInstance

/-- Read one byte; reading outside granted memory is fatal. -/
def readByte (h : Heap) (a : Nat) : Option Nat :=
  if rangeOwned h a 1 then some (h.mem a) else none

/-- The `memset` loop from `osmem.c` (lines 265–272), as a bounds-checked
bulk write: the C loop stores the bytes one at a time and dies at the first
unmapped address, leaving no observable state, so only the all-in-bounds
case needs its final memory. -/
def memset (h : Heap) (a v n : Nat) : Option Heap :=
  if rangeOwned h a n then
    some { h with mem := fun x => if a ≤ x ∧ x < a + n then v else h.mem x }
  else none

/-- The `memcpy` loop from `osmem.c` (lines 306–314), as a bounds-checked
bulk copy; the source and destination regions of the calls in `os_realloc`
never overlap, where the forward byte loop and the bulk copy agree. -/
def memcpy (h : Heap) (dst src n : Nat) : Option Heap :=
  if rangeOwned h dst n ∧ rangeOwned h src n then
    some { h with mem := fun x =>
             if dst ≤ x ∧ x < dst + n then h.mem (src + (x - dst)) else h.mem x }
  else none

/-- `mmap_alloc` (osmem.c lines 29–40). -/
def mmap_alloc (h : Heap) (req : Nat) : Option (Nat × Heap) := do
  let (a, h) ← mmapOp h req
  let h := ensure h a
  let h ← setSize h a (wsub req SIZEOF_BLOCK)
  let h ← setStatus h a Status.MAPPED
  let h ← setPrev h a h.heap_end
  let h ← setNext h a none
  pure (a, h)

/-- `fragment` (osmem.c lines 48–66).  Field writes happen in the order of
the C statements, so the aliasing case `req = 0` (fragmented == node)
behaves exactly as the C does. -/
def fragment (h : Heap) (node remaining_size req : Nat) : Option Heap := do
  let frag := node + req
  let h := ensure h frag
  let nb ← getBlock h node
  let h ← setNext h frag nb.next
  let h ← setPrev h frag (some node)
  let h ← setNext h node (some frag)
  let fb ← getBlock h frag
  let h ← match fb.next with
          | some nn => setPrev h nn (some frag)
          | none => pure h
  let h ← setSize h frag (wsub remaining_size SIZEOF_BLOCK)
  let h ← setStatus h frag Status.FREE
  let h ← setSize h node (wsub req SIZEOF_BLOCK)
  pure (if h.heap_end = some node then { h with heap_end := some frag } else h)

/-- The scan loop of `find_fit` (osmem.c lines 80–91).  The accumulator is
(best_node, minimal_remaining); the fuel bounds the number of followed
`next` links, and running out of fuel models the non-terminating chase of a
corrupted cyclic list (`none`). -/
def findFitGo (h : Heap) (requested : Nat) :
    Option Nat → Option Nat × Nat → Nat → Option (Option Nat × Nat)
  | none, acc, _ => some acc
  | some _, _, 0 => none
  | some a, (best, mini), fuel + 1 => do
      let b ← getBlock h a
      if b.status = Status.FREE ∧ requested ≤ wadd SIZEOF_BLOCK b.size then
        let rem := wsub (wadd SIZEOF_BLOCK b.size) requested
        if rem < mini then
          if rem = 0 then pure (some a, rem)
          else findFitGo h requested b.next (some a, rem) fuel
        else findFitGo h requested b.next (best, mini) fuel
      else findFitGo h requested b.next (best, mini) fuel

/-- `find_fit` (osmem.c lines 73–101): scan from `heap_start` with
`minimal_remaining = (size_t)-1`, then split the winner if the leftover can
host `ALIGN(sizeof(struct block_meta)) + 1` bytes. -/
def find_fit (h : Heap) (requested : Nat) : Option (Option Nat × Heap) := do
  let (best, mini) ←
    findFitGo h requested h.heap_start (none, W64 - 1) (h.blocks.length + 1)
  match best with
  | some bn =>
      if SIZEOF_BLOCK + 1 ≤ mini then do
        let h ← fragment h bn mini requested
        pure (some bn, h)
      else pure (some bn, h)
  | none => pure (none, h)

/-- `initialise_heap` (osmem.c lines 107–144).  In the mapping branch with a
non-empty registry, the C code updates `heap_end` before assigning
`new_block->prev = heap_end`, and the embedding mirrors that order. -/
def initialise_heap (h : Heap) (requested : Nat) : Option (Nat × Heap) :=
  if requested ≤ MMAP_THRESHOLD ∧ h.heap_pre = none then do
    let (nb, h) ← sbrkOp h MMAP_THRESHOLD
    let remaining := wsub MMAP_THRESHOLD requested
    let h := ensure h nb
    let h := { h with heap_pre := some (nb + SIZEOF_BLOCK) }
    let h ← setStatus h nb Status.ALLOC
    let h ← setSize h nb (wsub requested SIZEOF_BLOCK)
    let h ← match h.heap_start with
      | none => do
          let h := { h with heap_start := some nb, heap_end := some nb }
          let h ← setNext h nb none
          let h ← setPrev h nb none
          pure h
      | some _ => do
          let h ← setPrev h nb h.heap_end
          let h ← match h.heap_end with
                  | some e => setNext h e (some nb)
                  | none => none
          pure { h with heap_end := some nb }
    if SIZEOF_BLOCK + 1 ≤ remaining then do
      let h ← fragment h nb remaining requested
      pure (nb, h)
    else pure (nb, h)
  else do
    let (nb, h) ← mmap_alloc h requested
    match h.heap_start with
    | none => do
        let h := { h with heap_start := some nb, heap_end := some nb }
        let h ← setNext h nb none
        let h ← setPrev h nb none
        pure (nb, h)
    | some _ => do
        let h ← match h.heap_end with
                | some e => setNext h e (some nb)
                | none => none
        let h := { h with heap_end := some nb }
        let h ← setPrev h nb h.heap_end
        pure (nb, h)

/-- The backward walk of osmem.c lines 179–181 (and 363–367): from
`heap_end`, step over `STATUS_MAPPED` blocks via `prev`.  Fuel exhaustion
models the infinite loop on a corrupted `prev` cycle. -/
def walkBack (h : Heap) : Option Nat → Nat → Option (Option Nat)
  | none, _ => some none
  | some _, 0 => none
  | some a, fuel + 1 => do
      let b ← getBlock h a
      if b.status = Status.MAPPED then walkBack h b.prev fuel
      else pure (some a)

/-- osmem.c lines 193–201: grow the arena by `requested` fresh bytes and
append a new allocated block at the registry end. -/
def appendNew (h : Heap) (size requested : Nat) : Option (Heap × Option Nat) := do
  let (nb, h) ← sbrkOp h requested
  let h := ensure h nb
  let h ← setSize h nb (align size)
  let h ← setPrev h nb h.heap_end
  let h ← setNext h nb none
  let h ← match h.heap_end with
          | some e => setNext h e (some nb)
          | none => none
  let h := { h with heap_end := some nb }
  let h ← setStatus h nb Status.ALLOC
  pure (h, some (nb + SIZEOF_BLOCK))

/-- `os_malloc` (osmem.c lines 151–202).  The result is `none` when the C
program dies (failed OS grant, wild dereference); otherwise it is the final
state together with the returned payload pointer (`none` = `NULL`). -/
def os_malloc (h : Heap) (size : Nat) : Option (Heap × Option Nat) :=
  if size = 0 then some (h, none)
  else
    let requested := wadd SIZEOF_BLOCK (align size)
    if h.heap_pre = none then do
      let (nb, h) ← initialise_heap h requested
      pure (h, some (nb + SIZEOF_BLOCK))
    else do
      let (fit, h) ← find_fit h requested
      match fit with
      | some nb => do
          let h ← setStatus h nb Status.ALLOC
          pure (h, some (nb + SIZEOF_BLOCK))
      | none =>
        if MMAP_THRESHOLD < requested then do
          let (nb, h) ← mmap_alloc h requested
          let h ← match h.heap_end with
                  | some e => setNext h e (some nb)
                  | none => none
          let h := { h with heap_end := some nb }
          pure (h, some (nb + SIZEOF_BLOCK))
        else do
          let last ← walkBack h h.heap_end (h.blocks.length + 1)
          match last with
          | some nb => do
              let b ← getBlock h nb
              if b.status = Status.FREE then do
                let (_, h) ← sbrkOp h (wsub (align size) b.size)
                let h ← setSize h nb (align size)
                let h ← setStatus h nb Status.ALLOC
                pure (h, some (nb + SIZEOF_BLOCK))
              else appendNew h size requested
          | none => appendNew h size requested

/-- `os_free` (osmem.c lines 208–263).  `ptr` is the payload pointer
(`none` = `NULL`); `prev`/`next` are cached once, as in the C. -/
def os_free (h : Heap) (ptr : Option Nat) : Option Heap :=
  match ptr with
  | none => some h
  | some p => do
    let addr := p - SIZEOF_BLOCK
    let b ← getBlock h addr
    let next := b.next
    let prev := b.prev
    if b.status = Status.MAPPED then do
      let h ← match prev with
              | some pv => setNext h pv next
              | none => pure { h with heap_start := next }
      let h ← match next with
              | some nx => setPrev h nx prev
              | none => pure { h with heap_end := prev }
      let b2 ← getBlock h addr
      let h := munmapOp h addr (wadd SIZEOF_BLOCK (align b2.size))
      let h := if h.heap_end = none ∨ h.heap_start = none then
                 { h with heap_pre := none } else h
      match next, prev with
      | some nx, some pv => do
          let pb ← getBlock h pv
          let nb ← getBlock h nx
          if pb.status = Status.FREE ∧ nb.status = Status.FREE then do
            let h ← setSize h pv (wadd pb.size (wadd SIZEOF_BLOCK nb.size))
            let h ← setNext h pv nb.next
            let h ← match nb.next with
                    | some nn => setPrev h nn (some pv)
                    | none => pure h
            pure (if h.heap_end = some nx then { h with heap_end := some pv } else h)
          else pure h
      | _, _ => pure h
    else do
      let h ← setStatus h addr Status.FREE
      let h ← match next with
        | some nx => do
            let nb ← getBlock h nx
            if nb.status = Status.FREE then do
              let ab ← getBlock h addr
              let h ← setSize h addr (wadd ab.size (wadd SIZEOF_BLOCK nb.size))
              let h ← setNext h addr nb.next
              let h ← match nb.next with
                      | some nn => setPrev h nn (some addr)
                      | none => pure h
              pure (if h.heap_end = some nx then { h with heap_end := some addr } else h)
            else pure h
        | none => pure h
      match prev with
      | some pv => do
          let pb ← getBlock h pv
          if pb.status = Status.FREE then do
            let ab ← getBlock h addr
            let h ← setSize h pv (wadd pb.size (wadd SIZEOF_BLOCK ab.size))
            let h ← setNext h pv ab.next
            let h ← match ab.next with
                    | some nn => setPrev h nn (some pv)
                    | none => pure h
            pure (if h.heap_end = some addr then { h with heap_end := some pv } else h)
          else pure h
      | none => pure h

/-- `os_calloc` (osmem.c lines 280–304). -/
def os_calloc (h : Heap) (nmemb size : Nat) : Option (Heap × Option Nat) :=
  if nmemb = 0 ∨ size = 0 then some (h, none)
  else
    let total := align (wmul nmemb size)
    if PAGE_SIZE ≤ wadd total SIZEOF_BLOCK then do
      let (nb, h) ← mmap_alloc h (wadd total SIZEOF_BLOCK)
      let h ← match h.heap_end with
        | some e => do
            let h ← setNext h e (some nb)
            pure { h with heap_end := some nb }
        | none => pure { h with heap_start := some nb, heap_end := some nb }
      pure (h, some (nb + SIZEOF_BLOCK))
    else do
      let (h, addr) ← os_malloc h total
      match addr with
      | some a => do
          let h ← memset h a 0 total
          pure (h, some a)
      | none => pure (h, none)

/-- osmem.c lines 393–402: the relocation fallback of `os_realloc`'s grow
path: allocate anew, copy `min(prev_size, size)` bytes, reset `heap_pre`
when a mapped original block was the arena seed, and free the original. -/
def reallocMove (h : Heap) (block p size requested prev_size : Nat) :
    Option (Heap × Option Nat) := do
  let (h, addr) ← os_malloc h size
  match addr with
  | some a => do
      let h ← memcpy h a p (min prev_size size)
      let h := if MMAP_THRESHOLD < requested ∧ h.heap_pre = some block then
                 { h with heap_pre := none } else h
      let h ← os_free h (some p)
      pure (h, some a)
  | none => none

/-- osmem.c lines 378–403: the forward-coalescing attempt of `os_realloc`
and, failing that, the relocation fallback.  `Sum.inl` carries an early
return. -/
def reallocTail (h : Heap) (block p size requested prev_size : Nat) :
    Option (Heap × Option Nat) := do
  let b ← getBlock h block
  let step ←
    match b.next with
    | some nx => do
        let nb ← getBlock h nx
        if nb.status = Status.FREE then do
          let bb ← getBlock h block
          let h ← setSize h block (wadd bb.size (wadd SIZEOF_BLOCK nb.size))
          let h ← setNext h block nb.next
          let h ← match nb.next with
                  | some nn => setPrev h nn (some block)
                  | none => pure h
          let h := if h.heap_end = some nx then { h with heap_end := some block } else h
          let bb ← getBlock h block
          if requested ≤ bb.size then do
            let remaining := wsub bb.size requested
            let h ←
              if SIZEOF_BLOCK + 1 ≤ remaining then
                fragment h block remaining (wadd requested SIZEOF_BLOCK)
              else pure h
            pure (Sum.inl (h, some (block + SIZEOF_BLOCK)))
          else pure (Sum.inr h)
        else pure (Sum.inr h)
    | none => pure (Sum.inr h)
  match step with
  | Sum.inl r => pure r
  | Sum.inr h => reallocMove h block p size requested prev_size

/-- `os_realloc` (osmem.c lines 321–404).  The ternary copy lengths
`a < b ? a : b` are written `min a b`. -/
def os_realloc (h : Heap) (ptr : Option Nat) (size : Nat) :
    Option (Heap × Option Nat) :=
  let requested := align size
  match ptr with
  | none => os_malloc h size
  | some p =>
    if requested = 0 then do
      let h ← os_free h (some p)
      pure (h, none)
    else do
      let block := p - SIZEOF_BLOCK
      let b ← getBlock h block
      let prev_size := b.size
      if b.status = Status.FREE then pure (h, none)
      else if b.status = Status.MAPPED ∧ b.size ≠ requested then do
        let (h, addr) ← os_malloc h size
        match addr with
        | some a => do
            let h ← memcpy h a p (min prev_size requested)
            let h ← os_free h (some p)
            pure (h, some a)
        | none => none
      else if b.size = requested then pure (h, some (block + SIZEOF_BLOCK))
      else if requested < b.size then do
        let remaining := wsub b.size requested
        let h ←
          if SIZEOF_BLOCK + 1 ≤ remaining then
            fragment h block remaining (wadd requested SIZEOF_BLOCK)
          else pure h
        let h ← setStatus h block Status.ALLOC
        pure (h, some (block + SIZEOF_BLOCK))
      else
        if wsub requested b.size ≤ MMAP_THRESHOLD then do
          let last ← walkBack h h.heap_end (h.blocks.length + 1)
          if last = some block then do
            let (_, h) ← sbrkOp h (wsub requested b.size)
            let h ← setSize h block requested
            pure (h, some (block + SIZEOF_BLOCK))
          else reallocTail h block p size requested prev_size
        else reallocTail h block p size requested prev_size

/-! ## Registry abstraction and well-formedness -/

/-- `chain h stop a? l`: following `next` links from `a?` visits exactly the
(address, header) pairs of `l` and then reaches `stop`. -/
def chain (h : Heap) (stop : Option Nat) : Option Nat → List (Nat × BlockMeta) → Prop
  | a?, [] => a? = stop
  | a?, (x, b) :: t => a? = some x ∧ getBlock h x = some b ∧ chain h stop b.next t

instance chainDecidable (h : Heap) (stop : Option Nat) :
    (a? : Option Nat) → (l : List (Nat × BlockMeta)) → Decidable (chain h stop a? l)
  | a?, [] => decidable_of_iff (a? = stop) (by simp [chain])
  | a?, (x, b) :: t =>
      have : Decidable (chain h stop b.next t) := chainDecidable h stop b.next t
      decidable_of_iff (a? = some x ∧ getBlock h x = some b ∧ chain h stop b.next t)
        (by simp [chain])

/-- Each entry's `prev` field names the preceding entry (`pa` before the head). -/
def prevs : List (Nat × BlockMeta) → Option Nat → Prop
  | [], _ => True
  | (x, b) :: t, pa => b.prev = pa ∧ prevs t (some x)

instance prevsDecidable :
    (l : List (Nat × BlockMeta)) → (pa : Option Nat) → Decidable (prevs l pa)
  | [], _ => decidable_of_iff True (by simp [prevs])
  | (x, b) :: t, pa =>
      have : Decidable (prevs t (some x)) := prevsDecidable t (some x)
      decidable_of_iff (b.prev = pa ∧ prevs t (some x)) (by simp [prevs])

/-- The entries tile `[base, stop)` exactly, in order, each owning its header
plus payload. -/
def tiles : Nat → Nat → List (Nat × BlockMeta) → Prop
  | base, stop, [] => base = stop
  | base, stop, (x, b) :: t => x = base ∧ tiles (base + SIZEOF_BLOCK + b.size) stop t

instance tilesDecidable :
    (base stop : Nat) → (l : List (Nat × BlockMeta)) → Decidable (tiles base stop l)
  | base, stop, [] => decidable_of_iff (base = stop) (by simp [tiles])
  | base, stop, (x, b) :: t =>
      have : Decidable (tiles (base + SIZEOF_BLOCK + b.size) stop t) :=
        tilesDecidable _ stop t
      decidable_of_iff (x = base ∧ tiles (base + SIZEOF_BLOCK + b.size) stop t)
        (by simp [tiles])

/-- Traverse the registry from `heap_start`, with fuel; `none` when a link
dangles or the fuel (enough for any acyclic chain of tracked headers) runs
out. -/
def listFromGo (h : Heap) : Option Nat → Nat → Option (List (Nat × BlockMeta))
  | none, _ => some []
  | some _, 0 => none
  | some a, fuel + 1 => do
      let b ← getBlock h a
      let t ← listFromGo h b.next fuel
      pure ((a, b) :: t)

def listFrom (h : Heap) : Option (List (Nat × BlockMeta)) :=
  listFromGo h h.heap_start (h.blocks.length + 1)

/-- Every tracked header lies in memory the process has already been
granted: below the break or in the mapping area.  (Headers are only ever
written into granted memory, so no header can sit in the not-yet-granted
gap between `brk` and `mmapNext`.) -/
def headersOwned (h : Heap) : Prop :=
  ∀ e ∈ h.blocks, e.1 < h.brk ∨ h.mmapNext ≤ e.1

instance (h : Heap) : Decidable (headersOwned h) := by
  unfold headersOwned
  exact inferInstance

/-- The arena-backed entries of a registry listing (everything that is not
`MAPPED`), in list order. -/
def arenaOf (l : List (Nat × BlockMeta)) : List (Nat × BlockMeta) :=
  l.filter (fun e => ¬ e.2.status = Status.MAPPED)

/-- Well-formedness of an allocator state `h` whose registry reads as `l`:
the doubly linked list is consistent, header addresses and sizes are
8-aligned, the arena entries tile `[HEAP_BASE, brk)` in list order, mapped
entries sit inside pairwise disjoint grants above the break, and the
arena-ready flag `heap_pre` is set exactly when arena blocks exist.  These
are the registry invariants stated in §3, §4.1 and §4.3 of the spec. -/
structure WF (h : Heap) (l : List (Nat × BlockMeta)) : Prop where
  chain_ok : chain h none h.heap_start l
  prevs_ok : prevs l none
  end_ok : h.heap_end = (l.getLast?).map Prod.fst
  nodup : (l.map Prod.fst).Nodup
  aligned : ∀ e ∈ l, e.1 % 8 = 0 ∧ e.2.size % 8 = 0
  tiles_ok : tiles HEAP_BASE h.brk (arenaOf l)
  mapped_ok : ∀ e ∈ l, e.2.status = Status.MAPPED →
      ∃ g ∈ h.granted, g.1 = e.1 ∧ e.1 + SIZEOF_BLOCK + e.2.size ≤ g.1 + g.2
  grants_lo : ∀ g ∈ h.granted, h.mmapNext ≤ g.1 ∧ g.1 + g.2 ≤ MMAP_TOP ∧
      g.1 % 4096 = 0
  grants_disj : h.granted.Pairwise (fun g1 g2 => g1.1 + g1.2 ≤ g2.1 ∨ g2.1 + g2.2 ≤ g1.1)
  brk_lo : HEAP_BASE ≤ h.brk
  brk_hi : h.brk ≤ h.mmapNext
  brk_al : h.brk % 8 = 0
  mn_al : h.mmapNext % 4096 = 0
  mn_hi : h.mmapNext ≤ MMAP_TOP
  pre_ok : h.heap_pre = none ↔ arenaOf l = []
  owned : headersOwned h

/-! ## Pure views of the scan loop, and concrete witness states -/

/-- The `find_fit` scan, expressed on the abstract registry listing. -/
def ffPure (requested : Nat) :
    List (Nat × BlockMeta) → Option Nat × Nat → Option Nat × Nat
  | [], acc => acc
  | (x, b) :: t, (best, mini) =>
    if b.status = Status.FREE ∧ requested ≤ wadd SIZEOF_BLOCK b.size then
      if wsub (wadd SIZEOF_BLOCK b.size) requested < mini then
        if wsub (wadd SIZEOF_BLOCK b.size) requested = 0 then
          (some x, wsub (wadd SIZEOF_BLOCK b.size) requested)
        else ffPure requested t (some x, wsub (wadd SIZEOF_BLOCK b.size) requested)
      else ffPure requested t (best, mini)
    else ffPure requested t (best, mini)

/-- "node->status == STATUS_FREE && sizeof(struct block_meta) + node->size
>= requested", in plain arithmetic. -/
def qualifies (requested : Nat) (e : Nat × BlockMeta) : Prop :=
  e.2.status = Status.FREE ∧ requested ≤ SIZEOF_BLOCK + e.2.size

instance (requested : Nat) (e : Nat × BlockMeta) :
    Decidable (qualifies requested e) := by
  unfold qualifies; exact inferInstance

/-- "remaining_size = sizeof(struct block_meta) + node->size - requested". -/
def leftover (requested : Nat) (e : Nat × BlockMeta) : Nat :=
  SIZEOF_BLOCK + e.2.size - requested

def c2list : List (Nat × BlockMeta) :=
  [(4096, ⟨131040, Status.FREE, none, none⟩)]

def c2heap : Heap :=
  ⟨c2list, some 4096, some 4096,
    some 4128, 135168, 135168, [], fun _ => 170⟩

/-- The address of the last entry, or the fallback `pa` for an empty list. -/
def lastOr (l : List (Nat × BlockMeta)) (pa : Option Nat) : Option Nat :=
  match l.getLast? with
  | some e => some e.1
  | none => pa

def c5list : List (Nat × BlockMeta) :=
  [(4096, ⟨131040, Status.ALLOC, none, none⟩)]

def c5heap : Heap :=
  ⟨c5list, some 4096, some 4096, some 4128, 135168, 266240, [], fun _ => 170⟩

def c5h2 : Heap := ((os_malloc c5heap 131040).getD (c5heap, none)).1

def c5res : Option Nat := ((os_malloc c5heap 131040).getD (c5heap, none)).2

def c1h2 : Heap := ((os_malloc c5heap 100).getD (c5heap, none)).1

def c1p : Nat := (((os_malloc c5heap 100).getD (c5heap, none)).2).getD 0

def c10heap : Heap :=
  ⟨[(4096, ⟨64, Status.ALLOC, none, some 4192⟩),
    (4192, ⟨64, Status.FREE, some 4096, some 4288⟩),
    (4288, ⟨130848, Status.ALLOC, some 4192, none⟩)],
   some 4096, some 4288, some 4128, 135168, 266240, [], fun _ => 170⟩

/-- A ready arena holding five consecutive blocks followed by one mapped
block: a 64-byte allocated guard, three adjacent allocated blocks of sizes
`s1`, `s2`, `s3`, and an allocated tail filling the arena to the break. -/
def c9heap (s1 s2 s3 : Nat) : Heap :=
  ⟨[(4096, ⟨64, Status.ALLOC, none, some 4192⟩),
    (4192, ⟨s1, Status.ALLOC, some 4096, some (4224 + s1)⟩),
    (4224 + s1, ⟨s2, Status.ALLOC, some 4192, some (4256 + s1 + s2)⟩),
    (4256 + s1 + s2, ⟨s3, Status.ALLOC, some (4224 + s1),
      some (4288 + s1 + s2 + s3)⟩),
    (4288 + s1 + s2 + s3, ⟨130848 - (s1 + s2 + s3), Status.ALLOC,
      some (4256 + s1 + s2), some 200704⟩),
    (200704, ⟨4064, Status.MAPPED, some (4288 + s1 + s2 + s3), none⟩)],
   some 4096, some 200704, some 4128, 135168, 200704,
   [(200704, 4096)], fun _ => 170⟩

def freeSeq (h : Heap) (ps : List Nat) : Option Heap :=
  ps.foldlM (fun h p => os_free h (some p)) h

/-- The heap after four allocations from the empty state: one arena
block of 131040 bytes filling the preallocated arena exactly, one mapped
block of 200000 bytes linked after it in the registry, and two 100-byte
(aligned to 104) arena blocks appended after the mapped block. -/
def c9cxPre : Option Heap := do
  let (h, _) ← os_malloc initState 131040
  let (h, _) ← os_malloc h 200000
  let (h, _) ← os_malloc h 100
  let (h, _) ← os_malloc h 100
  pure h

/-- The same heap after the three arena blocks are released. -/
def c9cxPost : Option Heap := do
  let h ← c9cxPre
  freeSeq h [4128, 135200, 135336]

/-! ## Basic lemmas about the state primitives -/

@[simp] theorem lookupB_nil (a : Nat) : lookupB [] a = none := rfl

@[simp] theorem lookupB_cons (x : Nat) (b : BlockMeta)
    (t : List (Nat × BlockMeta)) (a : Nat) :
    lookupB ((x, b) :: t) a = if x = a then some b else lookupB t a := rfl

theorem lookupB_mem {l : List (Nat × BlockMeta)} {x : Nat} {b : BlockMeta}
    (hl : lookupB l x = some b) : (x, b) ∈ l := by
  induction l with
  | nil => simp at hl
  | cons e t ih =>
      obtain ⟨y, c⟩ := e
      by_cases hyx : y = x
      · subst hyx
        simp at hl
        simp [hl]
      · simp [hyx] at hl
        exact List.mem_cons_of_mem _ (ih hl)

theorem getBlock_setBlock (h : Heap) (a : Nat) (b : BlockMeta) (x : Nat) :
    getBlock (setBlock h a b) x = if a = x then some b else getBlock h x := by
  simp [getBlock, setBlock]

@[simp] theorem getBlock_setBlock_same (h : Heap) (a : Nat) (b : BlockMeta) :
    getBlock (setBlock h a b) a = some b := by simp [getBlock_setBlock]

theorem getBlock_setBlock_ne (h : Heap) (a : Nat) (b : BlockMeta) (x : Nat)
    (hx : a ≠ x) : getBlock (setBlock h a b) x = getBlock h x := by
  simp [getBlock_setBlock, hx]

@[simp] theorem setBlock_brk (h : Heap) (a : Nat) (b : BlockMeta) :
    (setBlock h a b).brk = h.brk := rfl

@[simp] theorem setBlock_heap_start (h : Heap) (a : Nat) (b : BlockMeta) :
    (setBlock h a b).heap_start = h.heap_start := rfl

@[simp] theorem setBlock_heap_end (h : Heap) (a : Nat) (b : BlockMeta) :
    (setBlock h a b).heap_end = h.heap_end := rfl

@[simp] theorem setBlock_heap_pre (h : Heap) (a : Nat) (b : BlockMeta) :
    (setBlock h a b).heap_pre = h.heap_pre := rfl

@[simp] theorem setBlock_mmapNext (h : Heap) (a : Nat) (b : BlockMeta) :
    (setBlock h a b).mmapNext = h.mmapNext := rfl

@[simp] theorem setBlock_granted (h : Heap) (a : Nat) (b : BlockMeta) :
    (setBlock h a b).granted = h.granted := rfl

@[simp] theorem setBlock_mem (h : Heap) (a : Nat) (b : BlockMeta) :
    (setBlock h a b).mem = h.mem := rfl

theorem setF_eq_some (h : Heap) (a : Nat) (f : BlockMeta → BlockMeta)
    (b : BlockMeta) (hb : getBlock h a = some b) :
    setF h a f = some (setBlock h a (f b)) := by
  simp [setF, hb]

/-! ## `size_t` arithmetic lemmas -/

theorem W64_pos : 0 < W64 := by decide

theorem W64_eq : W64 = 18446744073709551616 := by norm_num [W64]

theorem wadd_eq {a b : Nat} (hab : a + b < W64) : wadd a b = a + b :=
  Nat.mod_eq_of_lt hab

theorem wsub_eq {a b : Nat} (hba : b ≤ a) (ha : a < W64) : wsub a b = a - b := by
  unfold wsub
  have h1 : W64 + a - b = W64 + (a - b) := by omega
  rw [h1, Nat.add_mod_left, Nat.mod_eq_of_lt (by omega)]

theorem align_le {n : Nat} (hn : n + 7 < W64) : align n ≤ n + 7 := by
  unfold align
  rw [wadd_eq hn]
  omega

theorem le_align {n : Nat} (hn : n + 7 < W64) : n ≤ align n := by
  unfold align
  rw [wadd_eq hn]
  omega

theorem align_mod8 (n : Nat) : align n % 8 = 0 := by
  unfold align
  exact Nat.mul_mod_left _ 8

theorem align_of_aligned {n : Nat} (hn : n < W64) (h8 : n % 8 = 0) :
    align n = n := by
  have hw := W64_eq
  unfold align
  rw [wadd_eq (by omega)]
  omega

theorem align_pos {n : Nat} (hn : 0 < n) (hn2 : n + 7 < W64) : 8 ≤ align n := by
  have := le_align hn2
  have := align_mod8 n
  omega

theorem lookupB_none {l : List (Nat × BlockMeta)} {x : Nat}
    (hx : ∀ e ∈ l, e.1 ≠ x) : lookupB l x = none := by
  induction l with
  | nil => rfl
  | cons e t ih =>
      obtain ⟨y, c⟩ := e
      have hy : y ≠ x := hx (y, c) (List.mem_cons_self _ _)
      simp only [lookupB_cons, if_neg hy]
      exact ih (fun e he => hx e (List.mem_cons_of_mem _ he))

theorem getBlock_none_of_gap (h : Heap) (hown : headersOwned h) {x : Nat}
    (h1 : h.brk ≤ x) (h2 : x < h.mmapNext) : getBlock h x = none := by
  unfold getBlock
  refine lookupB_none (fun e he => ?_)
  have := hown e he
  omega

theorem ensure_of_none {h : Heap} {a : Nat} (hg : getBlock h a = none) :
    ensure h a = setBlock h a zeroMeta := by simp [ensure, hg]

theorem ensure_of_some {h : Heap} {a : Nat} {b : BlockMeta}
    (hg : getBlock h a = some b) : ensure h a = h := by simp [ensure, hg]

theorem getBlock_eq_of_blocks {h1 h2 : Heap} (e : h1.blocks = h2.blocks)
    (x : Nat) : getBlock h1 x = getBlock h2 x := by simp [getBlock, e]

theorem setSize_eq {h : Heap} {a : Nat} {b : BlockMeta}
    (hg : getBlock h a = some b) (n : Nat) :
    setSize h a n = some (setBlock h a { b with size := n }) := by
  simp [setSize, setF, hg]

theorem setStatus_eq {h : Heap} {a : Nat} {b : BlockMeta}
    (hg : getBlock h a = some b) (s : Status) :
    setStatus h a s = some (setBlock h a { b with status := s }) := by
  simp [setStatus, setF, hg]

theorem setPrev_eq {h : Heap} {a : Nat} {b : BlockMeta}
    (hg : getBlock h a = some b) (p : Option Nat) :
    setPrev h a p = some (setBlock h a { b with prev := p }) := by
  simp [setPrev, setF, hg]

theorem setNext_eq {h : Heap} {a : Nat} {b : BlockMeta}
    (hg : getBlock h a = some b) (p : Option Nat) :
    setNext h a p = some (setBlock h a { b with next := p }) := by
  simp [setNext, setF, hg]


/-! ## Inversion and frame lemmas for the state primitives -/

theorem bindSome {α β : Type} {x : Option α} {f : α → Option β} {b : β}
    (hx : (x >>= f) = some b) : ∃ a, x = some a ∧ f a = some b := by
  cases x with
  | none => exact Option.noConfusion hx
  | some a => exact ⟨a, rfl, hx⟩

theorem setF_inv {h h2 : Heap} {a : Nat} {f : BlockMeta → BlockMeta}
    (hs : setF h a f = some h2) :
    ∃ b, getBlock h a = some b ∧ h2 = setBlock h a (f b) := by
  unfold setF at hs
  cases hg : getBlock h a with
  | none => rw [hg] at hs; exact Option.noConfusion hs
  | some b => rw [hg] at hs; exact ⟨b, rfl, (Option.some.inj hs).symm⟩

theorem setSize_inv {h h2 : Heap} {a n : Nat} (hs : setSize h a n = some h2) :
    ∃ b, getBlock h a = some b ∧ h2 = setBlock h a { b with size := n } :=
  setF_inv hs

theorem setStatus_inv {h h2 : Heap} {a : Nat} {s : Status}
    (hs : setStatus h a s = some h2) :
    ∃ b, getBlock h a = some b ∧ h2 = setBlock h a { b with status := s } :=
  setF_inv hs

theorem setPrev_inv {h h2 : Heap} {a : Nat} {p : Option Nat}
    (hs : setPrev h a p = some h2) :
    ∃ b, getBlock h a = some b ∧ h2 = setBlock h a { b with prev := p } :=
  setF_inv hs

theorem setNext_inv {h h2 : Heap} {a : Nat} {p : Option Nat}
    (hs : setNext h a p = some h2) :
    ∃ b, getBlock h a = some b ∧ h2 = setBlock h a { b with next := p } :=
  setF_inv hs

@[simp] theorem ensure_brk (h : Heap) (a : Nat) : (ensure h a).brk = h.brk := by
  unfold ensure; cases hg : getBlock h a <;> simp [hg]

@[simp] theorem ensure_mem (h : Heap) (a : Nat) : (ensure h a).mem = h.mem := by
  unfold ensure; cases hg : getBlock h a <;> simp [hg]

@[simp] theorem ensure_granted (h : Heap) (a : Nat) :
    (ensure h a).granted = h.granted := by
  unfold ensure; cases hg : getBlock h a <;> simp [hg]

@[simp] theorem ensure_mmapNext (h : Heap) (a : Nat) :
    (ensure h a).mmapNext = h.mmapNext := by
  unfold ensure; cases hg : getBlock h a <;> simp [hg]

@[simp] theorem ensure_heap_start (h : Heap) (a : Nat) :
    (ensure h a).heap_start = h.heap_start := by
  unfold ensure; cases hg : getBlock h a <;> simp [hg]

@[simp] theorem ensure_heap_end (h : Heap) (a : Nat) :
    (ensure h a).heap_end = h.heap_end := by
  unfold ensure; cases hg : getBlock h a <;> simp [hg]

@[simp] theorem ensure_heap_pre (h : Heap) (a : Nat) :
    (ensure h a).heap_pre = h.heap_pre := by
  unfold ensure; cases hg : getBlock h a <;> simp [hg]

theorem memset_eq_some {h h2 : Heap} {a v n : Nat}
    (hs : memset h a v n = some h2) :
    rangeOwned h a n ∧
    h2 = { h with mem := fun x => if a ≤ x ∧ x < a + n then v else h.mem x } := by
  unfold memset at hs
  by_cases hr : rangeOwned h a n
  · rw [if_pos hr] at hs
    exact ⟨hr, (Option.some.inj hs).symm⟩
  · rw [if_neg hr] at hs
    exact Option.noConfusion hs

theorem memcpy_eq_some {h h2 : Heap} {dst src n : Nat}
    (hs : memcpy h dst src n = some h2) :
    rangeOwned h dst n ∧ rangeOwned h src n ∧
    h2 = { h with mem := fun x =>
             if dst ≤ x ∧ x < dst + n then h.mem (src + (x - dst))
             else h.mem x } := by
  unfold memcpy at hs
  by_cases hr : rangeOwned h dst n ∧ rangeOwned h src n
  · rw [if_pos hr] at hs
    exact ⟨hr.1, hr.2, (Option.some.inj hs).symm⟩
  · rw [if_neg hr] at hs
    exact Option.noConfusion hs

theorem rangeOwned_single {h : Heap} {a n x : Nat}
    (hr : rangeOwned h a n) (h1 : a ≤ x) (h2 : x < a + n) :
    rangeOwned h x 1 := by
  unfold rangeOwned at hr ⊢
  rcases hr with h0 | harena | ⟨g, hg, hg1, hg2⟩
  · omega
  · exact Or.inr (Or.inl (by omega))
  · exact Or.inr (Or.inr ⟨g, hg, by omega, by omega⟩)

/-! ## Inversion lemmas for the OS primitives and `mmap_alloc` -/

theorem mmapOp_inv {h hm : Heap} {req a0 : Nat}
    (hs : mmapOp h req = some (a0, hm)) :
    ¬ req = 0 ∧ h.brk + pageAlign req ≤ h.mmapNext ∧
    a0 = h.mmapNext - pageAlign req ∧
    hm = { h with mmapNext := a0
                  granted := (a0, pageAlign req) :: h.granted
                  mem := zeroRange h.mem a0 (pageAlign req) } := by
  unfold mmapOp at hs
  by_cases h0 : req = 0
  · rw [if_pos h0] at hs; exact Option.noConfusion hs
  rw [if_neg h0] at hs
  by_cases hgr : h.brk + pageAlign req ≤ h.mmapNext
  · rw [if_pos hgr] at hs
    injection hs with h1
    injection h1 with h2 h3
    subst h2
    exact ⟨h0, hgr, rfl, h3.symm⟩
  · rw [if_neg hgr] at hs; exact Option.noConfusion hs

theorem sbrkOp_inv {h hm : Heap} {n a0 : Nat}
    (hs : sbrkOp h n = some (a0, hm)) :
    h.brk + n ≤ h.mmapNext ∧ a0 = h.brk ∧
    hm = { h with brk := h.brk + n, mem := zeroRange h.mem h.brk n } := by
  unfold sbrkOp at hs
  by_cases hgr : h.brk + n ≤ h.mmapNext
  · rw [if_pos hgr] at hs
    injection hs with h1
    injection h1 with h2 h3
    exact ⟨hgr, h2.symm, h3.symm⟩
  · rw [if_neg hgr] at hs; exact Option.noConfusion hs

theorem mmap_alloc_inv {h h' : Heap} {req nb : Nat}
    (hs : mmap_alloc h req = some (nb, h')) :
    ∃ hm, mmapOp h req = some (nb, hm) ∧
      getBlock h' nb =
        some ⟨wsub req SIZEOF_BLOCK, Status.MAPPED, hm.heap_end, none⟩ ∧
      (∀ x, ¬ x = nb → getBlock h' x = getBlock hm x) ∧
      h'.mem = hm.mem ∧ h'.granted = hm.granted ∧ h'.brk = hm.brk ∧
      h'.mmapNext = hm.mmapNext ∧ h'.heap_start = hm.heap_start ∧
      h'.heap_end = hm.heap_end ∧ h'.heap_pre = hm.heap_pre := by
  rw [mmap_alloc] at hs
  obtain ⟨⟨a0, hm⟩, hmo, hs⟩ := bindSome hs
  simp only at hs
  obtain ⟨h1, hs1, hs⟩ := bindSome hs
  obtain ⟨h2, hs2, hs⟩ := bindSome hs
  obtain ⟨h3, hs3, hs⟩ := bindSome hs
  obtain ⟨h4, hs4, hs⟩ := bindSome hs
  injection hs with hx
  injection hx with hx1 hx2
  subst hx1
  subst hx2
  obtain ⟨b1, hgb1, rfl⟩ := setSize_inv hs1
  obtain ⟨b2, hgb2, rfl⟩ := setStatus_inv hs2
  rw [getBlock_setBlock_same] at hgb2
  injection hgb2 with hb2
  subst hb2
  obtain ⟨b3, hgb3, rfl⟩ := setPrev_inv hs3
  rw [getBlock_setBlock_same] at hgb3
  injection hgb3 with hb3
  subst hb3
  obtain ⟨b4, hgb4, rfl⟩ := setNext_inv hs4
  rw [getBlock_setBlock_same] at hgb4
  injection hgb4 with hb4
  subst hb4
  refine ⟨hm, hmo, ?_, ?_, by simp, by simp, by simp, by simp, by simp,
    by simp, by simp⟩
  · simp [getBlock_setBlock_same]
  · intro x hx
    have hx2 : ¬ a0 = x := fun hc => hx hc.symm
    simp only [getBlock_setBlock, if_neg hx2]
    unfold ensure
    cases hg : getBlock hm a0 <;> simp [getBlock_setBlock, if_neg hx2]

theorem pageAlign_ge (n : Nat) : n ≤ pageAlign n := by
  unfold pageAlign; omega

theorem getBlock_upd_se (h : Heap) (s e : Option Nat) (x : Nat) :
    getBlock { h with heap_start := s, heap_end := e } x = getBlock h x := rfl

theorem getBlock_upd_e (h : Heap) (e : Option Nat) (x : Nat) :
    getBlock { h with heap_end := e } x = getBlock h x := rfl

theorem granted_upd_se (h : Heap) (s e : Option Nat) :
    ({ h with heap_start := s, heap_end := e } : Heap).granted = h.granted :=
  rfl

theorem granted_upd_e (h : Heap) (e : Option Nat) :
    ({ h with heap_end := e } : Heap).granted = h.granted := rfl

/-! ## Claim C4 -/



/-- Claim C4: refuted by running the code.  Starting from the empty heap,
`os_calloc(1, 5000)` links one mapped block (setting `heap_start` but not
`heap_pre`), and the following `os_malloc(200000)` takes the mapping branch
of `initialise_heap`, which assigns `heap_end = new_block` before
`new_block->prev = heap_end`; the freshly linked block's `prev` therefore
points to the block itself (address 2^62 − 208896 in the embedding's address
layout), so the registry is not a consistent doubly linked list. -/
theorem claim_C4 :
    ((os_calloc initState 1 5000).bind fun r1 =>
      (os_malloc r1.1 200000).map fun r2 =>
        ((getBlock r2.1 4611686018427179008).map BlockMeta.prev, r2.1.heap_end))
      = some (some (some 4611686018427179008), some 4611686018427179008) := by
  decide

/-! ## Claim C3 -/

/-- Claim C3: on a first-time allocation while the arena is not ready
(`heap_pre = NULL`), if the total required size is at most `MMAP_THRESHOLD`
then the arena is extended by exactly `MMAP_THRESHOLD` bytes, the arena is
marked ready, the new block is marked `ALLOCATED`, and whenever the unused
remainder can host a header plus at least one byte it is split off as one
`FREE` block directly after the new block; otherwise a direct mapping of
exactly the requested footprint is obtained, is recorded in the grant list,
and is linked at the end of the registry. -/
theorem claim_C3 (h : Heap) (requested a : Nat) (h2 : Heap)
    (hpre : h.heap_pre = none)
    (hlo : 40 ≤ requested) (hhi : requested < W64)
    (hown : headersOwned h)
    (hrun : initialise_heap h requested = some (a, h2)) :
    (requested ≤ MMAP_THRESHOLD →
       a = h.brk ∧
       h2.brk = h.brk + MMAP_THRESHOLD ∧
       h2.heap_pre = some (a + SIZEOF_BLOCK) ∧
       ∃ b, getBlock h2 a = some b ∧ b.status = Status.ALLOC ∧
         b.size = requested - SIZEOF_BLOCK ∧
         (SIZEOF_BLOCK + 1 ≤ MMAP_THRESHOLD - requested →
            b.next = some (a + requested) ∧
            ∃ fb, getBlock h2 (a + requested) = some fb ∧
              fb.status = Status.FREE ∧
              fb.size = MMAP_THRESHOLD - requested - SIZEOF_BLOCK)) ∧
    (MMAP_THRESHOLD < requested →
       (∃ b, getBlock h2 a = some b ∧ b.status = Status.MAPPED ∧
          b.size = requested - SIZEOF_BLOCK) ∧
       (a, pageAlign requested) ∈ h2.granted ∧
       h2.heap_end = some a ∧
       (h.heap_start = none → h2.heap_start = some a)) := by
  have hw := W64_eq
  have hth : MMAP_THRESHOLD = 131072 := by norm_num [MMAP_THRESHOLD]
  have hsz : SIZEOF_BLOCK = 32 := by norm_num [SIZEOF_BLOCK]
  constructor
  · intro hle
    have hcond : requested ≤ MMAP_THRESHOLD ∧ h.heap_pre = none := ⟨hle, hpre⟩
    rw [initialise_heap, if_pos hcond] at hrun
    by_cases hsb : h.brk + MMAP_THRESHOLD ≤ h.mmapNext
    case neg => simp [sbrkOp, hsb] at hrun
    have hwsub1 : wsub MMAP_THRESHOLD requested = MMAP_THRESHOLD - requested := by
      apply wsub_eq hle; omega
    have hwsub2 : wsub requested SIZEOF_BLOCK = requested - SIZEOF_BLOCK := by
      apply wsub_eq (by omega) hhi
    have hg0 : lookupB h.blocks h.brk = none := by
      refine lookupB_none (fun e he => ?_)
      have := hown e he; omega
    have hne1 : h.brk ≠ h.brk + requested := by omega
    by_cases hrem : SIZEOF_BLOCK + 1 ≤ MMAP_THRESHOLD - requested
    · -- split case
      have hwsub3 : wsub (MMAP_THRESHOLD - requested) SIZEOF_BLOCK =
          MMAP_THRESHOLD - requested - SIZEOF_BLOCK := by
        apply wsub_eq <;> omega
      have hgf : lookupB h.blocks (h.brk + requested) = none := by
        refine lookupB_none (fun e he => ?_)
        have := hown e he; omega
      have hne1s : h.brk + requested ≠ h.brk := by omega
      cases hst : h.heap_start with
      | none =>
          simp only [sbrkOp, if_pos hsb, Option.bind_eq_bind, Option.some_bind,
            Option.none_bind, Option.pure_def, ensure, getBlock, setSize,
            setStatus, setPrev, setNext, setF, setBlock, zeroMeta, fragment,
            lookupB_cons, hg0, hgf, hst, if_pos rfl, if_neg hne1,
            if_neg hne1s, if_true, eq_self_iff_true, hwsub1, hwsub2, hwsub3,
            if_pos hrem] at hrun
          rw [Option.some.injEq, Prod.mk.injEq] at hrun
          obtain ⟨ha, hh2⟩ := hrun
          subst ha
          subst hh2
          refine ⟨rfl, rfl, rfl, ?_⟩
          simp only [getBlock, lookupB_cons, if_pos rfl, if_neg hne1,
            if_neg hne1s]
          exact ⟨_, rfl, rfl, rfl, fun _ => ⟨rfl, _, rfl, rfl, rfl⟩⟩
      | some s0 =>
          cases hend : h.heap_end with
          | none =>
              simp only [sbrkOp, if_pos hsb, Option.bind_eq_bind,
                Option.some_bind, Option.none_bind, Option.pure_def, ensure,
                getBlock, setSize, setStatus, setPrev, setNext, setF, setBlock, zeroMeta,
                lookupB_cons, hg0, hst, hend, if_pos rfl, if_neg hne1,
                if_true, eq_self_iff_true, hwsub1, hwsub2,
                if_pos hrem] at hrun
              exact Option.noConfusion hrun
          | some e =>
              by_cases hbe : h.brk = e
              · subst hbe
                simp only [sbrkOp, if_pos hsb, Option.bind_eq_bind,
                  Option.some_bind, Option.none_bind, Option.pure_def, ensure,
                  getBlock, setSize, setStatus, setPrev, setNext, setF,
                  setBlock, zeroMeta, fragment, lookupB_cons, hg0, hgf, hst, hend,
                  if_pos rfl, if_neg hne1, if_neg hne1s, if_true,
                  eq_self_iff_true, hwsub1, hwsub2, hwsub3,
                  if_pos hrem] at hrun
                rw [Option.some.injEq, Prod.mk.injEq] at hrun
                obtain ⟨ha, hh2⟩ := hrun
                subst ha
                subst hh2
                refine ⟨rfl, rfl, rfl, ?_⟩
                simp only [getBlock, lookupB_cons, if_pos rfl, if_neg hne1,
                  if_neg hne1s]
                exact ⟨_, rfl, rfl, rfl, fun _ => ⟨rfl, _, rfl, rfl, rfl⟩⟩
              · cases hlk : lookupB h.blocks e with
                | none =>
                    simp only [sbrkOp, if_pos hsb, Option.bind_eq_bind,
                      Option.some_bind, Option.none_bind, Option.pure_def,
                      ensure, getBlock, setSize, setStatus, setPrev, setNext,
                      setF, setBlock, zeroMeta, lookupB_cons, hg0, hst, hend, hlk,
                      if_pos rfl, if_neg hne1, if_neg hbe, if_true,
                      eq_self_iff_true, hwsub1, hwsub2, if_pos hrem] at hrun
                    exact Option.noConfusion hrun
                | some be =>
                    have hef : e ≠ h.brk + requested := by
                      have := hown _ (lookupB_mem hlk)
                      simp only at this
                      omega
                    have hfe : h.brk + requested ≠ e := fun hx => hef hx.symm
                    have hbe2 : e ≠ h.brk := fun hx => hbe hx.symm
                    simp only [sbrkOp, if_pos hsb, Option.bind_eq_bind,
                      Option.some_bind, Option.none_bind, Option.pure_def,
                      ensure, getBlock, setSize, setStatus, setPrev, setNext,
                      setF, setBlock, zeroMeta, fragment, lookupB_cons, hg0, hgf, hst,
                      hend, hlk, if_pos rfl, if_neg hne1, if_neg hne1s,
                      if_neg hbe, if_neg hbe2, if_neg hef, if_neg hfe,
                      if_true, eq_self_iff_true, hwsub1, hwsub2, hwsub3,
                      if_pos hrem] at hrun
                    rw [Option.some.injEq, Prod.mk.injEq] at hrun
                    obtain ⟨ha, hh2⟩ := hrun
                    subst ha
                    subst hh2
                    refine ⟨rfl, rfl, rfl, ?_⟩
                    simp only [getBlock, lookupB_cons, if_pos rfl,
                      if_neg hne1, if_neg hne1s, if_neg hbe, if_neg hbe2,
                      if_neg hef, if_neg hfe]
                    exact ⟨_, rfl, rfl, rfl, fun _ => ⟨rfl, _, rfl, rfl, rfl⟩⟩
    · -- no split
      cases hst : h.heap_start with
      | none =>
          simp only [sbrkOp, if_pos hsb, Option.bind_eq_bind, Option.some_bind,
            Option.none_bind, Option.pure_def, ensure, getBlock, setSize,
            setStatus, setPrev, setNext, setF, setBlock, zeroMeta,
            lookupB_cons, hg0, hst, if_pos rfl, if_neg hne1,
            if_true, eq_self_iff_true, hwsub1, hwsub2,
            if_neg hrem] at hrun
          rw [Option.some.injEq, Prod.mk.injEq] at hrun
          obtain ⟨ha, hh2⟩ := hrun
          subst ha
          subst hh2
          refine ⟨rfl, rfl, rfl, ?_⟩
          simp only [getBlock, lookupB_cons, if_pos rfl]
          exact ⟨_, rfl, rfl, rfl, fun hc => absurd hc hrem⟩
      | some s0 =>
          cases hend : h.heap_end with
          | none =>
              simp only [sbrkOp, if_pos hsb, Option.bind_eq_bind,
                Option.some_bind, Option.none_bind, Option.pure_def, ensure,
                getBlock, setSize, setStatus, setPrev, setNext, setF, setBlock, zeroMeta,
                lookupB_cons, hg0, hst, hend, if_pos rfl, if_neg hne1,
                if_true, eq_self_iff_true, hwsub1, hwsub2,
                if_neg hrem] at hrun
              exact Option.noConfusion hrun
          | some e =>
              by_cases hbe : h.brk = e
              · subst hbe
                simp only [sbrkOp, if_pos hsb, Option.bind_eq_bind,
                  Option.some_bind, Option.none_bind, Option.pure_def, ensure,
                  getBlock, setSize, setStatus, setPrev, setNext, setF,
                  setBlock, zeroMeta, lookupB_cons, hg0, hst, hend,
                  if_pos rfl, if_neg hne1, if_true,
                  eq_self_iff_true, hwsub1, hwsub2, if_neg hrem] at hrun
                rw [Option.some.injEq, Prod.mk.injEq] at hrun
                obtain ⟨ha, hh2⟩ := hrun
                subst ha
                subst hh2
                refine ⟨rfl, rfl, rfl, ?_⟩
                simp only [getBlock, lookupB_cons, if_pos rfl]
                exact ⟨_, rfl, rfl, rfl, fun hc => absurd hc hrem⟩
              · cases hlk : lookupB h.blocks e with
                | none =>
                    simp only [sbrkOp, if_pos hsb, Option.bind_eq_bind,
                      Option.some_bind, Option.none_bind, Option.pure_def,
                      ensure, getBlock, setSize, setStatus, setPrev, setNext,
                      setF, setBlock, zeroMeta, lookupB_cons, hg0, hst, hend, hlk,
                      if_pos rfl, if_neg hne1, if_neg hbe, if_true,
                      eq_self_iff_true, hwsub1, hwsub2, if_neg hrem] at hrun
                    exact Option.noConfusion hrun
                | some be =>
                    have hbe2 : e ≠ h.brk := fun hx => hbe hx.symm
                    simp only [sbrkOp, if_pos hsb, Option.bind_eq_bind,
                      Option.some_bind, Option.none_bind, Option.pure_def,
                      ensure, getBlock, setSize, setStatus, setPrev, setNext,
                      setF, setBlock, zeroMeta, lookupB_cons, hg0, hst, hend, hlk,
                      if_pos rfl, if_neg hne1, if_neg hbe, if_neg hbe2,
                      if_true, eq_self_iff_true, hwsub1, hwsub2,
                      if_neg hrem] at hrun
                    rw [Option.some.injEq, Prod.mk.injEq] at hrun
                    obtain ⟨ha, hh2⟩ := hrun
                    subst ha
                    subst hh2
                    refine ⟨rfl, rfl, rfl, ?_⟩
                    simp only [getBlock, lookupB_cons, if_neg hbe2, if_pos rfl]
                    exact ⟨_, rfl, rfl, rfl, fun hc => absurd hc hrem⟩
  · intro hgt
    have hcond : ¬(requested ≤ MMAP_THRESHOLD ∧ h.heap_pre = none) := by
      rintro ⟨hx, _⟩; omega
    rw [initialise_heap, if_neg hcond] at hrun
    have hwsub2 : wsub requested SIZEOF_BLOCK = requested - SIZEOF_BLOCK := by
      apply wsub_eq (by omega) hhi
    have hr0 : ¬ requested = 0 := by omega
    have hpa : 4096 ≤ pageAlign requested := by
      unfold pageAlign; omega
    by_cases hmm : h.brk + pageAlign requested ≤ h.mmapNext
    case neg => simp [mmap_alloc, mmapOp, hr0, hmm] at hrun
    have hga : lookupB h.blocks (h.mmapNext - pageAlign requested) = none := by
      refine lookupB_none (fun e he => ?_)
      have := hown e he; omega
    cases hst : h.heap_start with
    | none =>
        simp only [mmap_alloc, mmapOp, if_neg hr0, if_pos hmm,
          Option.bind_eq_bind, Option.some_bind, Option.none_bind,
          Option.pure_def, ensure, getBlock, setSize, setStatus, setPrev,
          setNext, setF, setBlock, zeroMeta, lookupB_cons, hga, hst,
          if_pos rfl, if_true, eq_self_iff_true, hwsub2] at hrun
        rw [Option.some.injEq, Prod.mk.injEq] at hrun
        obtain ⟨ha, hh2⟩ := hrun
        subst ha
        subst hh2
        refine ⟨?_, ?_, rfl, fun _ => rfl⟩
        · simp only [getBlock, lookupB_cons, if_pos rfl]
          exact ⟨_, rfl, rfl, rfl⟩
        · exact List.mem_cons_self _ _
    | some s0 =>
        cases hend : h.heap_end with
        | none =>
            simp only [mmap_alloc, mmapOp, if_neg hr0, if_pos hmm,
              Option.bind_eq_bind, Option.some_bind, Option.none_bind,
              Option.pure_def, ensure, getBlock, setSize, setStatus, setPrev,
              setNext, setF, setBlock, zeroMeta, lookupB_cons, hga, hst, hend,
              if_pos rfl, if_true, eq_self_iff_true, hwsub2] at hrun
            exact Option.noConfusion hrun
        | some e =>
            by_cases hbe : h.mmapNext - pageAlign requested = e
            · subst hbe
              simp only [mmap_alloc, mmapOp, if_neg hr0, if_pos hmm,
                Option.bind_eq_bind, Option.some_bind, Option.none_bind,
                Option.pure_def, ensure, getBlock, setSize, setStatus, setPrev,
                setNext, setF, setBlock, zeroMeta, lookupB_cons, hga, hst, hend,
                if_pos rfl, if_true, eq_self_iff_true, hwsub2] at hrun
              rw [Option.some.injEq, Prod.mk.injEq] at hrun
              obtain ⟨ha, hh2⟩ := hrun
              subst ha
              subst hh2
              refine ⟨?_, ?_, rfl, fun hx => ?_⟩
              · simp only [getBlock, lookupB_cons, if_pos rfl]
                exact ⟨_, rfl, rfl, rfl⟩
              · exact List.mem_cons_self _ _
              · exact absurd hx (by simp [hst])
            · cases hlk : lookupB h.blocks e with
              | none =>
                  simp only [mmap_alloc, mmapOp, if_neg hr0, if_pos hmm,
                    Option.bind_eq_bind, Option.some_bind, Option.none_bind,
                    Option.pure_def, ensure, getBlock, setSize, setStatus,
                    setPrev, setNext, setF, setBlock, zeroMeta, lookupB_cons,
                    hga, hst, hend, hlk, if_pos rfl, if_neg hbe, if_true,
                    eq_self_iff_true, hwsub2] at hrun
                  exact Option.noConfusion hrun
              | some be =>
                  have hbe2 : e ≠ h.mmapNext - pageAlign requested :=
                    fun hx => hbe hx.symm
                  simp only [mmap_alloc, mmapOp, if_neg hr0, if_pos hmm,
                    Option.bind_eq_bind, Option.some_bind, Option.none_bind,
                    Option.pure_def, ensure, getBlock, setSize, setStatus,
                    setPrev, setNext, setF, setBlock, zeroMeta, lookupB_cons,
                    hga, hst, hend, hlk, if_pos rfl, if_neg hbe, if_neg hbe2,
                    if_true, eq_self_iff_true, hwsub2] at hrun
                  rw [Option.some.injEq, Prod.mk.injEq] at hrun
                  obtain ⟨ha, hh2⟩ := hrun
                  subst ha
                  subst hh2
                  refine ⟨?_, ?_, rfl, fun hx => ?_⟩
                  · simp only [getBlock, lookupB_cons, if_pos rfl,
                      if_neg hbe2]
                    exact ⟨_, rfl, rfl, rfl⟩
                  · exact List.mem_cons_self _ _
                  · exact absurd hx (by simp [hst])

/-- Witness for C3: a concrete first allocation (total 4136 bytes) from the
empty heap, satisfying every hypothesis. -/
theorem claim_C3_witness :
    initState.heap_pre = none ∧ headersOwned initState ∧
    ∃ a h2, initialise_heap initState 4136 = some (a, h2) ∧
      ((4136 ≤ MMAP_THRESHOLD →
         a = initState.brk ∧
         h2.brk = initState.brk + MMAP_THRESHOLD ∧
         h2.heap_pre = some (a + SIZEOF_BLOCK) ∧
         ∃ b, getBlock h2 a = some b ∧ b.status = Status.ALLOC ∧
           b.size = 4136 - SIZEOF_BLOCK ∧
           (SIZEOF_BLOCK + 1 ≤ MMAP_THRESHOLD - 4136 →
              b.next = some (a + 4136) ∧
              ∃ fb, getBlock h2 (a + 4136) = some fb ∧
                fb.status = Status.FREE ∧
                fb.size = MMAP_THRESHOLD - 4136 - SIZEOF_BLOCK)) ∧
       (MMAP_THRESHOLD < 4136 →
         (∃ b, getBlock h2 a = some b ∧ b.status = Status.MAPPED ∧
            b.size = 4136 - SIZEOF_BLOCK) ∧
         (a, pageAlign 4136) ∈ h2.granted ∧
         h2.heap_end = some a ∧
         (initState.heap_start = none → h2.heap_start = some a))) := by
  refine ⟨rfl, by decide, 4096, _, rfl, ?_⟩
  exact claim_C3 initState 4136 4096 _ rfl (by decide) (by decide) (by decide)
    rfl

/-! ## Claims C6 and C7 -/

/-- Counterexample to claim C6 as stated: for `os_calloc(1, 2^64 - 32)` the
mathematical value of `total + sizeof(struct block_meta)` is `2^64`, far
above `PAGE_SIZE`, yet the `size_t` sum in the code wraps to `0`, the
comparison fails, the request is delegated to `os_malloc`, and the process
dies inside `memset` — no direct mapping is ever obtained. -/
theorem claim_C6_counterexample :
    PAGE_SIZE ≤ align (wmul 1 (W64 - 32)) + SIZEOF_BLOCK ∧
    (os_calloc initState 1 (W64 - 32)).isNone = true := by
  constructor
  · decide
  · decide

/-- Claim C6 (amended: the comparison `total + sizeof(struct block_meta) >=
PAGE_SIZE` is a `size_t` comparison, so the claim holds only when that sum
does not wrap): for `allocate_zeroed(n, s)` with `n, s > 0` and
`total = align(n*s)` computed in `size_t`, when `total + header size` is at
least `PAGE_SIZE` (and below 2^64) the returned block is always a `MAPPED`
block linked at the registry end, its grant is recorded, and the break is
untouched — regardless of the 128 KiB arena threshold; when
`total + header size` is below `PAGE_SIZE` the request is delegated to
`os_malloc(total)` and the returned payload is explicitly zeroed. -/
theorem claim_C6 (h : Heap) (n m : Nat) (hn : 0 < n) (hm0 : 0 < m) :
    (PAGE_SIZE ≤ align (wmul n m) + SIZEOF_BLOCK →
     align (wmul n m) + SIZEOF_BLOCK < W64 →
       ∀ h2 p, os_calloc h n m = some (h2, p) →
         ∃ blk b, p = some (blk + SIZEOF_BLOCK) ∧
           getBlock h2 blk = some b ∧ b.status = Status.MAPPED ∧
           b.size = align (wmul n m) ∧
           (blk, pageAlign (align (wmul n m) + SIZEOF_BLOCK)) ∈ h2.granted ∧
           h2.heap_end = some blk ∧ h2.brk = h.brk ∧
           (h.heap_end = none → h2.heap_start = some blk)) ∧
    (align (wmul n m) + SIZEOF_BLOCK < PAGE_SIZE →
       ∀ h2 p, os_calloc h n m = some (h2, some p) →
         (∃ h1, os_malloc h (align (wmul n m)) = some (h1, some p)) ∧
         ∀ i, i < align (wmul n m) → readByte h2 (p + i) = some 0) := by
  have hw := W64_eq
  have hsz : SIZEOF_BLOCK = 32 := by norm_num [SIZEOF_BLOCK]
  have hpgsz : PAGE_SIZE = 4096 := by norm_num [PAGE_SIZE]
  have hcz : ¬(n = 0 ∨ m = 0) := by omega
  constructor
  · -- mapping branch
    intro hpg hnw h2 p hrun
    have hwadd : wadd (align (wmul n m)) SIZEOF_BLOCK =
        align (wmul n m) + SIZEOF_BLOCK := wadd_eq (by omega)
    rw [os_calloc, if_neg hcz] at hrun
    simp only [] at hrun
    rw [hwadd, if_pos hpg] at hrun
    obtain ⟨⟨nb, hA⟩, hma, hrun⟩ := bindSome hrun
    simp only at hrun
    obtain ⟨hm1, hmo, hgb, hother, hmem, hgr, hbrk, hmn, hhs, hhe, hhp⟩ :=
      mmap_alloc_inv hma
    obtain ⟨hr0, hgrow, ha0, hm1eq⟩ := mmapOp_inv hmo
    have hwsub : wsub (align (wmul n m) + SIZEOF_BLOCK) SIZEOF_BLOCK =
        align (wmul n m) := by
      apply wsub_eq (by omega) (by omega)
    rw [hwsub] at hgb
    have hgr2 : hA.granted =
        (nb, pageAlign (align (wmul n m) + SIZEOF_BLOCK)) :: h.granted := by
      rw [hgr, hm1eq]
    have hbrk2 : hA.brk = h.brk := by rw [hbrk, hm1eq]
    have hhe2 : hA.heap_end = h.heap_end := by rw [hhe, hm1eq]
    cases he : hA.heap_end with
    | none =>
        rw [he] at hrun
        simp only [Option.pure_def, Option.some_bind] at hrun
        injection hrun with hx
        injection hx with hx1 hx2
        subst hx2
        rw [← hx1]
        refine ⟨nb, ⟨align (wmul n m), Status.MAPPED, hm1.heap_end, none⟩,
          rfl, ?_, rfl, rfl, ?_, rfl, hbrk2, fun _ => rfl⟩
        · rw [getBlock_upd_se]
          exact hgb
        · rw [granted_upd_se, hgr2]
          exact List.mem_cons_self _ _
    | some e =>
        rw [he] at hrun
        obtain ⟨h5, hset, hrun⟩ := bindSome hrun
        obtain ⟨b5, hgb5, rfl⟩ := setNext_inv hset
        simp only [Option.pure_def, Option.some_bind] at hrun
        injection hrun with hx
        injection hx with hx1 hx2
        subst hx2
        rw [← hx1]
        have hcontra : h.heap_end = none → False := by
          intro hc
          rw [hc] at hhe2
          rw [hhe2] at he
          exact Option.noConfusion he
        by_cases hebn : e = nb
        · subst hebn
          rw [hgb] at hgb5
          injection hgb5 with hb5
          subst hb5
          refine ⟨e, ⟨align (wmul n m), Status.MAPPED, hm1.heap_end, some e⟩,
            rfl, ?_, rfl, rfl, ?_, rfl, hbrk2, fun hc => absurd hc
              (fun hc2 => hcontra hc2)⟩
          · rw [getBlock_upd_e, getBlock_setBlock_same]
          · rw [granted_upd_e]
            rw [show (setBlock hA e
                ⟨align (wmul n m), Status.MAPPED, hm1.heap_end,
                  some e⟩).granted = hA.granted from rfl]
            rw [hgr2]
            exact List.mem_cons_self _ _
        · refine ⟨nb, ⟨align (wmul n m), Status.MAPPED, hm1.heap_end, none⟩,
            rfl, ?_, rfl, rfl, ?_, rfl, hbrk2, fun hc => absurd hc
              (fun hc2 => hcontra hc2)⟩
          · rw [getBlock_upd_e, getBlock_setBlock_ne _ _ _ _ hebn]
            exact hgb
          · rw [granted_upd_e]
            rw [show (setBlock hA e
                { b5 with next := some nb }).granted = hA.granted from rfl]
            rw [hgr2]
            exact List.mem_cons_self _ _
  · -- delegation branch
    intro hpg h2 p hrun
    have hwadd : wadd (align (wmul n m)) SIZEOF_BLOCK =
        align (wmul n m) + SIZEOF_BLOCK := wadd_eq (by omega)
    rw [os_calloc, if_neg hcz] at hrun
    simp only [] at hrun
    rw [hwadd, if_neg (by omega)] at hrun
    obtain ⟨⟨h1, addr⟩, hmal, hrun⟩ := bindSome hrun
    simp only at hrun
    cases addr with
    | none =>
        injection hrun with hx
        injection hx with hx1 hx2
        exact Option.noConfusion hx2
    | some a =>
        obtain ⟨h3, hms, hrun⟩ := bindSome hrun
        injection hrun with hx
        injection hx with hx1 hx2
        subst hx1
        injection hx2 with hx3
        subst hx3
        obtain ⟨hrown, rfl⟩ := memset_eq_some hms
        refine ⟨⟨h1, hmal⟩, fun i hi => ?_⟩
        rw [readByte]
        have hro2 : rangeOwned
            { h1 with mem := fun x =>
                if a ≤ x ∧ x < a + align (wmul n m) then 0 else h1.mem x }
            (a + i) 1 :=
          rangeOwned_single hrown (by omega) (by omega)
        rw [if_pos hro2]
        show some (if a ≤ a + i ∧ a + i < a + align (wmul n m) then 0
          else h1.mem (a + i)) = some 0
        rw [if_pos (by constructor <;> omega)]

/-- Counterexample to claim C7 as stated: `os_calloc(2^32, 2^32 + 1)`
succeeds (the `size_t` product wraps to `2^32`, so a mapping of `2^32 + 32`
bytes is returned), but the returned region does not contain `n*s` readable
zero bytes: the byte at offset `2^33` lies outside every grant. -/
theorem claim_C7_counterexample :
    ∃ h2 p, os_calloc initState (2 ^ 32) (2 ^ 32 + 1) = some (h2, some p) ∧
      2 ^ 33 < 2 ^ 32 * (2 ^ 32 + 1) ∧
      readByte h2 (p + 2 ^ 33) = none := by
  refine ⟨_, _, rfl, by norm_num, ?_⟩
  decide

/-- Claim C7 (amended: restricted to `n*s + 40 ≤ 2^64`, so that neither the
`n*s` multiplication nor the later size computations wrap `size_t`): for
every `n > 0` and `s > 0`, whenever `allocate_zeroed(n, s)` returns a
region, all `n*s` bytes of the returned region read as zero. -/
theorem claim_C7 (h : Heap) (n m : Nat) (hn : 0 < n) (hm0 : 0 < m)
    (hsmall : n * m + 40 ≤ W64) :
    ∀ h2 p, os_calloc h n m = some (h2, some p) →
      ∀ i, i < n * m → readByte h2 (p + i) = some 0 := by
  intro h2 p hrun i hi
  have hw := W64_eq
  have hsz : SIZEOF_BLOCK = 32 := by norm_num [SIZEOF_BLOCK]
  have hpgsz : PAGE_SIZE = 4096 := by norm_num [PAGE_SIZE]
  have hcz : ¬(n = 0 ∨ m = 0) := by omega
  have hwm : wmul n m = n * m := Nat.mod_eq_of_lt (by omega)
  have hT1 : n * m ≤ align (n * m) := le_align (by omega)
  have hT2 : align (n * m) ≤ n * m + 7 := align_le (by omega)
  have hwadd : wadd (align (n * m)) SIZEOF_BLOCK =
      align (n * m) + SIZEOF_BLOCK := wadd_eq (by omega)
  rw [os_calloc, if_neg hcz] at hrun
  simp only [] at hrun
  rw [hwm, hwadd] at hrun
  by_cases hpg : PAGE_SIZE ≤ align (n * m) + SIZEOF_BLOCK
  · -- mapping branch
    rw [if_pos hpg] at hrun
    obtain ⟨⟨nb, h'⟩, hma, hrun⟩ := bindSome hrun
    simp only at hrun
    obtain ⟨hm1, hmo, hgb, hother, hmem, hgr, hbrk, hmn, hhs, hhe, hhp⟩ :=
      mmap_alloc_inv hma
    obtain ⟨hr0, hgrow, ha0, hm1eq⟩ := mmapOp_inv hmo
    have hlen : align (n * m) + SIZEOF_BLOCK ≤
        pageAlign (align (n * m) + SIZEOF_BLOCK) := pageAlign_ge _
    have key : h2.mem = h'.mem ∧ h2.granted = h'.granted ∧
        p = nb + SIZEOF_BLOCK := by
      cases he : h'.heap_end with
      | none =>
          rw [he] at hrun
          simp only [Option.pure_def, Option.some_bind] at hrun
          injection hrun with hx
          injection hx with hx1 hx2
          injection hx2 with hx3
          subst hx3
          rw [← hx1]
          exact ⟨rfl, rfl, rfl⟩
      | some e =>
          rw [he] at hrun
          obtain ⟨h5, hset, hrun⟩ := bindSome hrun
          obtain ⟨b5, hgb5, rfl⟩ := setNext_inv hset
          simp only [Option.pure_def, Option.some_bind] at hrun
          injection hrun with hx
          injection hx with hx1 hx2
          injection hx2 with hx3
          subst hx3
          rw [← hx1]
          exact ⟨rfl, rfl, rfl⟩
    obtain ⟨kmem, kgr, rfl⟩ := key
    rw [readByte]
    have hxin : nb ≤ nb + SIZEOF_BLOCK + i ∧
        nb + SIZEOF_BLOCK + i + 1 ≤
          nb + pageAlign (align (n * m) + SIZEOF_BLOCK) := by omega
    have hro : rangeOwned h2 (nb + SIZEOF_BLOCK + i) 1 := by
      unfold rangeOwned
      refine Or.inr (Or.inr ⟨(nb, pageAlign (align (n * m) + SIZEOF_BLOCK)),
        ?_, hxin.1, hxin.2⟩)
      rw [kgr, hgr, hm1eq]
      exact List.mem_cons_self _ _
    rw [if_pos hro]
    have hmv : h2.mem (nb + SIZEOF_BLOCK + i) = 0 := by
      rw [kmem, hmem, hm1eq]
      simp only [zeroRange]
      rw [if_pos (by constructor <;> omega)]
    rw [hmv]
  · -- delegation branch
    rw [if_neg hpg] at hrun
    obtain ⟨⟨h1, addr⟩, hmal, hrun⟩ := bindSome hrun
    simp only at hrun
    cases addr with
    | none =>
        injection hrun with hx
        injection hx with hx1 hx2
        exact Option.noConfusion hx2
    | some a =>
        obtain ⟨h3, hms, hrun⟩ := bindSome hrun
        injection hrun with hx
        injection hx with hx1 hx2
        subst hx1
        injection hx2 with hx3
        subst hx3
        obtain ⟨hrown, rfl⟩ := memset_eq_some hms
        rw [readByte]
        have hro2 : rangeOwned
            { h1 with mem := fun x =>
                if a ≤ x ∧ x < a + align (n * m) then 0 else h1.mem x }
            (a + i) 1 :=
          rangeOwned_single hrown (by omega) (by omega)
        rw [if_pos hro2]
        show some (if a ≤ a + i ∧ a + i < a + align (n * m) then 0
          else h1.mem (a + i)) = some 0
        rw [if_pos (by constructor <;> omega)]

/-- Witness for C6: `os_calloc(1, 5000)` from the empty heap takes the
mapping branch. -/
theorem claim_C6_witness :
    ∃ h2 p, os_calloc initState 1 5000 = some (h2, p) ∧
      ∃ blk b, p = some (blk + SIZEOF_BLOCK) ∧
        getBlock h2 blk = some b ∧ b.status = Status.MAPPED ∧
        b.size = align (wmul 1 5000) ∧
        (blk, pageAlign (align (wmul 1 5000) + SIZEOF_BLOCK)) ∈ h2.granted ∧
        h2.heap_end = some blk ∧ h2.brk = initState.brk ∧
        (initState.heap_end = none → h2.heap_start = some blk) := by
  refine ⟨_, _, rfl, ?_⟩
  exact (claim_C6 initState 1 5000 (by decide) (by decide)).1 (by decide)
    (by decide) _ _ rfl

/-- Witness for C7: `os_calloc(3, 10)` from the empty heap returns the
payload at 4128 and its bytes read zero. -/
theorem claim_C7_witness :
    (0 < 3 ∧ 0 < 10 ∧ 3 * 10 + 40 ≤ W64) ∧
    ∃ h2, os_calloc initState 3 10 = some (h2, some 4128) ∧
      readByte h2 (4128 + 5) = some 0 := by
  refine ⟨⟨by decide, by decide, by decide⟩, _, rfl, ?_⟩
  exact claim_C7 initState 3 10 (by decide) (by decide) (by decide) _ 4128
    rfl 5 (by decide)

/-! ## Claim C8 -/

/-- Claim C8: for every pointer `p`, `os_realloc(p, 0)` leaves the heap in
exactly the state `os_free(p)` would produce and returns the null sentinel
(this also covers `p = NULL`, where both sides leave the heap unchanged:
`os_realloc(NULL, 0)` delegates to `os_malloc(0)`, which returns `NULL`
without touching the state, and `os_free(NULL)` is a no-op). -/
theorem claim_C8 (h : Heap) (p : Option Nat) :
    os_realloc h p 0 = (os_free h p).map (fun h2 => (h2, none)) := by
  have h0 : align 0 = 0 := by decide
  cases p with
  | none => simp [os_realloc, os_malloc, os_free]
  | some a =>
      simp only [os_realloc, h0, if_pos rfl]
      cases e : os_free h (some a) <;> simp [e]


/-! ## The scan loop on the abstract listing, geometry of well-formed
states, and execution lemmas for the allocation paths; claims C1, C2, C5 -/

theorem findFitGo_chain {h : Heap} {requested : Nat} :
    ∀ (l : List (Nat × BlockMeta)) (a? : Option Nat) (acc : Option Nat × Nat)
      (fuel : Nat), chain h none a? l → l.length ≤ fuel →
      findFitGo h requested a? acc fuel = some (ffPure requested l acc) := by
  intro l
  induction l with
  | nil =>
      intro a? acc fuel hc hf
      have : a? = none := hc
      subst this
      cases fuel <;> rfl
  | cons e t ih =>
      obtain ⟨x, b⟩ := e
      intro a? acc fuel hc hf
      obtain ⟨ha, hgb, hct⟩ := hc
      subst ha
      obtain ⟨best, mini⟩ := acc
      cases fuel with
      | zero => simp at hf
      | succ f =>
          rw [findFitGo, ffPure]
          rw [hgb]
          simp only [Option.bind_eq_bind, Option.some_bind]
          by_cases h1 : b.status = Status.FREE ∧ requested ≤ wadd SIZEOF_BLOCK b.size
          · rw [if_pos h1, if_pos h1]
            by_cases h2 : wsub (wadd SIZEOF_BLOCK b.size) requested < mini
            · rw [if_pos h2, if_pos h2]
              by_cases h3 : wsub (wadd SIZEOF_BLOCK b.size) requested = 0
              · rw [if_pos h3, if_pos h3]
                rfl
              · rw [if_neg h3, if_neg h3]
                exact ih _ _ _ hct (by simpa using Nat.le_of_succ_le_succ hf)
            · rw [if_neg h2, if_neg h2]
              exact ih _ _ _ hct (by simpa using Nat.le_of_succ_le_succ hf)
          · rw [if_neg h1, if_neg h1]
            exact ih _ _ _ hct (by simpa using Nat.le_of_succ_le_succ hf)

theorem ffPure_spec (requested : Nat) :
    ∀ (l : List (Nat × BlockMeta)) (best : Option Nat) (mini : Nat),
      (∀ e ∈ l, SIZEOF_BLOCK + e.2.size < W64 - 1) → 0 < mini →
      mini < W64 →
      ((∀ e ∈ l, qualifies requested e → mini ≤ leftover requested e) →
         ffPure requested l (best, mini) = (best, mini)) ∧
      ((∃ e ∈ l, qualifies requested e ∧ leftover requested e < mini) →
         ∃ l1 x b l2, l = l1 ++ (x, b) :: l2 ∧ qualifies requested (x, b) ∧
           leftover requested (x, b) < mini ∧
           ffPure requested l (best, mini) =
             (some x, leftover requested (x, b)) ∧
           (∀ e ∈ l, qualifies requested e →
              leftover requested (x, b) ≤ leftover requested e) ∧
           (∀ e ∈ l1, qualifies requested e →
              leftover requested (x, b) < leftover requested e)) := by
  have hw := W64_eq
  have hsz : SIZEOF_BLOCK = 32 := by norm_num [SIZEOF_BLOCK]
  intro l
  induction l with
  | nil =>
      intro best mini hs hm hmw
      refine ⟨fun _ => rfl, fun hex => ?_⟩
      obtain ⟨e, he, _⟩ := hex
      simp at he
  | cons yc t ih =>
      obtain ⟨y, c⟩ := yc
      intro best mini hs hm hmw
      have hyc : SIZEOF_BLOCK + c.size < W64 - 1 :=
        hs (y, c) (List.mem_cons_self _ _)
      have hst : ∀ e ∈ t, SIZEOF_BLOCK + e.2.size < W64 - 1 :=
        fun e he => hs e (List.mem_cons_of_mem _ he)
      have hwaddc : wadd SIZEOF_BLOCK c.size = SIZEOF_BLOCK + c.size :=
        wadd_eq (by omega)
      by_cases hq : qualifies requested (y, c)
      · -- head qualifies
        have hqc : c.status = Status.FREE ∧
            requested ≤ wadd SIZEOF_BLOCK c.size := by
          rw [hwaddc]; exact hq
        have hwsubc : wsub (wadd SIZEOF_BLOCK c.size) requested =
            leftover requested (y, c) := by
          rw [hwaddc]
          exact wsub_eq hq.2 (by omega)
        constructor
        · -- no qualifier beats mini
          intro hnone
          have hylv : mini ≤ leftover requested (y, c) :=
            hnone (y, c) (List.mem_cons_self _ _) hq
          rw [ffPure, if_pos hqc, hwsubc, if_neg (by omega)]
          exact (ih best mini hst hm hmw).1
            (fun e he hqe => hnone e (List.mem_cons_of_mem _ he) hqe)
        · -- someone qualifies below mini
          intro hex
          by_cases hylt : leftover requested (y, c) < mini
          · -- head is a strict improvement
            by_cases hy0 : leftover requested (y, c) = 0
            · -- perfect fit: break
              refine ⟨[], y, c, t, rfl, hq, hylt, ?_, ?_, by simp⟩
              · rw [ffPure, if_pos hqc, hwsubc, if_pos hylt, if_pos hy0]
              · intro e he hqe
                omega
            · -- recurse with the improved accumulator
              have hy1 : 0 < leftover requested (y, c) := by omega
              have hy2 : leftover requested (y, c) < W64 := by
                unfold leftover at *
                omega
              have := ih (some y) (leftover requested (y, c)) hst hy1 hy2
              by_cases hbet : ∃ e ∈ t, qualifies requested e ∧
                  leftover requested e < leftover requested (y, c)
              · obtain ⟨t1, x, b, t2, hteq, hqx, hlvx, hrec, hmin, hfirst⟩ :=
                  this.2 hbet
                refine ⟨(y, c) :: t1, x, b, t2, by rw [hteq]; rfl, hqx,
                  by omega, ?_, ?_, ?_⟩
                · rw [ffPure, if_pos hqc, hwsubc, if_pos hylt, if_neg hy0]
                  exact hrec
                · intro e he hqe
                  rcases List.mem_cons.1 he with rfl | het
                  · omega
                  · exact hmin e het hqe
                · intro e he hqe
                  rcases List.mem_cons.1 he with rfl | het
                  · omega
                  · exact hfirst e het hqe
              · -- nothing in the tail beats the head
                push_neg at hbet
                refine ⟨[], y, c, t, rfl, hq, hylt, ?_, ?_, by simp⟩
                · rw [ffPure, if_pos hqc, hwsubc, if_pos hylt, if_neg hy0]
                  exact this.1 (fun e he hqe => hbet e he hqe)
                · intro e he hqe
                  rcases List.mem_cons.1 he with rfl | het
                  · omega
                  · exact hbet e het hqe
          · -- head does not improve on mini
            have hex2 : ∃ e ∈ t, qualifies requested e ∧
                leftover requested e < mini := by
              obtain ⟨e, he, hqe, hlve⟩ := hex
              rcases List.mem_cons.1 he with rfl | het
              · omega
              · exact ⟨e, het, hqe, hlve⟩
            obtain ⟨t1, x, b, t2, hteq, hqx, hlvx, hrec, hmin, hfirst⟩ :=
              (ih best mini hst hm hmw).2 hex2
            refine ⟨(y, c) :: t1, x, b, t2, by rw [hteq]; rfl, hqx, hlvx,
              ?_, ?_, ?_⟩
            · rw [ffPure, if_pos hqc, hwsubc, if_neg (by omega)]
              exact hrec
            · intro e he hqe
              rcases List.mem_cons.1 he with rfl | het
              · omega
              · exact hmin e het hqe
            · intro e he hqe
              rcases List.mem_cons.1 he with rfl | het
              · omega
              · exact hfirst e het hqe
      · -- head does not qualify
        have hqc : ¬ (c.status = Status.FREE ∧
            requested ≤ wadd SIZEOF_BLOCK c.size) := by
          rw [hwaddc]; exact hq
        constructor
        · intro hnone
          rw [ffPure, if_neg hqc]
          exact (ih best mini hst hm hmw).1
            (fun e he hqe => hnone e (List.mem_cons_of_mem _ he) hqe)
        · intro hex
          have hex2 : ∃ e ∈ t, qualifies requested e ∧
              leftover requested e < mini := by
            obtain ⟨e, he, hqe, hlve⟩ := hex
            rcases List.mem_cons.1 he with rfl | het
            · exact absurd hqe hq
            · exact ⟨e, het, hqe, hlve⟩
          obtain ⟨t1, x, b, t2, hteq, hqx, hlvx, hrec, hmin, hfirst⟩ :=
            (ih best mini hst hm hmw).2 hex2
          refine ⟨(y, c) :: t1, x, b, t2, by rw [hteq]; rfl, hqx, hlvx,
            ?_, ?_, ?_⟩
          · rw [ffPure, if_neg hqc]
            exact hrec
          · intro e he hqe
            rcases List.mem_cons.1 he with rfl | het
            · exact absurd hqe hq
            · exact hmin e het hqe
          · intro e he hqe
            rcases List.mem_cons.1 he with rfl | het
            · exact absurd hqe hq
            · exact hfirst e het hqe

theorem ensure_get_some (h : Heap) (a : Nat) :
    ∃ c, getBlock (ensure h a) a = some c := by
  unfold ensure
  cases hg : getBlock h a with
  | none => exact ⟨zeroMeta, by simp⟩
  | some c => exact ⟨c, by simp [hg]⟩

theorem getBlock_ensure_ne {h : Heap} {a x : Nat} (hax : ¬ a = x) :
    getBlock (ensure h a) x = getBlock h x := by
  unfold ensure
  cases hg : getBlock h a with
  | none => simp [getBlock_setBlock, hax]
  | some c => simp [hg]

theorem ite_end_getBlock (c : Prop) [Decidable c] (h : Heap)
    (e : Option Nat) (x : Nat) :
    getBlock (if c then { h with heap_end := e } else h) x = getBlock h x := by
  split <;> rfl

theorem ite_end_mem (c : Prop) [Decidable c] (h : Heap) (e : Option Nat) :
    (if c then { h with heap_end := e } else h).mem = h.mem := by
  split <;> rfl

theorem ite_end_granted (c : Prop) [Decidable c] (h : Heap) (e : Option Nat) :
    (if c then { h with heap_end := e } else h).granted = h.granted := by
  split <;> rfl

theorem ite_end_brk (c : Prop) [Decidable c] (h : Heap) (e : Option Nat) :
    (if c then { h with heap_end := e } else h).brk = h.brk := by
  split <;> rfl

theorem ite_end_mmapNext (c : Prop) [Decidable c] (h : Heap) (e : Option Nat) :
    (if c then { h with heap_end := e } else h).mmapNext = h.mmapNext := by
  split <;> rfl

theorem ite_end_heap_start (c : Prop) [Decidable c] (h : Heap)
    (e : Option Nat) :
    (if c then { h with heap_end := e } else h).heap_start = h.heap_start := by
  split <;> rfl

theorem ite_end_heap_pre (c : Prop) [Decidable c] (h : Heap) (e : Option Nat) :
    (if c then { h with heap_end := e } else h).heap_pre = h.heap_pre := by
  split <;> rfl

theorem ite_end_heap_end (c : Prop) [Decidable c] (h : Heap) (e : Option Nat) :
    (if c then { h with heap_end := e } else h).heap_end =
      if c then e else h.heap_end := by
  split <;> rfl

theorem getBlock_mk (bs : List (Nat × BlockMeta)) (hs he hp : Option Nat)
    (bk mn : Nat) (gr : List (Nat × Nat)) (mm : Nat → Nat) (x : Nat) :
    getBlock ⟨bs, hs, he, hp, bk, mn, gr, mm⟩ x = lookupB bs x := rfl

theorem lookupB_heap (h : Heap) (x : Nat) :
    lookupB h.blocks x = getBlock h x := rfl

theorem fragment_run {h : Heap} {node remaining req : Nat} {b : BlockMeta}
    (hg : getBlock h node = some b)
    (hne : ¬ node + req = node)
    (hnn : ∀ nn, b.next = some nn → ¬ nn = node + req ∧ ¬ nn = node ∧
        ∃ bn, getBlock h nn = some bn) :
    ∃ h2, fragment h node remaining req = some h2 ∧
      getBlock h2 node =
        some ⟨wsub req SIZEOF_BLOCK, b.status, b.prev, some (node + req)⟩ ∧
      getBlock h2 (node + req) =
        some ⟨wsub remaining SIZEOF_BLOCK, Status.FREE, some node, b.next⟩ ∧
      (∀ nn bn, b.next = some nn → getBlock h nn = some bn →
          getBlock h2 nn = some { bn with prev := some (node + req) }) ∧
      (∀ y, ¬ y = node → ¬ y = node + req →
          (∀ nn, b.next = some nn → ¬ y = nn) →
          getBlock h2 y = getBlock h y) ∧
      h2.mem = h.mem ∧ h2.granted = h.granted ∧ h2.brk = h.brk ∧
      h2.mmapNext = h.mmapNext ∧ h2.heap_start = h.heap_start ∧
      h2.heap_pre = h.heap_pre ∧
      h2.heap_end = (if h.heap_end = some node then some (node + req)
        else h.heap_end) := by
  have hne2 : ¬ node = node + req := fun hc => hne hc.symm
  obtain ⟨c, hc⟩ := ensure_get_some h (node + req)
  have hgn0 : getBlock (ensure h (node + req)) node = some b := by
    rw [getBlock_ensure_ne hne, hg]
  rw [fragment]
  rw [hgn0]
  simp only [Option.bind_eq_bind, Option.some_bind]
  rw [setNext_eq hc]
  simp only [Option.bind_eq_bind, Option.some_bind]
  rw [setPrev_eq (by rw [getBlock_setBlock_same])]
  simp only [Option.bind_eq_bind, Option.some_bind]
  rw [setNext_eq (b := b) (by
    rw [getBlock_setBlock, if_neg hne, getBlock_setBlock, if_neg hne, hgn0])]
  simp only [Option.bind_eq_bind, Option.some_bind]
  rw [show getBlock (setBlock (setBlock (setBlock (ensure h (node + req))
      (node + req) { c with next := b.next })
      (node + req) { c with next := b.next, prev := some node })
      node { b with next := some (node + req) }) (node + req) =
    some { c with next := b.next, prev := some node } from by
    rw [getBlock_setBlock, if_neg hne2, getBlock_setBlock_same]]
  simp only [Option.bind_eq_bind, Option.some_bind]
  cases hbn : b.next with
  | none =>
      simp only [Option.pure_def, Option.bind_eq_bind, Option.some_bind]
      rw [setSize_eq (b := { c with prev := some node, next := none }) (by
        rw [getBlock_setBlock, if_neg hne2, getBlock_setBlock_same])]
      simp only [Option.bind_eq_bind, Option.some_bind]
      rw [setStatus_eq (by rw [getBlock_setBlock_same])]
      simp only [Option.bind_eq_bind, Option.some_bind]
      rw [setSize_eq (b := { b with next := some (node + req) }) (by
        rw [getBlock_setBlock, if_neg hne, getBlock_setBlock, if_neg hne,
          getBlock_setBlock_same])]
      simp only [Option.bind_eq_bind, Option.some_bind, Option.pure_def]
      split
      next hyes =>
        refine ⟨_, rfl, ?_, ?_, ?_, ?_, by simp, by simp, by simp, by simp,
          by simp, by simp, ?_⟩
        · rw [getBlock_mk, lookupB_heap, getBlock_setBlock_same]
        · rw [getBlock_mk, lookupB_heap, getBlock_setBlock, if_neg hne2,
            getBlock_setBlock_same]
        · intro nn bn hnn2
          exact fun _ => absurd hnn2 (by simp)
        · intro y hy1 hy2 _
          have hy1s : ¬ node = y := fun hc => hy1 hc.symm
          have hy2s : ¬ node + req = y := fun hc => hy2 hc.symm
          rw [getBlock_mk, lookupB_heap]
          rw [getBlock_setBlock, if_neg hy1s, getBlock_setBlock, if_neg hy2s,
            getBlock_setBlock, if_neg hy2s, getBlock_setBlock, if_neg hy1s,
            getBlock_setBlock, if_neg hy2s, getBlock_setBlock, if_neg hy2s,
            getBlock_ensure_ne hy2s]
        · have hyes2 : h.heap_end = some node := by simpa using hyes
          rw [if_pos hyes2]
      next hno =>
        refine ⟨_, rfl, ?_, ?_, ?_, ?_, by simp, by simp, by simp, by simp,
          by simp, by simp, ?_⟩
        · rw [getBlock_setBlock_same]
        · rw [getBlock_setBlock, if_neg hne2, getBlock_setBlock_same]
        · intro nn bn hnn2
          exact fun _ => absurd hnn2 (by simp)
        · intro y hy1 hy2 _
          have hy1s : ¬ node = y := fun hc => hy1 hc.symm
          have hy2s : ¬ node + req = y := fun hc => hy2 hc.symm
          rw [getBlock_setBlock, if_neg hy1s, getBlock_setBlock, if_neg hy2s,
            getBlock_setBlock, if_neg hy2s, getBlock_setBlock, if_neg hy1s,
            getBlock_setBlock, if_neg hy2s, getBlock_setBlock, if_neg hy2s,
            getBlock_ensure_ne hy2s]
        · have hno2 : ¬ h.heap_end = some node := by simpa using hno
          rw [if_neg hno2]
          simp
  | some nn =>
      obtain ⟨hnn1, hnn2, bn, hbnn⟩ := hnn nn hbn
      have hnn1s : ¬ node + req = nn := fun hc => hnn1 hc.symm
      have hnn2s : ¬ node = nn := fun hc => hnn2 hc.symm
      simp only [Option.pure_def, Option.bind_eq_bind, Option.some_bind]
      rw [setPrev_eq (b := bn) (by
        rw [getBlock_setBlock, if_neg hnn2s, getBlock_setBlock, if_neg hnn1s,
          getBlock_setBlock, if_neg hnn1s, getBlock_ensure_ne hnn1s, hbnn])]
      simp only [Option.bind_eq_bind, Option.some_bind]
      rw [setSize_eq (b := { c with prev := some node, next := some nn }) (by
        rw [getBlock_setBlock, if_neg hnn1, getBlock_setBlock, if_neg hne2,
          getBlock_setBlock_same])]
      simp only [Option.bind_eq_bind, Option.some_bind]
      rw [setStatus_eq (by rw [getBlock_setBlock_same])]
      simp only [Option.bind_eq_bind, Option.some_bind]
      rw [setSize_eq (b := { b with next := some (node + req) }) (by
        rw [getBlock_setBlock, if_neg hne, getBlock_setBlock, if_neg hne,
          getBlock_setBlock, if_neg hnn2, getBlock_setBlock_same])]
      simp only [Option.bind_eq_bind, Option.some_bind, Option.pure_def]
      split
      next hyes =>
        refine ⟨_, rfl, ?_, ?_, ?_, ?_, by simp, by simp, by simp, by simp,
          by simp, by simp, ?_⟩
        · rw [getBlock_mk, lookupB_heap, getBlock_setBlock_same]
        · rw [getBlock_mk, lookupB_heap, getBlock_setBlock, if_neg hne2,
            getBlock_setBlock_same]
        · intro nn2 bn2 he1 he2
          injection he1 with he1
          subst he1
          rw [hbnn] at he2
          injection he2 with he2
          subst he2
          rw [getBlock_mk, lookupB_heap]
          rw [getBlock_setBlock, if_neg hnn2s, getBlock_setBlock,
            if_neg hnn1s, getBlock_setBlock, if_neg hnn1s,
            getBlock_setBlock_same]
        · intro y hy1 hy2 hy3
          have hy1s : ¬ node = y := fun hc => hy1 hc.symm
          have hy2s : ¬ node + req = y := fun hc => hy2 hc.symm
          have hy3s : ¬ nn = y := fun hc => (hy3 nn rfl) hc.symm
          rw [getBlock_mk, lookupB_heap]
          rw [getBlock_setBlock, if_neg hy1s, getBlock_setBlock, if_neg hy2s,
            getBlock_setBlock, if_neg hy2s, getBlock_setBlock, if_neg hy3s,
            getBlock_setBlock, if_neg hy1s, getBlock_setBlock, if_neg hy2s,
            getBlock_setBlock, if_neg hy2s, getBlock_ensure_ne hy2s]
        · have hyes2 : h.heap_end = some node := by simpa using hyes
          rw [if_pos hyes2]
      next hno =>
        refine ⟨_, rfl, ?_, ?_, ?_, ?_, by simp, by simp, by simp, by simp,
          by simp, by simp, ?_⟩
        · rw [getBlock_setBlock_same]
        · rw [getBlock_setBlock, if_neg hne2, getBlock_setBlock_same]
        · intro nn2 bn2 he1 he2
          injection he1 with he1
          subst he1
          rw [hbnn] at he2
          injection he2 with he2
          subst he2
          rw [getBlock_setBlock, if_neg hnn2s, getBlock_setBlock,
            if_neg hnn1s, getBlock_setBlock, if_neg hnn1s,
            getBlock_setBlock_same]
        · intro y hy1 hy2 hy3
          have hy1s : ¬ node = y := fun hc => hy1 hc.symm
          have hy2s : ¬ node + req = y := fun hc => hy2 hc.symm
          have hy3s : ¬ nn = y := fun hc => (hy3 nn rfl) hc.symm
          rw [getBlock_setBlock, if_neg hy1s, getBlock_setBlock, if_neg hy2s,
            getBlock_setBlock, if_neg hy2s, getBlock_setBlock, if_neg hy3s,
            getBlock_setBlock, if_neg hy1s, getBlock_setBlock, if_neg hy2s,
            getBlock_setBlock, if_neg hy2s, getBlock_ensure_ne hy2s]
        · have hno2 : ¬ h.heap_end = some node := by simpa using hno
          rw [if_neg hno2]
          simp

theorem chain_mem {h : Heap} {stop : Option Nat} :
    ∀ {l : List (Nat × BlockMeta)} {a? : Option Nat}, chain h stop a? l →
      ∀ e ∈ l, getBlock h e.1 = some e.2 := by
  intro l
  induction l with
  | nil => intro a? _ e he; simp at he
  | cons yc t ih =>
      obtain ⟨y, c⟩ := yc
      intro a? hc e he
      obtain ⟨_, hgb, hct⟩ := hc
      rcases List.mem_cons.1 he with rfl | het
      · exact hgb
      · exact ih hct e het

theorem chain_parts {h : Heap} {stop : Option Nat} :
    ∀ (l1 : List (Nat × BlockMeta)) {l2 : List (Nat × BlockMeta)}
      {a? : Option Nat}, chain h stop a? (l1 ++ l2) →
      ∃ mid, chain h mid a? l1 ∧ chain h stop mid l2 := by
  intro l1
  induction l1 with
  | nil => intro l2 a? hc; exact ⟨a?, rfl, hc⟩
  | cons yc t ih =>
      obtain ⟨y, c⟩ := yc
      intro l2 a? hc
      obtain ⟨ha, hgb, hct⟩ := hc
      obtain ⟨mid, h1, h2⟩ := ih hct
      exact ⟨mid, ⟨ha, hgb, h1⟩, h2⟩

theorem chain_length_le {h : Heap} {l : List (Nat × BlockMeta)}
    (hch : chain h none h.heap_start l) (hnd : (l.map Prod.fst).Nodup) :
    l.length ≤ h.blocks.length := by
  have hsub : (l.map Prod.fst).toFinset ⊆ (h.blocks.map Prod.fst).toFinset := by
    intro x hx
    rw [List.mem_toFinset] at hx ⊢
    obtain ⟨e, he, rfl⟩ := List.mem_map.1 hx
    have := chain_mem hch e he
    exact List.mem_map.2 ⟨(e.1, e.2), lookupB_mem this, rfl⟩
  have h1 : (l.map Prod.fst).toFinset.card = (l.map Prod.fst).length :=
    List.toFinset_card_of_nodup hnd
  have h2 := Finset.card_le_card hsub
  have h3 := List.toFinset_card_le (h.blocks.map Prod.fst)
  simp only [List.length_map] at h1 h3
  omega

theorem tiles_stop_ge : ∀ {l : List (Nat × BlockMeta)} {base stop : Nat},
    tiles base stop l → base ≤ stop := by
  intro l
  induction l with
  | nil => intro base stop ht; exact Nat.le_of_eq ht
  | cons yc t ih =>
      obtain ⟨y, c⟩ := yc
      intro base stop ht
      obtain ⟨hy, htt⟩ := ht
      have := ih htt
      omega

theorem tiles_mem : ∀ {l : List (Nat × BlockMeta)} {base stop : Nat},
    tiles base stop l →
    ∀ e ∈ l, base ≤ e.1 ∧ e.1 + SIZEOF_BLOCK + e.2.size ≤ stop := by
  intro l
  induction l with
  | nil => intro base stop _ e he; simp at he
  | cons yc t ih =>
      obtain ⟨y, c⟩ := yc
      intro base stop ht e he
      obtain ⟨hy, htt⟩ := ht
      subst hy
      have hge := tiles_stop_ge htt
      rcases List.mem_cons.1 he with rfl | het
      · refine ⟨Nat.le_refl _, ?_⟩
        show y + SIZEOF_BLOCK + c.size ≤ stop
        omega
      · have := ih htt e het
        omega

theorem tiles_starts : ∀ {l : List (Nat × BlockMeta)} {base stop : Nat},
    tiles base stop l →
    ∀ e ∈ l, ∀ e2 ∈ l, e.1 < e2.1 →
      e.1 + SIZEOF_BLOCK + e.2.size ≤ e2.1 := by
  intro l
  induction l with
  | nil => intro base stop _ e he; simp at he
  | cons yc t ih =>
      obtain ⟨y, c⟩ := yc
      intro base stop ht e he e2 he2 hlt
      obtain ⟨hy, htt⟩ := ht
      subst hy
      rcases List.mem_cons.1 he with rfl | het
      · rcases List.mem_cons.1 he2 with heq | het2
        · rw [heq] at hlt; omega
        · have := tiles_mem htt e2 het2
          show y + SIZEOF_BLOCK + c.size ≤ e2.1
          omega
      · rcases List.mem_cons.1 he2 with heq | het2
        · have := tiles_mem htt e het
          rw [heq] at hlt; simp at hlt; omega
        · exact ih htt e het e2 het2 hlt

theorem mem_arenaOf {l : List (Nat × BlockMeta)} {e : Nat × BlockMeta} :
    e ∈ arenaOf l ↔ e ∈ l ∧ ¬ e.2.status = Status.MAPPED := by
  simp [arenaOf, List.mem_filter]

theorem WF_foot {h : Heap} {l : List (Nat × BlockMeta)} (hwf : WF h l) :
    ∀ e ∈ l, HEAP_BASE ≤ e.1 ∧ e.1 + SIZEOF_BLOCK + e.2.size ≤ MMAP_TOP := by
  intro e he
  have hb : HEAP_BASE = 4096 := by norm_num [HEAP_BASE]
  by_cases hm : e.2.status = Status.MAPPED
  · obtain ⟨g, hgmem, hg1, hg2⟩ := hwf.mapped_ok e he hm
    obtain ⟨hlo, hhi, _⟩ := hwf.grants_lo g hgmem
    have h1 := hwf.brk_lo
    have h2 := hwf.brk_hi
    omega
  · have hea : e ∈ arenaOf l := mem_arenaOf.2 ⟨he, hm⟩
    have := tiles_mem hwf.tiles_ok e hea
    have h2 := hwf.brk_hi
    have h3 := hwf.mn_hi
    omega

theorem WF_small {h : Heap} {l : List (Nat × BlockMeta)} (hwf : WF h l) :
    ∀ e ∈ l, SIZEOF_BLOCK + e.2.size < W64 - 1 := by
  intro e he
  have := WF_foot hwf e he
  have hw := W64_eq
  have hmt : MMAP_TOP = 4611686018427387904 := by norm_num [MMAP_TOP]
  have hb : HEAP_BASE = 4096 := by norm_num [HEAP_BASE]
  omega

theorem WF_interior_ne {h : Heap} {l : List (Nat × BlockMeta)}
    (hwf : WF h l) {x : Nat} {b : BlockMeta} (hmem : (x, b) ∈ l)
    (hna : ¬ b.status = Status.MAPPED) {d : Nat} (hd0 : 0 < d)
    (hdlt : d < SIZEOF_BLOCK + b.size) :
    ∀ e ∈ l, ¬ e.1 = x + d := by
  intro e he heq
  have hxa : (x, b) ∈ arenaOf l := mem_arenaOf.2 ⟨hmem, hna⟩
  have hxm := tiles_mem hwf.tiles_ok (x, b) hxa
  by_cases hm : e.2.status = Status.MAPPED
  · obtain ⟨g, hgmem, hg1, _⟩ := hwf.mapped_ok e he hm
    obtain ⟨hlo, _, _⟩ := hwf.grants_lo g hgmem
    have h2 := hwf.brk_hi
    simp only at hxm
    omega
  · have hea : e ∈ arenaOf l := mem_arenaOf.2 ⟨he, hm⟩
    have hlt : (x, b).1 < e.1 := by simp only; omega
    have := tiles_starts hwf.tiles_ok (x, b) hxa e hea hlt
    simp only at this
    omega

theorem nodup_mid_ne {l1 : List (Nat × BlockMeta)} {x : Nat} {b : BlockMeta}
    {e2 : Nat × BlockMeta} {t2 : List (Nat × BlockMeta)}
    (hnd : ((l1 ++ (x, b) :: e2 :: t2).map Prod.fst).Nodup) : ¬ e2.1 = x := by
  have hsub : List.Sublist ((x, b) :: e2 :: t2) (l1 ++ (x, b) :: e2 :: t2) :=
    List.sublist_append_right _ _
  have hnd2 := List.Nodup.sublist (List.Sublist.map Prod.fst hsub) hnd
  simp only [List.map_cons, List.nodup_cons, List.mem_cons] at hnd2
  intro hc
  exact hnd2.1 (Or.inl hc.symm)

theorem find_fit_nofit {h : Heap} {l : List (Nat × BlockMeta)}
    {requested : Nat} (hch : chain h none h.heap_start l)
    (hnd : (l.map Prod.fst).Nodup)
    (hs : ∀ e ∈ l, SIZEOF_BLOCK + e.2.size < W64 - 1)
    (hnone : ∀ e ∈ l, ¬ qualifies requested e) :
    find_fit h requested = some (none, h) := by
  have hw := W64_eq
  have hlen := chain_length_le hch hnd
  rw [find_fit, findFitGo_chain l h.heap_start (none, W64 - 1)
    (h.blocks.length + 1) hch (by omega)]
  have h1 := (ffPure_spec requested l none (W64 - 1) hs (by omega)
    (by omega)).1 (fun e he hqe => absurd hqe (hnone e he))
  rw [h1]
  rfl

theorem find_fit_found {h : Heap} {l : List (Nat × BlockMeta)}
    {requested : Nat} (hch : chain h none h.heap_start l)
    (hnd : (l.map Prod.fst).Nodup)
    (hs : ∀ e ∈ l, SIZEOF_BLOCK + e.2.size < W64 - 1)
    (hreq : 0 < requested)
    (hgeo : ∀ x b, (x, b) ∈ l → b.status = Status.FREE →
      requested < SIZEOF_BLOCK + b.size → ∀ e ∈ l, ¬ e.1 = x + requested)
    (hex : ∃ e ∈ l, qualifies requested e) :
    ∃ l1 x b l2 h2, l = l1 ++ (x, b) :: l2 ∧ qualifies requested (x, b) ∧
      find_fit h requested = some (some x, h2) ∧
      (∀ e ∈ l, qualifies requested e →
        leftover requested (x, b) ≤ leftover requested e) ∧
      (∀ e ∈ l1, qualifies requested e →
        leftover requested (x, b) < leftover requested e) ∧
      (¬ SIZEOF_BLOCK + 1 ≤ leftover requested (x, b) → h2 = h) ∧
      (SIZEOF_BLOCK + 1 ≤ leftover requested (x, b) →
        getBlock h x = some b ∧
        getBlock h2 x =
          some ⟨wsub requested SIZEOF_BLOCK, b.status, b.prev,
            some (x + requested)⟩ ∧
        getBlock h2 (x + requested) =
          some ⟨wsub (leftover requested (x, b)) SIZEOF_BLOCK, Status.FREE,
            some x, b.next⟩ ∧
        (∀ nn bn, b.next = some nn → getBlock h nn = some bn →
            getBlock h2 nn = some { bn with prev := some (x + requested) }) ∧
        (∀ y, ¬ y = x → ¬ y = x + requested →
            (∀ nn, b.next = some nn → ¬ y = nn) →
            getBlock h2 y = getBlock h y) ∧
        h2.mem = h.mem ∧ h2.granted = h.granted ∧ h2.brk = h.brk ∧
        h2.mmapNext = h.mmapNext ∧ h2.heap_start = h.heap_start ∧
        h2.heap_pre = h.heap_pre ∧
        h2.heap_end = (if h.heap_end = some x then some (x + requested)
          else h.heap_end)) := by
  have hw := W64_eq
  have hlen := chain_length_le hch hnd
  have hex2 : ∃ e ∈ l, qualifies requested e ∧
      leftover requested e < W64 - 1 := by
    obtain ⟨e, he, hqe⟩ := hex
    have := hs e he
    exact ⟨e, he, hqe, by unfold leftover; omega⟩
  obtain ⟨l1, x, b, l2, hleq, hqx, _, hffp, hmin, hfirst⟩ :=
    (ffPure_spec requested l none (W64 - 1) hs (by omega) (by omega)).2 hex2
  have hmemx : (x, b) ∈ l := by
    rw [hleq]; exact List.mem_append_right _ (List.mem_cons_self _ _)
  have hgx : getBlock h x = some b := chain_mem hch (x, b) hmemx
  by_cases hsplit : SIZEOF_BLOCK + 1 ≤ leftover requested (x, b)
  · -- the winner is split
    have hne : ¬ x + requested = x := by omega
    have hrlt : requested < SIZEOF_BLOCK + b.size := by
      have : leftover requested (x, b) = SIZEOF_BLOCK + b.size - requested :=
        rfl
      have hq2 := hqx.2
      unfold qualifies at hq2
      omega
    have hnn : ∀ nn, b.next = some nn → ¬ nn = x + requested ∧ ¬ nn = x ∧
        ∃ bn, getBlock h nn = some bn := by
      intro nn hbn
      have hch2 : chain h none h.heap_start (l1 ++ (x, b) :: l2) := by
        rw [hleq] at hch; exact hch
      obtain ⟨mid, _, hcx⟩ := chain_parts l1 hch2
      obtain ⟨_, _, hcl2⟩ := hcx
      cases l2 with
      | nil =>
          have : b.next = none := hcl2
          rw [hbn] at this; cases this
      | cons e2 t2 =>
          obtain ⟨hb2, hgb2, _⟩ := hcl2
          rw [hbn] at hb2
          have hnne2 : nn = e2.1 := by injection hb2
          subst hnne2
          refine ⟨?_, ?_, ⟨e2.2, hgb2⟩⟩
          · have hmem2 : e2 ∈ l := by
              rw [hleq]
              exact List.mem_append_right _
                (List.mem_cons_of_mem _ (List.mem_cons_self _ _))
            exact hgeo x b hmemx hqx.1 hrlt e2 hmem2
          · rw [hleq] at hnd
            exact nodup_mid_ne hnd
    obtain ⟨h2, hfr, hp1, hp2, hp3, hp4, hp5, hp6, hp7, hp8, hp9, hp10,
      hp11⟩ := fragment_run hgx hne hnn
    refine ⟨l1, x, b, l2, h2, hleq, hqx, ?_, hmin, hfirst,
      fun hc => absurd hsplit hc, fun _ =>
        ⟨hgx, hp1, hp2, hp3, hp4, hp5, hp6, hp7, hp8, hp9, hp10, hp11⟩⟩
    rw [find_fit, findFitGo_chain l h.heap_start (none, W64 - 1)
      (h.blocks.length + 1) hch (by omega), hffp]
    simp only [Option.bind_eq_bind, Option.some_bind]
    rw [if_pos hsplit, hfr]
    rfl
  · -- leftover too small: returned unsplit
    refine ⟨l1, x, b, l2, h, hleq, hqx, ?_, hmin, hfirst, fun _ => rfl,
      fun hc => absurd hc hsplit⟩
    rw [find_fit, findFitGo_chain l h.heap_start (none, W64 - 1)
      (h.blocks.length + 1) hch (by omega), hffp]
    simp only [Option.bind_eq_bind, Option.some_bind]
    rw [if_neg hsplit]
    rfl

theorem wsub_self (a : Nat) : wsub a a = 0 := by
  unfold wsub
  rw [Nat.add_sub_cancel, Nat.mod_self]

/-- Claim C2: for a total required size `requested > 0`, over a well-formed
registry listing `l` the placement search `find_fit` (i) returns no node and
leaves the state unchanged when no block qualifies (a block qualifies exactly
when it is `FREE` and its header-plus-payload capacity is at least
`requested`); (ii) otherwise returns a qualifying block whose leftover
(capacity minus requirement) is minimal over all qualifying blocks and
strictly smaller than every qualifying block encountered earlier in list
order, splitting the winner exactly when the leftover can host a new header
plus at least one byte (the winner then keeps the requested footprint and a
`FREE` remainder block follows it), and leaving the heap untouched otherwise;
and (iii) the scan short-circuits on a leftover of exactly zero: a perfect
fit is returned immediately, whatever lies behind it and whatever fuel
remains. -/
theorem claim_C2 {h : Heap} {l : List (Nat × BlockMeta)} {requested : Nat}
    (hwf : WF h l) (hreq : 0 < requested) :
    ((∀ e ∈ l, ¬ qualifies requested e) →
       find_fit h requested = some (none, h)) ∧
    ((∃ e ∈ l, qualifies requested e) →
       ∃ l1 x b l2 h2, l = l1 ++ (x, b) :: l2 ∧ qualifies requested (x, b) ∧
         find_fit h requested = some (some x, h2) ∧
         (∀ e ∈ l, qualifies requested e →
            leftover requested (x, b) ≤ leftover requested e) ∧
         (∀ e ∈ l1, qualifies requested e →
            leftover requested (x, b) < leftover requested e) ∧
         (¬ SIZEOF_BLOCK + 1 ≤ leftover requested (x, b) → h2 = h) ∧
         (SIZEOF_BLOCK + 1 ≤ leftover requested (x, b) →
            getBlock h2 x =
              some ⟨wsub requested SIZEOF_BLOCK, b.status, b.prev,
                some (x + requested)⟩ ∧
            getBlock h2 (x + requested) =
              some ⟨wsub (leftover requested (x, b)) SIZEOF_BLOCK,
                Status.FREE, some x, b.next⟩)) ∧
    (∀ x b acc mini fuel, getBlock h x = some b → b.status = Status.FREE →
       wadd SIZEOF_BLOCK b.size = requested → 0 < mini →
       findFitGo h requested (some x) (acc, mini) (fuel + 1) =
         some (some x, 0)) := by
  refine ⟨?_, ?_, ?_⟩
  · exact fun hnone =>
      find_fit_nofit hwf.chain_ok hwf.nodup (WF_small hwf) hnone
  · intro hex
    have hgeo : ∀ x b, (x, b) ∈ l → b.status = Status.FREE →
        requested < SIZEOF_BLOCK + b.size → ∀ e ∈ l, ¬ e.1 = x + requested := by
      intro x b hm hf hlt
      have hna : ¬ b.status = Status.MAPPED := by
        rw [hf]; intro hc; cases hc
      exact WF_interior_ne hwf hm hna hreq hlt
    obtain ⟨l1, x, b, l2, h2, hleq, hqx, hff, hmin, hfirst, hnos, hyess⟩ :=
      find_fit_found hwf.chain_ok hwf.nodup (WF_small hwf) hreq hgeo hex
    exact ⟨l1, x, b, l2, h2, hleq, hqx, hff, hmin, hfirst, hnos,
      fun hsp => ⟨(hyess hsp).2.1, (hyess hsp).2.2.1⟩⟩
  · intro x b acc mini fuel hgb hfree heq hm
    rw [findFitGo, hgb]
    simp only [Option.bind_eq_bind, Option.some_bind]
    rw [if_pos ⟨hfree, by rw [heq]⟩, heq, wsub_self]
    rw [if_pos hm, if_pos rfl]
    rfl

theorem c2heapWF : WF c2heap c2list :=
  by constructor <;> decide

/-- Witness for C2: a ready arena whose single registry entry is one `FREE`
block of capacity 131072 bytes, scanned for a 40-byte requirement. -/
theorem claim_C2_witness :
    ((∀ e ∈ c2list, ¬ qualifies 40 e) →
       find_fit c2heap 40 = some (none, c2heap)) ∧
    ((∃ e ∈ c2list, qualifies 40 e) →
       ∃ l1 x b l2 h2, c2list = l1 ++ (x, b) :: l2 ∧ qualifies 40 (x, b) ∧
         find_fit c2heap 40 = some (some x, h2) ∧
         (∀ e ∈ c2list, qualifies 40 e →
            leftover 40 (x, b) ≤ leftover 40 e) ∧
         (∀ e ∈ l1, qualifies 40 e → leftover 40 (x, b) < leftover 40 e) ∧
         (¬ SIZEOF_BLOCK + 1 ≤ leftover 40 (x, b) → h2 = c2heap) ∧
         (SIZEOF_BLOCK + 1 ≤ leftover 40 (x, b) →
            getBlock h2 x =
              some ⟨wsub 40 SIZEOF_BLOCK, b.status, b.prev, some (x + 40)⟩ ∧
            getBlock h2 (x + 40) =
              some ⟨wsub (leftover 40 (x, b)) SIZEOF_BLOCK, Status.FREE,
                some x, b.next⟩)) ∧
    (∀ x b acc mini fuel, getBlock c2heap x = some b →
       b.status = Status.FREE → wadd SIZEOF_BLOCK b.size = 40 → 0 < mini →
       findFitGo c2heap 40 (some x) (acc, mini) (fuel + 1) =
         some (some x, 0)) :=
  claim_C2 c2heapWF (by decide)

theorem initialise_heap_run {h : Heap} {requested a : Nat} {h2 : Heap}
    (hpre : h.heap_pre = none) (hlo : 40 ≤ requested) (hhi : requested < W64)
    (hown : headersOwned h)
    (hrun : initialise_heap h requested = some (a, h2)) :
    ∃ b, getBlock h2 a = some b ∧ b.size = requested - SIZEOF_BLOCK ∧
      ((requested ≤ MMAP_THRESHOLD ∧ a = h.brk ∧
          h.brk + MMAP_THRESHOLD ≤ h.mmapNext) ∨
       (MMAP_THRESHOLD < requested ∧ a = h.mmapNext - pageAlign requested ∧
          h.brk + pageAlign requested ≤ h.mmapNext)) := by
  have hw := W64_eq
  have hth : MMAP_THRESHOLD = 131072 := by norm_num [MMAP_THRESHOLD]
  have hsz : SIZEOF_BLOCK = 32 := by norm_num [SIZEOF_BLOCK]
  by_cases hle : requested ≤ MMAP_THRESHOLD
  · have hcond : requested ≤ MMAP_THRESHOLD ∧ h.heap_pre = none := ⟨hle, hpre⟩
    rw [initialise_heap, if_pos hcond] at hrun
    by_cases hsb : h.brk + MMAP_THRESHOLD ≤ h.mmapNext
    case neg => simp [sbrkOp, hsb] at hrun
    have hwsub1 : wsub MMAP_THRESHOLD requested = MMAP_THRESHOLD - requested := by
      apply wsub_eq hle; omega
    have hwsub2 : wsub requested SIZEOF_BLOCK = requested - SIZEOF_BLOCK := by
      apply wsub_eq (by omega) hhi
    have hg0 : lookupB h.blocks h.brk = none := by
      refine lookupB_none (fun e he => ?_)
      have := hown e he; omega
    have hne1 : h.brk ≠ h.brk + requested := by omega
    by_cases hrem : SIZEOF_BLOCK + 1 ≤ MMAP_THRESHOLD - requested
    · have hwsub3 : wsub (MMAP_THRESHOLD - requested) SIZEOF_BLOCK =
          MMAP_THRESHOLD - requested - SIZEOF_BLOCK := by
        apply wsub_eq <;> omega
      have hgf : lookupB h.blocks (h.brk + requested) = none := by
        refine lookupB_none (fun e he => ?_)
        have := hown e he; omega
      have hne1s : h.brk + requested ≠ h.brk := by omega
      cases hst : h.heap_start with
      | none =>
          simp only [sbrkOp, if_pos hsb, Option.bind_eq_bind, Option.some_bind,
            Option.none_bind, Option.pure_def, ensure, getBlock, setSize,
            setStatus, setPrev, setNext, setF, setBlock, zeroMeta, fragment,
            lookupB_cons, hg0, hgf, hst, if_pos rfl, if_neg hne1,
            if_neg hne1s, if_true, eq_self_iff_true, hwsub1, hwsub2, hwsub3,
            if_pos hrem] at hrun
          rw [Option.some.injEq, Prod.mk.injEq] at hrun
          obtain ⟨ha, hh2⟩ := hrun
          subst ha
          subst hh2
          simp only [getBlock, lookupB_cons, if_pos rfl, if_neg hne1,
            if_neg hne1s]
          exact ⟨_, rfl, rfl, Or.inl ⟨hle, by trivial, hsb⟩⟩
      | some s0 =>
          cases hend : h.heap_end with
          | none =>
              simp only [sbrkOp, if_pos hsb, Option.bind_eq_bind,
                Option.some_bind, Option.none_bind, Option.pure_def, ensure,
                getBlock, setSize, setStatus, setPrev, setNext, setF, setBlock, zeroMeta,
                lookupB_cons, hg0, hst, hend, if_pos rfl, if_neg hne1,
                if_true, eq_self_iff_true, hwsub1, hwsub2,
                if_pos hrem] at hrun
              exact Option.noConfusion hrun
          | some e =>
              by_cases hbe : h.brk = e
              · subst hbe
                simp only [sbrkOp, if_pos hsb, Option.bind_eq_bind,
                  Option.some_bind, Option.none_bind, Option.pure_def, ensure,
                  getBlock, setSize, setStatus, setPrev, setNext, setF,
                  setBlock, zeroMeta, fragment, lookupB_cons, hg0, hgf, hst, hend,
                  if_pos rfl, if_neg hne1, if_neg hne1s, if_true,
                  eq_self_iff_true, hwsub1, hwsub2, hwsub3,
                  if_pos hrem] at hrun
                rw [Option.some.injEq, Prod.mk.injEq] at hrun
                obtain ⟨ha, hh2⟩ := hrun
                subst ha
                subst hh2
                simp only [getBlock, lookupB_cons, if_pos rfl, if_neg hne1,
                  if_neg hne1s]
                exact ⟨_, rfl, rfl, Or.inl ⟨hle, by trivial, hsb⟩⟩
              · cases hlk : lookupB h.blocks e with
                | none =>
                    simp only [sbrkOp, if_pos hsb, Option.bind_eq_bind,
                      Option.some_bind, Option.none_bind, Option.pure_def,
                      ensure, getBlock, setSize, setStatus, setPrev, setNext,
                      setF, setBlock, zeroMeta, lookupB_cons, hg0, hst, hend, hlk,
                      if_pos rfl, if_neg hne1, if_neg hbe, if_true,
                      eq_self_iff_true, hwsub1, hwsub2, if_pos hrem] at hrun
                    exact Option.noConfusion hrun
                | some be =>
                    have hef : e ≠ h.brk + requested := by
                      have := hown _ (lookupB_mem hlk)
                      simp only at this
                      omega
                    have hfe : h.brk + requested ≠ e := fun hx => hef hx.symm
                    have hbe2 : e ≠ h.brk := fun hx => hbe hx.symm
                    simp only [sbrkOp, if_pos hsb, Option.bind_eq_bind,
                      Option.some_bind, Option.none_bind, Option.pure_def,
                      ensure, getBlock, setSize, setStatus, setPrev, setNext,
                      setF, setBlock, zeroMeta, fragment, lookupB_cons, hg0, hgf, hst,
                      hend, hlk, if_pos rfl, if_neg hne1, if_neg hne1s,
                      if_neg hbe, if_neg hbe2, if_neg hef, if_neg hfe,
                      if_true, eq_self_iff_true, hwsub1, hwsub2, hwsub3,
                      if_pos hrem] at hrun
                    rw [Option.some.injEq, Prod.mk.injEq] at hrun
                    obtain ⟨ha, hh2⟩ := hrun
                    subst ha
                    subst hh2
                    simp only [getBlock, lookupB_cons, if_pos rfl,
                      if_neg hne1, if_neg hne1s, if_neg hbe, if_neg hbe2,
                      if_neg hef, if_neg hfe]
                    exact ⟨_, rfl, rfl, Or.inl ⟨hle, by trivial, hsb⟩⟩
    · cases hst : h.heap_start with
      | none =>
          simp only [sbrkOp, if_pos hsb, Option.bind_eq_bind, Option.some_bind,
            Option.none_bind, Option.pure_def, ensure, getBlock, setSize,
            setStatus, setPrev, setNext, setF, setBlock, zeroMeta,
            lookupB_cons, hg0, hst, if_pos rfl, if_neg hne1,
            if_true, eq_self_iff_true, hwsub1, hwsub2,
            if_neg hrem] at hrun
          rw [Option.some.injEq, Prod.mk.injEq] at hrun
          obtain ⟨ha, hh2⟩ := hrun
          subst ha
          subst hh2
          simp only [getBlock, lookupB_cons, if_pos rfl]
          exact ⟨_, rfl, rfl, Or.inl ⟨hle, by trivial, hsb⟩⟩
      | some s0 =>
          cases hend : h.heap_end with
          | none =>
              simp only [sbrkOp, if_pos hsb, Option.bind_eq_bind,
                Option.some_bind, Option.none_bind, Option.pure_def, ensure,
                getBlock, setSize, setStatus, setPrev, setNext, setF, setBlock, zeroMeta,
                lookupB_cons, hg0, hst, hend, if_pos rfl, if_neg hne1,
                if_true, eq_self_iff_true, hwsub1, hwsub2,
                if_neg hrem] at hrun
              exact Option.noConfusion hrun
          | some e =>
              by_cases hbe : h.brk = e
              · subst hbe
                simp only [sbrkOp, if_pos hsb, Option.bind_eq_bind,
                  Option.some_bind, Option.none_bind, Option.pure_def, ensure,
                  getBlock, setSize, setStatus, setPrev, setNext, setF,
                  setBlock, zeroMeta, lookupB_cons, hg0, hst, hend,
                  if_pos rfl, if_neg hne1, if_true,
                  eq_self_iff_true, hwsub1, hwsub2, if_neg hrem] at hrun
                rw [Option.some.injEq, Prod.mk.injEq] at hrun
                obtain ⟨ha, hh2⟩ := hrun
                subst ha
                subst hh2
                simp only [getBlock, lookupB_cons, if_pos rfl]
                exact ⟨_, rfl, rfl, Or.inl ⟨hle, by trivial, hsb⟩⟩
              · cases hlk : lookupB h.blocks e with
                | none =>
                    simp only [sbrkOp, if_pos hsb, Option.bind_eq_bind,
                      Option.some_bind, Option.none_bind, Option.pure_def,
                      ensure, getBlock, setSize, setStatus, setPrev, setNext,
                      setF, setBlock, zeroMeta, lookupB_cons, hg0, hst, hend, hlk,
                      if_pos rfl, if_neg hne1, if_neg hbe, if_true,
                      eq_self_iff_true, hwsub1, hwsub2, if_neg hrem] at hrun
                    exact Option.noConfusion hrun
                | some be =>
                    have hbe2 : e ≠ h.brk := fun hx => hbe hx.symm
                    simp only [sbrkOp, if_pos hsb, Option.bind_eq_bind,
                      Option.some_bind, Option.none_bind, Option.pure_def,
                      ensure, getBlock, setSize, setStatus, setPrev, setNext,
                      setF, setBlock, zeroMeta, lookupB_cons, hg0, hst, hend, hlk,
                      if_pos rfl, if_neg hne1, if_neg hbe, if_neg hbe2,
                      if_true, eq_self_iff_true, hwsub1, hwsub2,
                      if_neg hrem] at hrun
                    rw [Option.some.injEq, Prod.mk.injEq] at hrun
                    obtain ⟨ha, hh2⟩ := hrun
                    subst ha
                    subst hh2
                    simp only [getBlock, lookupB_cons, if_neg hbe2, if_pos rfl]
                    exact ⟨_, rfl, rfl, Or.inl ⟨hle, by trivial, hsb⟩⟩
  · have hgt : MMAP_THRESHOLD < requested := by omega
    have hcond : ¬(requested ≤ MMAP_THRESHOLD ∧ h.heap_pre = none) := by
      rintro ⟨hx, _⟩; omega
    rw [initialise_heap, if_neg hcond] at hrun
    have hwsub2 : wsub requested SIZEOF_BLOCK = requested - SIZEOF_BLOCK := by
      apply wsub_eq (by omega) hhi
    have hr0 : ¬ requested = 0 := by omega
    have hpa : 4096 ≤ pageAlign requested := by
      unfold pageAlign; omega
    by_cases hmm : h.brk + pageAlign requested ≤ h.mmapNext
    case neg => simp [mmap_alloc, mmapOp, hr0, hmm] at hrun
    have hga : lookupB h.blocks (h.mmapNext - pageAlign requested) = none := by
      refine lookupB_none (fun e he => ?_)
      have := hown e he; omega
    cases hst : h.heap_start with
    | none =>
        simp only [mmap_alloc, mmapOp, if_neg hr0, if_pos hmm,
          Option.bind_eq_bind, Option.some_bind, Option.none_bind,
          Option.pure_def, ensure, getBlock, setSize, setStatus, setPrev,
          setNext, setF, setBlock, zeroMeta, lookupB_cons, hga, hst,
          if_pos rfl, if_true, eq_self_iff_true, hwsub2] at hrun
        rw [Option.some.injEq, Prod.mk.injEq] at hrun
        obtain ⟨ha, hh2⟩ := hrun
        subst ha
        subst hh2
        simp only [getBlock, lookupB_cons, if_pos rfl]
        exact ⟨_, rfl, rfl, Or.inr ⟨hgt, by trivial, hmm⟩⟩
    | some s0 =>
        cases hend : h.heap_end with
        | none =>
            simp only [mmap_alloc, mmapOp, if_neg hr0, if_pos hmm,
              Option.bind_eq_bind, Option.some_bind, Option.none_bind,
              Option.pure_def, ensure, getBlock, setSize, setStatus, setPrev,
              setNext, setF, setBlock, zeroMeta, lookupB_cons, hga, hst, hend,
              if_pos rfl, if_true, eq_self_iff_true, hwsub2] at hrun
            exact Option.noConfusion hrun
        | some e =>
            by_cases hbe : h.mmapNext - pageAlign requested = e
            · subst hbe
              simp only [mmap_alloc, mmapOp, if_neg hr0, if_pos hmm,
                Option.bind_eq_bind, Option.some_bind, Option.none_bind,
                Option.pure_def, ensure, getBlock, setSize, setStatus, setPrev,
                setNext, setF, setBlock, zeroMeta, lookupB_cons, hga, hst, hend,
                if_pos rfl, if_true, eq_self_iff_true, hwsub2] at hrun
              rw [Option.some.injEq, Prod.mk.injEq] at hrun
              obtain ⟨ha, hh2⟩ := hrun
              subst ha
              subst hh2
              simp only [getBlock, lookupB_cons, if_pos rfl]
              exact ⟨_, rfl, rfl, Or.inr ⟨hgt, by trivial, hmm⟩⟩
            · cases hlk : lookupB h.blocks e with
              | none =>
                  simp only [mmap_alloc, mmapOp, if_neg hr0, if_pos hmm,
                    Option.bind_eq_bind, Option.some_bind, Option.none_bind,
                    Option.pure_def, ensure, getBlock, setSize, setStatus,
                    setPrev, setNext, setF, setBlock, zeroMeta, lookupB_cons,
                    hga, hst, hend, hlk, if_pos rfl, if_neg hbe, if_true,
                    eq_self_iff_true, hwsub2] at hrun
                  exact Option.noConfusion hrun
              | some be =>
                  have hbe2 : e ≠ h.mmapNext - pageAlign requested :=
                    fun hx => hbe hx.symm
                  simp only [mmap_alloc, mmapOp, if_neg hr0, if_pos hmm,
                    Option.bind_eq_bind, Option.some_bind, Option.none_bind,
                    Option.pure_def, ensure, getBlock, setSize, setStatus,
                    setPrev, setNext, setF, setBlock, zeroMeta, lookupB_cons,
                    hga, hst, hend, hlk, if_pos rfl, if_neg hbe, if_neg hbe2,
                    if_true, eq_self_iff_true, hwsub2] at hrun
                  rw [Option.some.injEq, Prod.mk.injEq] at hrun
                  obtain ⟨ha, hh2⟩ := hrun
                  subst ha
                  subst hh2
                  simp only [getBlock, lookupB_cons, if_pos rfl,
                    if_neg hbe2]
                  exact ⟨_, rfl, rfl, Or.inr ⟨hgt, by trivial, hmm⟩⟩

theorem lastOr_cons (a : Nat × BlockMeta) (t : List (Nat × BlockMeta))
    (pa : Option Nat) : lastOr (a :: t) pa = lastOr t (some a.1) := by
  cases t with
  | nil => rfl
  | cons b t2 =>
      unfold lastOr
      rw [List.getLast?_cons_cons]
      cases hgl : (b :: t2).getLast? with
      | none => exact absurd hgl (by simp)
      | some e => rfl

theorem lastOr_none_eq (l : List (Nat × BlockMeta)) :
    lastOr l none = (l.getLast?).map Prod.fst := by
  unfold lastOr
  cases l.getLast? <;> rfl

theorem lastOr_concat (l : List (Nat × BlockMeta)) (a : Nat × BlockMeta)
    (pa : Option Nat) : lastOr (l ++ [a]) pa = some a.1 := by
  unfold lastOr
  rw [List.getLast?_concat]

theorem prevs_concat : ∀ (l : List (Nat × BlockMeta)) {y : Nat}
    {c : BlockMeta} {pa : Option Nat}, prevs (l ++ [(y, c)]) pa →
    prevs l pa ∧ c.prev = lastOr l pa := by
  intro l
  induction l with
  | nil =>
      intro y c pa hp
      exact ⟨trivial, hp.1⟩
  | cons zd t ih =>
      obtain ⟨z, d⟩ := zd
      intro y c pa hp
      obtain ⟨hd, ht⟩ := hp
      obtain ⟨ht2, hc⟩ := ih ht
      refine ⟨⟨hd, ht2⟩, ?_⟩
      rw [lastOr_cons]
      exact hc

theorem arenaOf_concat_mapped (l : List (Nat × BlockMeta)) {y : Nat}
    {c : BlockMeta} (hm : c.status = Status.MAPPED) :
    arenaOf (l ++ [(y, c)]) = arenaOf l := by
  simp [arenaOf, List.filter_append, hm]

theorem arenaOf_concat_other (l : List (Nat × BlockMeta)) {y : Nat}
    {c : BlockMeta} (hm : ¬ c.status = Status.MAPPED) :
    arenaOf (l ++ [(y, c)]) = arenaOf l ++ [(y, c)] := by
  simp [arenaOf, List.filter_append, hm]

theorem walkBack_spec {h : Heap} :
    ∀ (l : List (Nat × BlockMeta)) (fuel : Nat),
      (∀ e ∈ l, getBlock h e.1 = some e.2) →
      prevs l none → l.length ≤ fuel →
      walkBack h (lastOr l none) fuel =
        some (lastOr (arenaOf l) none) := by
  intro l
  induction l using List.reverseRecOn with
  | nil => intro fuel _ _ _; cases fuel <;> rfl
  | append_singleton l' yc ih =>
      obtain ⟨y, c⟩ := yc
      intro fuel hg hp hf
      obtain ⟨hp', hcprev⟩ := prevs_concat l' hp
      have hgyc : getBlock h y = some c :=
        hg (y, c) (List.mem_append_right _ (List.mem_cons_self _ _))
      rw [lastOr_concat]
      cases fuel with
      | zero =>
          rw [List.length_append] at hf
          simp at hf
      | succ f =>
          rw [walkBack, hgyc]
          simp only [Option.bind_eq_bind, Option.some_bind]
          by_cases hm : c.status = Status.MAPPED
          · rw [if_pos hm, hcprev]
            rw [arenaOf_concat_mapped l' hm]
            exact ih f (fun e he => hg e (List.mem_append_left _ he)) hp'
              (by rw [List.length_append] at hf; simp at hf; omega)
          · rw [if_neg hm]
            rw [arenaOf_concat_other l' hm, lastOr_concat]
            rfl

theorem tiles_last : ∀ {l : List (Nat × BlockMeta)} {base stop : Nat},
    tiles base stop l → ∀ e, l.getLast? = some e →
      e.1 + SIZEOF_BLOCK + e.2.size = stop := by
  intro l
  induction l with
  | nil => intro base stop _ e he; simp at he
  | cons yc t ih =>
      obtain ⟨y, c⟩ := yc
      intro base stop ht e he
      obtain ⟨hy, htt⟩ := ht
      subst hy
      cases t with
      | nil =>
          simp at he
          subst he
          simp only
          exact htt
      | cons zd t2 =>
          rw [List.getLast?_cons_cons] at he
          exact ih htt e he

theorem getBlock_upd_bm (h : Heap) (bk : Nat) (mm : Nat → Nat) (x : Nat) :
    getBlock { h with brk := bk, mem := mm } x = getBlock h x := rfl

theorem upd_bm_heap_end (h : Heap) (bk : Nat) (mm : Nat → Nat) :
    ({ h with brk := bk, mem := mm } : Heap).heap_end = h.heap_end := rfl

theorem upd_bm_heap_start (h : Heap) (bk : Nat) (mm : Nat → Nat) :
    ({ h with brk := bk, mem := mm } : Heap).heap_start = h.heap_start := rfl

theorem upd_bm_heap_pre (h : Heap) (bk : Nat) (mm : Nat → Nat) :
    ({ h with brk := bk, mem := mm } : Heap).heap_pre = h.heap_pre := rfl

theorem upd_bm_granted (h : Heap) (bk : Nat) (mm : Nat → Nat) :
    ({ h with brk := bk, mem := mm } : Heap).granted = h.granted := rfl

theorem upd_bm_mmapNext (h : Heap) (bk : Nat) (mm : Nat → Nat) :
    ({ h with brk := bk, mem := mm } : Heap).mmapNext = h.mmapNext := rfl

theorem upd_bm_brk (h : Heap) (bk : Nat) (mm : Nat → Nat) :
    ({ h with brk := bk, mem := mm } : Heap).brk = bk := rfl

theorem getBlock_upd_end (h : Heap) (e : Option Nat) (x : Nat) :
    getBlock { h with heap_end := e } x = getBlock h x := rfl

theorem nonempty_of_arenaOf {l : List (Nat × BlockMeta)}
    (ha : ¬ arenaOf l = []) : ¬ l = [] := by
  intro hc
  subst hc
  exact ha rfl

theorem mem_of_getLast {l : List (Nat × BlockMeta)} {e : Nat × BlockMeta}
    (h : l.getLast? = some e) : e ∈ l := by
  induction l with
  | nil => simp at h
  | cons a t ih =>
      cases t with
      | nil =>
          simp at h
          simp [h]
      | cons b t2 =>
          rw [List.getLast?_cons_cons] at h
          exact List.mem_cons_of_mem _ (ih h)

theorem appendNew_run {h : Heap} {l : List (Nat × BlockMeta)}
    {size req : Nat} {h2 : Heap} {res : Option Nat}
    (hwf : WF h l) (hl : ¬ l = []) (hreq0 : 0 < req)
    (hrun : appendNew h size req = some (h2, res)) :
    res = some (h.brk + SIZEOF_BLOCK) ∧
    h.brk + req ≤ h.mmapNext ∧
    getBlock h2 h.brk = some ⟨align size, Status.ALLOC, h.heap_end, none⟩ ∧
    h2.brk = h.brk + req ∧ h2.granted = h.granted ∧
    h2.mmapNext = h.mmapNext := by
  rw [appendNew] at hrun
  by_cases hsb : h.brk + req ≤ h.mmapNext
  case neg =>
    rw [sbrkOp, if_neg hsb] at hrun
    simp at hrun
  rw [sbrkOp, if_pos hsb] at hrun
  simp only [Option.bind_eq_bind, Option.some_bind] at hrun
  have hbrk_lt : h.brk < h.mmapNext := by omega
  have hg0 : getBlock h h.brk = none :=
    getBlock_none_of_gap h hwf.owned (Nat.le_refl _) hbrk_lt
  have hg0b : getBlock
      { h with brk := h.brk + req, mem := zeroRange h.mem h.brk req }
      h.brk = none := hg0
  rw [ensure_of_none hg0b] at hrun
  rw [setSize_eq (getBlock_setBlock_same _ _ _) (align size)] at hrun
  simp only [Option.bind_eq_bind, Option.some_bind] at hrun
  rw [setPrev_eq (getBlock_setBlock_same _ _ _)] at hrun
  simp only [Option.bind_eq_bind, Option.some_bind] at hrun
  rw [setNext_eq (getBlock_setBlock_same _ _ _) none] at hrun
  simp only [Option.bind_eq_bind, Option.some_bind] at hrun
  simp only [setBlock_heap_end, upd_bm_heap_end] at hrun
  -- the registry is nonempty, so heap_end names its last entry
  cases hly : l.getLast? with
  | none =>
      exact absurd (by simpa using hly) hl
  | some yc =>
      obtain ⟨y, cy⟩ := yc
      have hend : h.heap_end = some y := by
        rw [hwf.end_ok, hly]; rfl
      have hmemy : (y, cy) ∈ l := mem_of_getLast hly
      have hgy : getBlock h y = some cy := chain_mem hwf.chain_ok _ hmemy
      have hyb : ¬ y = h.brk := by
        have := hwf.owned _ (lookupB_mem hgy)
        simp only at this
        omega
      have hby : ¬ h.brk = y := fun hc => hyb hc.symm
      rw [hend] at hrun
      simp only [Option.bind_eq_bind, Option.some_bind] at hrun
      obtain ⟨a1, hsn, hrun⟩ := bindSome hrun
      obtain ⟨cy2, hgcy2, ha1⟩ := setNext_inv hsn
      rw [getBlock_setBlock, if_neg hby, getBlock_setBlock, if_neg hby,
        getBlock_setBlock, if_neg hby, getBlock_setBlock, if_neg hby,
        getBlock_mk, lookupB_heap, hgy] at hgcy2
      injection hgcy2 with hcy
      subst hcy
      subst ha1
      obtain ⟨a2, hss, hrun⟩ := bindSome hrun
      obtain ⟨c3, hgc3, ha2⟩ := setStatus_inv hss
      rw [getBlock_upd_end, getBlock_setBlock, if_neg hyb,
        getBlock_setBlock_same] at hgc3
      injection hgc3 with hc3
      subst hc3
      subst ha2
      simp only [Option.pure_def, Option.some.injEq, Prod.mk.injEq] at hrun
      obtain ⟨hh2, hres⟩ := hrun
      subst hh2
      refine ⟨hres.symm, hsb, ?_, ?_, ?_, ?_⟩
      · rw [hend, getBlock_setBlock_same]
      · simp [setBlock]
      · simp [setBlock]
      · simp [setBlock]

theorem upd_mgm_heap_end (h : Heap) (mn : Nat) (gr : List (Nat × Nat))
    (mm : Nat → Nat) :
    ({ h with mmapNext := mn, granted := gr, mem := mm } : Heap).heap_end =
      h.heap_end := rfl

theorem getBlock_upd_mgm (h : Heap) (mn : Nat) (gr : List (Nat × Nat))
    (mm : Nat → Nat) (x : Nat) :
    getBlock { h with mmapNext := mn, granted := gr, mem := mm } x =
      getBlock h x := rfl

theorem os_malloc_arena_inv {h : Heap} {l : List (Nat × BlockMeta)}
    {size : Nat} {h2 : Heap} {res : Option Nat}
    (hwf : WF h l) (hpre : ¬ h.heap_pre = none) (hs0 : ¬ size = 0)
    (hbound : SIZEOF_BLOCK + align size < W64)
    (hnofit : ∀ e ∈ l, ¬ qualifies (wadd SIZEOF_BLOCK (align size)) e)
    (harena : wadd SIZEOF_BLOCK (align size) ≤ MMAP_THRESHOLD)
    (hrun : os_malloc h size = some (h2, res)) :
    ∃ nb b2, res = some (nb + SIZEOF_BLOCK) ∧
      getBlock h2 nb = some b2 ∧ b2.status = Status.ALLOC ∧
      b2.size = align size ∧ nb % 8 = 0 ∧ HEAP_BASE ≤ nb ∧
      nb + SIZEOF_BLOCK + align size = h2.brk ∧ h2.brk ≤ h.mmapNext ∧
      h2.granted = h.granted ∧ h2.mmapNext = h.mmapNext ∧
      ((∃ bb, (arenaOf l).getLast? = some (nb, bb) ∧ (nb, bb) ∈ l ∧
          nb + SIZEOF_BLOCK + bb.size = h.brk) ∨ nb = h.brk) := by
  have hw := W64_eq
  have hsz : SIZEOF_BLOCK = 32 := by norm_num [SIZEOF_BLOCK]
  have hre : wadd SIZEOF_BLOCK (align size) = SIZEOF_BLOCK + align size :=
    wadd_eq hbound
  rw [os_malloc] at hrun
  simp only [if_neg hs0, if_neg hpre] at hrun
  rw [find_fit_nofit hwf.chain_ok hwf.nodup (WF_small hwf) hnofit] at hrun
  simp only [Option.bind_eq_bind, Option.some_bind] at hrun
  have hnlt : ¬ MMAP_THRESHOLD < wadd SIZEOF_BLOCK (align size) :=
    not_lt.2 harena
  rw [if_neg hnlt] at hrun
  have hwb : walkBack h h.heap_end (h.blocks.length + 1) =
      some (lastOr (arenaOf l) none) := by
    rw [hwf.end_ok, ← lastOr_none_eq]
    exact walkBack_spec l _ (chain_mem hwf.chain_ok) hwf.prevs_ok
      (by have := chain_length_le hwf.chain_ok hwf.nodup; omega)
  rw [hwb] at hrun
  simp only [Option.bind_eq_bind, Option.some_bind] at hrun
  have hane : ¬ arenaOf l = [] := fun hc => hpre (hwf.pre_ok.2 hc)
  cases hlast : (arenaOf l).getLast? with
  | none => exact absurd (by simpa using hlast) hane
  | some nbb =>
      obtain ⟨nb, bb⟩ := nbb
      have hlo2 : lastOr (arenaOf l) none = some nb := by
        unfold lastOr; rw [hlast]
      rw [hlo2] at hrun
      simp only [Option.bind_eq_bind, Option.some_bind] at hrun
      have hmem_ar : (nb, bb) ∈ arenaOf l := mem_of_getLast hlast
      have hmem : (nb, bb) ∈ l := (mem_arenaOf.1 hmem_ar).1
      have hgnb : getBlock h nb = some bb := chain_mem hwf.chain_ok _ hmem
      have hlastfoot : nb + SIZEOF_BLOCK + bb.size = h.brk := by
        have := tiles_last hwf.tiles_ok _ hlast
        simpa using this
      have hal : nb % 8 = 0 := (hwf.aligned _ hmem).1
      have hbase : HEAP_BASE ≤ nb := by
        have := (tiles_mem hwf.tiles_ok _ hmem_ar).1
        simpa using this
      rw [hgnb] at hrun
      simp only [Option.bind_eq_bind, Option.some_bind] at hrun
      by_cases hfree : bb.status = Status.FREE
      · -- the last arena block is free but too small: extend it in place
        rw [if_pos hfree] at hrun
        have hnq := hnofit _ hmem
        have hbbs : bb.size < align size := by
          unfold qualifies at hnq
          push_neg at hnq
          have h9 := hnq hfree
          simp only at h9
          omega
        have hd : wsub (align size) bb.size = align size - bb.size :=
          wsub_eq (by omega) (by omega)
        rw [hd] at hrun
        by_cases hsb : h.brk + (align size - bb.size) ≤ h.mmapNext
        case neg =>
          rw [sbrkOp, if_neg hsb] at hrun
          simp at hrun
        rw [sbrkOp, if_pos hsb] at hrun
        simp only [Option.bind_eq_bind, Option.some_bind] at hrun
        have hgnb2 : getBlock
            { h with brk := h.brk + (align size - bb.size),
                     mem := zeroRange h.mem h.brk (align size - bb.size) }
            nb = some bb := hgnb
        rw [setSize_eq hgnb2 (align size)] at hrun
        simp only [Option.bind_eq_bind, Option.some_bind] at hrun
        rw [setStatus_eq (getBlock_setBlock_same _ _ _) Status.ALLOC] at hrun
        simp only [Option.bind_eq_bind, Option.some_bind, Option.pure_def,
          Option.some.injEq, Prod.mk.injEq] at hrun
        obtain ⟨hh2, hres⟩ := hrun
        subst hh2
        refine ⟨nb, _, hres.symm, getBlock_setBlock_same _ _ _, rfl, rfl,
          hal, hbase, ?_, ?_, by simp [setBlock], by simp [setBlock],
          Or.inl ⟨bb, rfl, hmem, hlastfoot⟩⟩
        · simp only [setBlock_brk, upd_bm_brk]
          omega
        · simp only [setBlock_brk, upd_bm_brk]
          omega
      · -- the last arena block is not free: append a fresh block
        rw [if_neg hfree] at hrun
        obtain ⟨hres, hsb, hgb, hbrk, hgr, hmn⟩ :=
          appendNew_run hwf (nonempty_of_arenaOf hane) (by omega) hrun
        refine ⟨h.brk, _, hres, hgb, rfl, rfl, hwf.brk_al, hwf.brk_lo,
          ?_, ?_, hgr, hmn, Or.inr rfl⟩
        · omega
        · omega

theorem os_malloc_mapped_inv {h : Heap} {l : List (Nat × BlockMeta)}
    {size : Nat} {h2 : Heap} {res : Option Nat}
    (hwf : WF h l) (hpre : ¬ h.heap_pre = none) (hs0 : ¬ size = 0)
    (hnofit : ∀ e ∈ l, ¬ qualifies (wadd SIZEOF_BLOCK (align size)) e)
    (hmap : MMAP_THRESHOLD < wadd SIZEOF_BLOCK (align size))
    (hrun : os_malloc h size = some (h2, res)) :
    ∃ nb b2, res = some (nb + SIZEOF_BLOCK) ∧
      nb = h.mmapNext - pageAlign (wadd SIZEOF_BLOCK (align size)) ∧
      h.brk + pageAlign (wadd SIZEOF_BLOCK (align size)) ≤ h.mmapNext ∧
      getBlock h2 nb = some b2 ∧ b2.status = Status.MAPPED ∧
      b2.size = wsub (wadd SIZEOF_BLOCK (align size)) SIZEOF_BLOCK ∧
      h2.brk = h.brk ∧ h2.mmapNext = nb ∧
      h2.granted =
        (nb, pageAlign (wadd SIZEOF_BLOCK (align size))) :: h.granted := by
  have hsz : SIZEOF_BLOCK = 32 := by norm_num [SIZEOF_BLOCK]
  rw [os_malloc] at hrun
  simp only [if_neg hs0, if_neg hpre] at hrun
  rw [find_fit_nofit hwf.chain_ok hwf.nodup (WF_small hwf) hnofit] at hrun
  simp only [Option.bind_eq_bind, Option.some_bind] at hrun
  rw [if_pos hmap] at hrun
  obtain ⟨⟨nb, h1⟩, hma, hrun⟩ := bindSome hrun
  obtain ⟨hm, hmo, hgb1, hframe, hmem1, hgr1, hbrk1, hmn1, hhs1, hhe1,
    hhp1⟩ := mmap_alloc_inv hma
  obtain ⟨hr0, hroom, hnb, hhm⟩ := mmapOp_inv hmo
  have hpa : 4096 ≤ pageAlign (wadd SIZEOF_BLOCK (align size)) := by
    unfold pageAlign; omega
  have hane : ¬ arenaOf l = [] := fun hc => hpre (hwf.pre_ok.2 hc)
  have hl : ¬ l = [] := nonempty_of_arenaOf hane
  cases hly : l.getLast? with
  | none => exact absurd (by simpa using hly) hl
  | some yc =>
      obtain ⟨y, cy⟩ := yc
      have hend : h.heap_end = some y := by
        rw [hwf.end_ok, hly]; rfl
      have hmemy : (y, cy) ∈ l := mem_of_getLast hly
      have hgy : getBlock h y = some cy := chain_mem hwf.chain_ok _ hmemy
      have hynb : ¬ y = nb := by
        have := hwf.owned _ (lookupB_mem hgy)
        simp only at this
        omega
      have hgy1 : getBlock h1 y = some cy := by
        rw [hframe y hynb]
        subst hhm
        rw [getBlock_upd_mgm]
        exact hgy
      have hend1 : h1.heap_end = some y := by
        rw [hhe1]
        subst hhm
        rw [upd_mgm_heap_end]
        exact hend
      rw [hend1] at hrun
      simp only [Option.bind_eq_bind, Option.some_bind] at hrun
      rw [setNext_eq hgy1 (some nb)] at hrun
      simp only [Option.bind_eq_bind, Option.some_bind, Option.pure_def,
        Option.some.injEq, Prod.mk.injEq] at hrun
      obtain ⟨hh2, hres⟩ := hrun
      subst hh2
      refine ⟨nb, ⟨wsub (wadd SIZEOF_BLOCK (align size)) SIZEOF_BLOCK,
        Status.MAPPED, hm.heap_end, none⟩, hres.symm, hnb, hroom, ?_, rfl,
        rfl, ?_, ?_, ?_⟩
      · rw [getBlock_upd_end, getBlock_setBlock, if_neg hynb]
        exact hgb1
      · simp only [setBlock_brk]
        rw [hbrk1]
        subst hhm
        rfl
      · simp only [setBlock_mmapNext]
        rw [hmn1]
        subst hhm
        rw [hnb]
      · simp only [setBlock_granted]
        rw [hgr1]
        subst hhm
        rw [hnb]

theorem align_lt (n : Nat) : align n < W64 := by
  have hw := W64_eq
  unfold align wadd
  have := Nat.mod_lt (n + 7) (y := W64) (by omega)
  omega

theorem pageAlign_mod (n : Nat) : pageAlign n % 4096 = 0 := by
  unfold pageAlign
  exact Nat.mul_mod_left _ 4096

/-- Claim C5: on the main allocation path (arena ready) with no fitting free
block, a request whose total required size is exactly `MMAP_THRESHOLD` is
satisfied from the contiguous arena: the returned block is `ALLOC`, lies
below the (possibly extended) break, and no mapping is created; a request
whose total required size exceeds the threshold (the smallest such request
being one payload byte more) is satisfied by a direct mapping: the returned
block is `MAPPED`, lies at or above the untouched break, and a fresh
page-aligned grant records it. -/
theorem claim_C5 {h : Heap} {l : List (Nat × BlockMeta)} {size : Nat}
    {h2 : Heap} {res : Option Nat}
    (hwf : WF h l) (hpre : ¬ h.heap_pre = none) (hs0 : ¬ size = 0)
    (hnofit : ∀ e ∈ l, ¬ qualifies (wadd SIZEOF_BLOCK (align size)) e)
    (hrun : os_malloc h size = some (h2, res)) :
    (wadd SIZEOF_BLOCK (align size) = MMAP_THRESHOLD →
       ∃ nb b2, res = some (nb + SIZEOF_BLOCK) ∧
         getBlock h2 nb = some b2 ∧ b2.status = Status.ALLOC ∧
         HEAP_BASE ≤ nb ∧ nb + SIZEOF_BLOCK + b2.size ≤ h2.brk ∧
         h2.granted = h.granted ∧ h2.mmapNext = h.mmapNext) ∧
    (MMAP_THRESHOLD < wadd SIZEOF_BLOCK (align size) →
       ∃ nb b2, res = some (nb + SIZEOF_BLOCK) ∧
         getBlock h2 nb = some b2 ∧ b2.status = Status.MAPPED ∧
         h.brk ≤ nb ∧ h2.brk = h.brk ∧
         (nb, pageAlign (wadd SIZEOF_BLOCK (align size))) ∈ h2.granted) := by
  have hw := W64_eq
  have hsz : SIZEOF_BLOCK = 32 := by norm_num [SIZEOF_BLOCK]
  have hth : MMAP_THRESHOLD = 131072 := by norm_num [MMAP_THRESHOLD]
  have hlt := align_lt size
  constructor
  · intro heq
    have hbound : SIZEOF_BLOCK + align size < W64 := by
      by_contra hc
      push_neg at hc
      have h32 : wadd SIZEOF_BLOCK (align size) =
          SIZEOF_BLOCK + align size - W64 := by
        unfold wadd
        rw [Nat.mod_eq_sub_mod (by omega), Nat.mod_eq_of_lt (by omega)]
      omega
    obtain ⟨nb, b2, hres, hgb, hstat, hbsz, _, hbase, hfoot, _, hgr, hmn,
      _⟩ := os_malloc_arena_inv hwf hpre hs0 hbound hnofit (Nat.le_of_eq heq)
      hrun
    exact ⟨nb, b2, hres, hgb, hstat, hbase, by omega, hgr, hmn⟩
  · intro hgt
    obtain ⟨nb, b2, hres, hnb, hroom, hgb, hstat, hbsz, hbrk, hmn, hgr⟩ :=
      os_malloc_mapped_inv hwf hpre hs0 hnofit hgt hrun
    refine ⟨nb, b2, hres, hgb, hstat, ?_, hbrk, ?_⟩
    · omega
    · rw [hgr]
      exact List.mem_cons_self _ _

theorem c5heapWF : WF c5heap c5list :=
  by constructor <;> decide

/-- Witness for C5: a ready arena holding one `ALLOC` block, asked for
131040 payload bytes, a total required size of exactly `MMAP_THRESHOLD`. -/
theorem claim_C5_witness :
    (wadd SIZEOF_BLOCK (align 131040) = MMAP_THRESHOLD →
       ∃ nb b2, c5res = some (nb + SIZEOF_BLOCK) ∧
         getBlock c5h2 nb = some b2 ∧ b2.status = Status.ALLOC ∧
         HEAP_BASE ≤ nb ∧ nb + SIZEOF_BLOCK + b2.size ≤ c5h2.brk ∧
         c5h2.granted = c5heap.granted ∧ c5h2.mmapNext = c5heap.mmapNext) ∧
    (MMAP_THRESHOLD < wadd SIZEOF_BLOCK (align 131040) →
       ∃ nb b2, c5res = some (nb + SIZEOF_BLOCK) ∧
         getBlock c5h2 nb = some b2 ∧ b2.status = Status.MAPPED ∧
         c5heap.brk ≤ nb ∧ c5h2.brk = c5heap.brk ∧
         (nb, pageAlign (wadd SIZEOF_BLOCK (align 131040))) ∈
           c5h2.granted) :=
  claim_C5 c5heapWF (by decide) (by decide) (by decide) (by rfl)

/-- Claim C1 (amended with the no-overflow proviso `n <= 2^64 - 40`): every
successful `os_malloc(n)` with `n > 0` returns a payload pointer that is
8-byte aligned and heads a region of at least `n` bytes, and that region is
disjoint from the payload region of every other registry block that is live
(`ALLOC` or `MAPPED`) at that moment. -/
theorem claim_C1 {h : Heap} {l : List (Nat × BlockMeta)} {n : Nat}
    {h2 : Heap} {p : Nat}
    (hwf : WF h l) (hn : 0 < n) (hbound : n ≤ W64 - 40)
    (hrun : os_malloc h n = some (h2, some p)) :
    p % 8 = 0 ∧
    ∃ b, getBlock h2 (p - SIZEOF_BLOCK) = some b ∧ n ≤ b.size ∧
      ∀ e ∈ l, ¬ e.1 = p - SIZEOF_BLOCK →
        (e.2.status = Status.ALLOC ∨ e.2.status = Status.MAPPED) →
        (e.1 + SIZEOF_BLOCK + e.2.size ≤ p ∨
          p + b.size ≤ e.1 + SIZEOF_BLOCK) := by
  have hw := W64_eq
  have hsz : SIZEOF_BLOCK = 32 := by norm_num [SIZEOF_BLOCK]
  have hth : MMAP_THRESHOLD = 131072 := by norm_num [MMAP_THRESHOLD]
  have hbb : HEAP_BASE = 4096 := by norm_num [HEAP_BASE]
  have hs0 : ¬ n = 0 := by omega
  have h7 : n + 7 < W64 := by omega
  have han : n ≤ align n := le_align h7
  have hal7 : align n ≤ n + 7 := align_le h7
  have hbound2 : SIZEOF_BLOCK + align n < W64 := by omega
  have hre : wadd SIZEOF_BLOCK (align n) = SIZEOF_BLOCK + align n :=
    wadd_eq hbound2
  have hm8 := align_mod8 n
  have hws : wsub (wadd SIZEOF_BLOCK (align n)) SIZEOF_BLOCK = align n := by
    rw [hre]
    have := wsub_eq (a := SIZEOF_BLOCK + align n) (b := SIZEOF_BLOCK)
      (by omega) (by omega)
    omega
  by_cases hpre : h.heap_pre = none
  · -- first allocation: the arena is not ready yet
    rw [os_malloc] at hrun
    simp only [if_neg hs0, if_pos hpre] at hrun
    obtain ⟨⟨a, hinit⟩, hih, hrun2⟩ := bindSome hrun
    simp only [Option.pure_def, Option.some.injEq, Prod.mk.injEq] at hrun2
    obtain ⟨hh2, hp⟩ := hrun2
    subst hh2
    obtain ⟨b0, hgb0, hbsz, hcase⟩ := initialise_heap_run hpre
      (by omega) (by omega) hwf.owned hih
    have hp2 : a + SIZEOF_BLOCK = p := by simpa using hp
    have hpa : p - SIZEOF_BLOCK = a := by omega
    have hemptyA : arenaOf l = [] := hwf.pre_ok.1 hpre
    have hmapped : ∀ e ∈ l, e.2.status = Status.MAPPED := by
      intro e he
      by_contra hc
      have := mem_arenaOf.2 ⟨he, hc⟩
      rw [hemptyA] at this
      simp at this
    have hhi : ∀ e ∈ l, h.mmapNext ≤ e.1 := by
      intro e he
      obtain ⟨g, hg, hg1, _⟩ := hwf.mapped_ok e he (hmapped e he)
      have := (hwf.grants_lo g hg).1
      omega
    have hsizeok : n ≤ b0.size := by
      rw [hbsz, hre]
      omega
    rcases hcase with ⟨hle, ha, hsb⟩ | ⟨hgt, ha, hmm⟩
    · -- arena extension
      refine ⟨?_, b0, by rw [hpa]; exact hgb0, hsizeok, ?_⟩
      · have := hwf.brk_al
        omega
      · intro e he _ _
        right
        have := hhi e he
        rw [hbsz]
        omega
    · -- direct mapping
      have hpam := pageAlign_mod (wadd SIZEOF_BLOCK (align n))
      have hpge := pageAlign_ge (wadd SIZEOF_BLOCK (align n))
      have hmna := hwf.mn_al
      have hbl := hwf.brk_lo
      refine ⟨?_, b0, by rw [hpa]; exact hgb0, hsizeok, ?_⟩
      · omega
      · intro e he _ _
        right
        have := hhi e he
        rw [hbsz]
        omega
  · -- the arena is ready: main allocation path
    by_cases hfit : ∃ e ∈ l, qualifies (wadd SIZEOF_BLOCK (align n)) e
    · -- a free block fits: best-fit winner is returned
      have hgeo : ∀ x b, (x, b) ∈ l → b.status = Status.FREE →
          wadd SIZEOF_BLOCK (align n) < SIZEOF_BLOCK + b.size →
          ∀ e ∈ l, ¬ e.1 = x + wadd SIZEOF_BLOCK (align n) := by
        intro x b hm hf hlt
        have hna : ¬ b.status = Status.MAPPED := by
          rw [hf]; intro hc; cases hc
        exact WF_interior_ne hwf hm hna (by rw [hre]; omega) hlt
      obtain ⟨l1, x, b, l2, h', hleq, hqx, hff, hmin, hfirst, hnos, hyess⟩ :=
        find_fit_found hwf.chain_ok hwf.nodup (WF_small hwf)
          (by rw [hre]; omega) hgeo hfit
      rw [os_malloc] at hrun
      simp only [if_neg hs0, if_neg hpre] at hrun
      rw [hff] at hrun
      simp only [Option.bind_eq_bind, Option.some_bind] at hrun
      have hmemx : (x, b) ∈ l := by
        rw [hleq]
        exact List.mem_append_right _ (List.mem_cons_self _ _)
      have hxare : (x, b) ∈ arenaOf l := by
        refine mem_arenaOf.2 ⟨hmemx, ?_⟩
        have := hqx.1
        simp only at this
        rw [this]
        intro hc
        cases hc
      have hxal : x % 8 = 0 := (hwf.aligned _ hmemx).1
      have hxfoot : x + SIZEOF_BLOCK + b.size ≤ h.brk := by
        have := (tiles_mem hwf.tiles_ok _ hxare).2
        simpa using this
      have hbsize : align n ≤ b.size := by
        have := hqx.2
        simp only at this
        rw [hre] at this
        omega
      have hgx : getBlock h x = some b := chain_mem hwf.chain_ok _ hmemx
      have hdisj : ∀ sz, sz ≤ b.size → ∀ e ∈ l, ¬ e.1 = x →
          (e.2.status = Status.ALLOC ∨ e.2.status = Status.MAPPED) →
          (e.1 + SIZEOF_BLOCK + e.2.size ≤ x + SIZEOF_BLOCK ∨
            x + SIZEOF_BLOCK + sz ≤ e.1 + SIZEOF_BLOCK) := by
        intro sz hszle e he hne _
        by_cases hem : e.2.status = Status.MAPPED
        · right
          obtain ⟨g, hg, hg1, _⟩ := hwf.mapped_ok e he hem
          have hv := (hwf.grants_lo g hg).1
          have hbh := hwf.brk_hi
          omega
        · have hea : e ∈ arenaOf l := mem_arenaOf.2 ⟨he, hem⟩
          rcases Nat.lt_trichotomy e.1 x with hlt | heq | hgt
          · left
            have := tiles_starts hwf.tiles_ok e hea (x, b) hxare
              (by simpa using hlt)
            simp only at this
            omega
          · exact absurd heq hne
          · right
            have := tiles_starts hwf.tiles_ok (x, b) hxare e hea
              (by simpa using hgt)
            simp only at this
            omega
      by_cases hsplit : SIZEOF_BLOCK + 1 ≤
          leftover (wadd SIZEOF_BLOCK (align n)) (x, b)
      · obtain ⟨_, hp1, _, _, _, _, _, _, _, _, _, _⟩ := hyess hsplit
        rw [setStatus_eq hp1 Status.ALLOC] at hrun
        simp only [Option.bind_eq_bind, Option.some_bind, Option.pure_def,
          Option.some.injEq, Prod.mk.injEq] at hrun
        obtain ⟨hh2, hp⟩ := hrun
        subst hh2
        have hpx : p - SIZEOF_BLOCK = x := by omega
        refine ⟨by omega, _, by rw [hpx]; exact getBlock_setBlock_same _ _ _,
          ?_, ?_⟩
        · simp only
          rw [hws]
          exact han
        · intro e he hne hlive
          have := hdisj (align n) hbsize e he (by rw [hpx] at hne; exact hne)
            hlive
          simp only [hws]
          omega
      · have hh' := hnos hsplit
        subst hh'
        rw [setStatus_eq hgx Status.ALLOC] at hrun
        simp only [Option.bind_eq_bind, Option.some_bind, Option.pure_def,
          Option.some.injEq, Prod.mk.injEq] at hrun
        obtain ⟨hh2, hp⟩ := hrun
        subst hh2
        have hpx : p - SIZEOF_BLOCK = x := by omega
        refine ⟨by omega, _, by rw [hpx]; exact getBlock_setBlock_same _ _ _,
          ?_, ?_⟩
        · simp only
          omega
        · intro e he hne hlive
          have := hdisj b.size (Nat.le_refl _) e he
            (by rw [hpx] at hne; exact hne) hlive
          simp only
          omega
    · -- no free block fits
      push_neg at hfit
      by_cases hcmp : MMAP_THRESHOLD < wadd SIZEOF_BLOCK (align n)
      · -- above the threshold: direct mapping
        obtain ⟨nb, b2, hres, hnb, hroom, hgb, hstat, hbsz, hbrk, hmn2,
          hgr⟩ := os_malloc_mapped_inv hwf hpre hs0 hfit hcmp hrun
        injection hres with hres
        have hpx : p - SIZEOF_BLOCK = nb := by omega
        have hpam := pageAlign_mod (wadd SIZEOF_BLOCK (align n))
        have hpge := pageAlign_ge (wadd SIZEOF_BLOCK (align n))
        have hmna := hwf.mn_al
        have hbl := hwf.brk_lo
        refine ⟨by omega, b2, by rw [hpx]; exact hgb, ?_, ?_⟩
        · rw [hbsz, hws]
          exact han
        · intro e he hne hlive
          by_cases hem : e.2.status = Status.MAPPED
          · right
            obtain ⟨g, hg, hg1, _⟩ := hwf.mapped_ok e he hem
            have hv := (hwf.grants_lo g hg).1
            rw [hbsz, hws]
            omega
          · left
            have hea : e ∈ arenaOf l := mem_arenaOf.2 ⟨he, hem⟩
            have := (tiles_mem hwf.tiles_ok _ hea).2
            simp only at this
            omega
      · -- at or below the threshold: arena-backed
        obtain ⟨nb, b2, hres, hgb, hstat, hbsz, hal8, hbase, hfoot, hmnle,
          hgr, hmn2, hlastcase⟩ := os_malloc_arena_inv hwf hpre hs0 hbound2
          hfit (not_lt.1 hcmp) hrun
        injection hres with hres
        have hpx : p - SIZEOF_BLOCK = nb := by omega
        refine ⟨by omega, b2, by rw [hpx]; exact hgb, by rw [hbsz]; omega,
          ?_⟩
        intro e he hne hlive
        by_cases hem : e.2.status = Status.MAPPED
        · right
          obtain ⟨g, hg, hg1, _⟩ := hwf.mapped_ok e he hem
          have hv := (hwf.grants_lo g hg).1
          have hbh := hwf.brk_hi
          rw [hbsz]
          omega
        · have hea : e ∈ arenaOf l := mem_arenaOf.2 ⟨he, hem⟩
          have hefoot := (tiles_mem hwf.tiles_ok _ hea).2
          simp only at hefoot
          rcases hlastcase with ⟨bb, hlast2, hmembb, hfoot2⟩ | hfresh
          · have hbbare : (nb, bb) ∈ arenaOf l := mem_of_getLast hlast2
            rcases Nat.lt_trichotomy e.1 nb with hlt | heq | hgt
            · left
              have := tiles_starts hwf.tiles_ok e hea (nb, bb) hbbare
                (by simpa using hlt)
              simp only at this
              omega
            · exact absurd heq (by rw [hpx] at hne; exact hne)
            · exfalso
              have := tiles_starts hwf.tiles_ok (nb, bb) hbbare e hea
                (by simpa using hgt)
              simp only at this
              omega
          · left
            omega

/-- Counterexample to C1 as stated: `os_malloc(2^64 - 5)` from the empty
heap succeeds (the C expression `ALIGN(size)` wraps to 0 in `size_t`, so the
total required size becomes 32) and returns payload pointer 4128 backing a
block of size 0, far less than the `n` bytes the claim promises. -/
theorem claim_C1_counterexample :
    ((os_malloc initState (W64 - 5)).map
      (fun r => (r.2, (getBlock r.1 4096).map BlockMeta.size))) =
      some (some 4128, some 0) := by decide

/-- Witness for C1: allocating 100 bytes in a ready arena whose single
registry entry is one `ALLOC` block. -/
theorem claim_C1_witness :
    c1p % 8 = 0 ∧
    ∃ b, getBlock c1h2 (c1p - SIZEOF_BLOCK) = some b ∧ 100 ≤ b.size ∧
      ∀ e ∈ c5list, ¬ e.1 = c1p - SIZEOF_BLOCK →
        (e.2.status = Status.ALLOC ∨ e.2.status = Status.MAPPED) →
        (e.1 + SIZEOF_BLOCK + e.2.size ≤ c1p ∨
          c1p + b.size ≤ e.1 + SIZEOF_BLOCK) :=
  claim_C1 c5heapWF (by decide) (by decide) (by rfl)


/-! ## Claims C9 and C10 -/

/-- Claim C10: in the resize grow path, when the block immediately after
`block` is `FREE`, `reallocTail` absorbs it — the neighbour is unlinked and
its header-plus-payload size added to `block` — before the merged capacity
is compared with the request; when the merged capacity is still
insufficient, the absorption is not rolled back: the whole tail equals the
relocation fallback `reallocMove` run from the absorbed state `h1`, so the
fallback copies only `min prev_size size` bytes (the pre-merge payload
amount, `prev_size` being the size cached before the merge) and then
releases the original block, which at that point carries its enlarged,
merged size. -/
theorem claim_C10 {h : Heap} {block p size requested prev_size nx : Nat}
    {b nb : BlockMeta}
    (hgb : getBlock h block = some b)
    (hbn : b.next = some nx)
    (hgn : getBlock h nx = some nb)
    (hfree : nb.status = Status.FREE)
    (hnxb : ¬ nx = block)
    (hnn : ∀ nn, nb.next = some nn → ¬ nn = block ∧ ∃ cn,
        getBlock h nn = some cn)
    (hinsuff : ¬ requested ≤ wadd b.size (wadd SIZEOF_BLOCK nb.size)) :
    ∃ h1, reallocTail h block p size requested prev_size =
        reallocMove h1 block p size requested prev_size ∧
      getBlock h1 block = some { b with
        size := wadd b.size (wadd SIZEOF_BLOCK nb.size), next := nb.next } ∧
      (∀ y, ¬ y = block → (∀ nn, nb.next = some nn → ¬ y = nn) →
        getBlock h1 y = getBlock h y) ∧
      h1.brk = h.brk ∧ h1.granted = h.granted ∧ h1.heap_pre = h.heap_pre := by
  have hbnx : ¬ block = nx := fun hc => hnxb hc.symm
  cases hnbn : nb.next with
  | none =>
      rw [reallocTail, hgb]
      simp only [Option.bind_eq_bind, Option.some_bind]
      rw [hbn]
      simp only [Option.bind_eq_bind, Option.some_bind]
      rw [hgn]
      simp only [Option.bind_eq_bind, Option.some_bind]
      rw [if_pos hfree]
      rw [setSize_eq hgb]
      simp only [Option.bind_eq_bind, Option.some_bind]
      rw [hnbn, setNext_eq (getBlock_setBlock_same _ _ _) none]
      simp only [Option.bind_eq_bind, Option.some_bind, Option.pure_def]
      split
      next hyes =>
        rw [getBlock_upd_end, getBlock_setBlock_same]
        simp only [Option.bind_eq_bind, Option.some_bind]
        rw [if_neg hinsuff]
        refine ⟨_, rfl, ?_, ?_, rfl, rfl, rfl⟩
        · rw [getBlock_upd_end, getBlock_setBlock_same]
        · intro y hy _
          have hys : ¬ block = y := fun hc => hy hc.symm
          rw [getBlock_upd_end, getBlock_setBlock, if_neg hys,
            getBlock_setBlock, if_neg hys]
      next hno =>
        rw [getBlock_setBlock_same]
        simp only [Option.bind_eq_bind, Option.some_bind]
        rw [if_neg hinsuff]
        refine ⟨_, rfl, ?_, ?_, rfl, rfl, rfl⟩
        · rw [getBlock_setBlock_same]
        · intro y hy _
          have hys : ¬ block = y := fun hc => hy hc.symm
          rw [getBlock_setBlock, if_neg hys, getBlock_setBlock, if_neg hys]
  | some nn =>
      obtain ⟨hnnb, cn, hgcn⟩ := hnn nn hnbn
      have hnnbs : ¬ block = nn := fun hc => hnnb hc.symm
      rw [reallocTail, hgb]
      simp only [Option.bind_eq_bind, Option.some_bind]
      rw [hbn]
      simp only [Option.bind_eq_bind, Option.some_bind]
      rw [hgn]
      simp only [Option.bind_eq_bind, Option.some_bind]
      rw [if_pos hfree]
      rw [setSize_eq hgb]
      simp only [Option.bind_eq_bind, Option.some_bind]
      rw [hnbn, setNext_eq (getBlock_setBlock_same _ _ _) (some nn)]
      simp only [Option.bind_eq_bind, Option.some_bind, Option.pure_def]
      rw [setPrev_eq (b := cn) (by
        rw [getBlock_setBlock, if_neg hnnbs, getBlock_setBlock,
          if_neg hnnbs, hgcn]) (some block)]
      simp only [Option.bind_eq_bind, Option.some_bind]
      split
      next hyes =>
        rw [getBlock_upd_end, getBlock_setBlock, if_neg hnnb,
          getBlock_setBlock_same]
        simp only [Option.bind_eq_bind, Option.some_bind]
        rw [if_neg hinsuff]
        refine ⟨_, rfl, ?_, ?_, rfl, rfl, rfl⟩
        · rw [getBlock_upd_end, getBlock_setBlock, if_neg hnnb,
            getBlock_setBlock_same]
        · intro y hy hy2
          have hys : ¬ block = y := fun hc => hy hc.symm
          have hy2s : ¬ nn = y := fun hc => (hy2 nn rfl) hc.symm
          rw [getBlock_upd_end, getBlock_setBlock, if_neg hy2s,
            getBlock_setBlock, if_neg hys, getBlock_setBlock, if_neg hys]
      next hno =>
        rw [getBlock_setBlock (a := nn), if_neg hnnb, getBlock_setBlock_same]
        simp only [Option.bind_eq_bind, Option.some_bind]
        rw [if_neg hinsuff]
        refine ⟨_, rfl, ?_, ?_, rfl, rfl, rfl⟩
        · rw [getBlock_setBlock (a := nn), if_neg hnnb,
            getBlock_setBlock_same]
        · intro y hy hy2
          have hys : ¬ block = y := fun hc => hy hc.symm
          have hy2s : ¬ nn = y := fun hc => (hy2 nn rfl) hc.symm
          rw [getBlock_setBlock, if_neg hy2s, getBlock_setBlock, if_neg hys,
            getBlock_setBlock, if_neg hys]

/-- Witness for C10: a 64-byte allocated block followed by a 64-byte free
block, resized to 400 bytes (merged capacity 160 still insufficient). -/
theorem claim_C10_witness :
    ∃ h1, reallocTail c10heap 4096 4128 400 400 64 =
        reallocMove h1 4096 4128 400 400 64 ∧
      getBlock h1 4096 = some { size := wadd 64 (wadd SIZEOF_BLOCK 64)
                                status := Status.ALLOC
                                prev := none
                                next := some 4288 } ∧
      (∀ y, ¬ y = 4096 → (∀ nn, (some 4288 : Option Nat) = some nn →
          ¬ y = nn) → getBlock h1 y = getBlock c10heap y) ∧
      h1.brk = c10heap.brk ∧ h1.granted = c10heap.granted ∧
      h1.heap_pre = c10heap.heap_pre :=
  @claim_C10 c10heap 4096 4128 400 400 64 4192
    ⟨64, Status.ALLOC, none, some 4192⟩ ⟨64, Status.FREE, some 4096, some 4288⟩
    (by decide) (by decide) (by decide) (by decide) (by decide)
    (fun nn hnn => by
      injection hnn with h
      subst h
      exact ⟨by decide, ⟨⟨130848, Status.ALLOC, some 4192, none⟩,
        by decide⟩⟩)
    (by decide)

theorem free_noMerge {h : Heap} {t : Nat} {tb : BlockMeta}
    (hgt : getBlock h t = some tb) (hm : ¬ tb.status = Status.MAPPED)
    (hnx : ∀ na, tb.next = some na → ¬ na = t ∧
      ∃ nb, getBlock h na = some nb ∧ ¬ nb.status = Status.FREE)
    (hpv : ∀ pa, tb.prev = some pa → ¬ pa = t ∧
      ∃ pb, getBlock h pa = some pb ∧ ¬ pb.status = Status.FREE) :
    os_free h (some (t + SIZEOF_BLOCK)) =
      some (setBlock h t { tb with status := Status.FREE }) := by
  simp only [os_free]
  simp only [Nat.add_sub_cancel]
  rw [hgt, Option.bind_eq_bind, Option.some_bind]
  rw [if_neg hm]
  rw [setStatus_eq hgt Status.FREE, Option.bind_eq_bind, Option.some_bind]
  cases hbn : tb.next with
  | none =>
      simp only [Option.bind_eq_bind, Option.some_bind, Option.pure_def]
      cases hbp : tb.prev with
      | none => rfl
      | some pa =>
          obtain ⟨hpat, pb, hgpa, hpbf⟩ := hpv pa hbp
          have htpa : ¬ t = pa := fun hc => hpat hc.symm
          simp only []
          rw [getBlock_setBlock (x := pa), if_neg htpa, hgpa]
          simp only [Option.some_bind]
          rw [if_neg hpbf]
  | some na =>
      obtain ⟨hnat, nb, hgna, hnbf⟩ := hnx na hbn
      have htna : ¬ t = na := fun hc => hnat hc.symm
      simp only [Option.bind_eq_bind]
      rw [getBlock_setBlock (x := na), if_neg htna, hgna]
      simp only [Option.some_bind]
      rw [if_neg hnbf]
      simp only [Option.pure_def, Option.some_bind]
      cases hbp : tb.prev with
      | none => rfl
      | some pa =>
          obtain ⟨hpat, pb, hgpa, hpbf⟩ := hpv pa hbp
          have htpa : ¬ t = pa := fun hc => hpat hc.symm
          simp only []
          rw [getBlock_setBlock (x := pa), if_neg htpa, hgpa]
          simp only [Option.some_bind]
          rw [if_neg hpbf]

theorem free_nextMerge {h : Heap} {t na : Nat} {tb nb : BlockMeta}
    (hgt : getBlock h t = some tb) (hm : ¬ tb.status = Status.MAPPED)
    (hna : tb.next = some na) (hnat : ¬ na = t)
    (hgna : getBlock h na = some nb) (hnbf : nb.status = Status.FREE)
    (hnn : ∀ nn, nb.next = some nn → ¬ nn = t ∧ ¬ nn = na ∧
      ∃ cn, getBlock h nn = some cn)
    (hpv : ∀ pa, tb.prev = some pa → ¬ pa = t ∧
      (∀ nn, nb.next = some nn → ¬ pa = nn) ∧
      ∃ pb, getBlock h pa = some pb ∧ ¬ pb.status = Status.FREE) :
    ∃ h2, os_free h (some (t + SIZEOF_BLOCK)) = some h2 ∧
      getBlock h2 t = some ⟨wadd tb.size (wadd SIZEOF_BLOCK nb.size),
        Status.FREE, tb.prev, nb.next⟩ ∧
      (∀ nn cn, nb.next = some nn → getBlock h nn = some cn →
        getBlock h2 nn = some { cn with prev := some t }) ∧
      (∀ y, ¬ y = t → (∀ nn, nb.next = some nn → ¬ y = nn) →
        getBlock h2 y = getBlock h y) ∧
      h2.brk = h.brk ∧ h2.granted = h.granted ∧ h2.mmapNext = h.mmapNext ∧
      h2.heap_start = h.heap_start ∧ h2.heap_pre = h.heap_pre ∧
      h2.heap_end = (if h.heap_end = some na then some t
        else h.heap_end) := by
  have htna : ¬ t = na := fun hc => hnat hc.symm
  simp only [os_free]
  simp only [Nat.add_sub_cancel]
  rw [hgt, Option.bind_eq_bind, Option.some_bind]
  rw [if_neg hm]
  rw [setStatus_eq hgt Status.FREE, Option.bind_eq_bind, Option.some_bind]
  rw [hna]
  simp only [Option.bind_eq_bind]
  rw [getBlock_setBlock (x := na), if_neg htna, hgna]
  simp only [Option.some_bind]
  rw [if_pos hnbf]
  rw [getBlock_setBlock_same]
  simp only [Option.some_bind]
  rw [setSize_eq (getBlock_setBlock_same _ _ _)]
  simp only [Option.some_bind]
  rw [setNext_eq (getBlock_setBlock_same _ _ _) nb.next]
  simp only [Option.some_bind]
  cases hnn2 : nb.next with
  | none =>
      simp only [Option.pure_def, Option.some_bind, setBlock_heap_end]
      cases hbp : tb.prev with
      | none =>
          simp only [Option.some_bind]
          refine ⟨_, rfl, ?_, ?_, ?_, ?_, ?_, ?_, ?_, ?_, ?_⟩
          · rw [ite_end_getBlock, getBlock_setBlock_same]
          · intro nn cn hc
            cases hc
          · intro y hy _
            have hty : ¬ t = y := fun hc => hy hc.symm
            rw [ite_end_getBlock, getBlock_setBlock, if_neg hty,
              getBlock_setBlock, if_neg hty, getBlock_setBlock, if_neg hty]
          · rw [ite_end_brk]; simp [setBlock]
          · rw [ite_end_granted]; simp [setBlock]
          · rw [ite_end_mmapNext]; simp [setBlock]
          · rw [ite_end_heap_start]; simp [setBlock]
          · rw [ite_end_heap_pre]; simp [setBlock]
          · rw [ite_end_heap_end]; simp only [setBlock_heap_end]
      | some pa =>
          obtain ⟨hpat, _, pb, hgpa, hpbf⟩ := hpv pa hbp
          have htpa : ¬ t = pa := fun hc => hpat hc.symm
          simp only []
          rw [ite_end_getBlock, getBlock_setBlock (x := pa), if_neg htpa,
            getBlock_setBlock (x := pa), if_neg htpa,
            getBlock_setBlock (x := pa), if_neg htpa, hgpa]
          simp only [Option.some_bind]
          rw [if_neg hpbf]
          refine ⟨_, rfl, ?_, ?_, ?_, ?_, ?_, ?_, ?_, ?_, ?_⟩
          · rw [ite_end_getBlock, getBlock_setBlock_same]
          · intro nn cn hc
            cases hc
          · intro y hy _
            have hty : ¬ t = y := fun hc => hy hc.symm
            rw [ite_end_getBlock, getBlock_setBlock, if_neg hty,
              getBlock_setBlock, if_neg hty, getBlock_setBlock, if_neg hty]
          · rw [ite_end_brk]; simp [setBlock]
          · rw [ite_end_granted]; simp [setBlock]
          · rw [ite_end_mmapNext]; simp [setBlock]
          · rw [ite_end_heap_start]; simp [setBlock]
          · rw [ite_end_heap_pre]; simp [setBlock]
          · rw [ite_end_heap_end]; simp only [setBlock_heap_end]
  | some nn =>
      obtain ⟨hnnt, hnnna, cn, hgcn⟩ := hnn nn hnn2
      have htnn : ¬ t = nn := fun hc => hnnt hc.symm
      simp only []
      rw [setPrev_eq (b := cn) (by
        rw [getBlock_setBlock, if_neg htnn, getBlock_setBlock, if_neg htnn,
          getBlock_setBlock, if_neg htnn, hgcn]) (some t)]
      simp only [Option.pure_def, Option.some_bind, setBlock_heap_end]
      cases hbp : tb.prev with
      | none =>
          simp only [Option.some_bind]
          refine ⟨_, rfl, ?_, ?_, ?_, ?_, ?_, ?_, ?_, ?_, ?_⟩
          · rw [ite_end_getBlock, getBlock_setBlock, if_neg hnnt,
              getBlock_setBlock_same]
          · intro nn2 cn2 he1 he2
            injection he1 with he1
            subst he1
            rw [hgcn] at he2
            injection he2 with he2
            subst he2
            rw [ite_end_getBlock, getBlock_setBlock_same]
          · intro y hy hy2
            have hty : ¬ t = y := fun hc => hy hc.symm
            have hnny : ¬ nn = y := fun hc => (hy2 nn rfl) hc.symm
            rw [ite_end_getBlock, getBlock_setBlock, if_neg hnny,
              getBlock_setBlock, if_neg hty, getBlock_setBlock, if_neg hty,
              getBlock_setBlock, if_neg hty]
          · rw [ite_end_brk]; simp [setBlock]
          · rw [ite_end_granted]; simp [setBlock]
          · rw [ite_end_mmapNext]; simp [setBlock]
          · rw [ite_end_heap_start]; simp [setBlock]
          · rw [ite_end_heap_pre]; simp [setBlock]
          · rw [ite_end_heap_end]; simp only [setBlock_heap_end]
      | some pa =>
          obtain ⟨hpat, hpann, pb, hgpa, hpbf⟩ := hpv pa hbp
          have htpa : ¬ t = pa := fun hc => hpat hc.symm
          have hnnpa : ¬ nn = pa := fun hc => (hpann nn hnn2) hc.symm
          simp only []
          rw [ite_end_getBlock, getBlock_setBlock (x := pa), if_neg hnnpa,
            getBlock_setBlock (x := pa), if_neg htpa,
            getBlock_setBlock (x := pa), if_neg htpa,
            getBlock_setBlock (x := pa), if_neg htpa, hgpa]
          simp only [Option.some_bind]
          rw [if_neg hpbf]
          refine ⟨_, rfl, ?_, ?_, ?_, ?_, ?_, ?_, ?_, ?_, ?_⟩
          · rw [ite_end_getBlock, getBlock_setBlock, if_neg hnnt,
              getBlock_setBlock_same]
          · intro nn2 cn2 he1 he2
            injection he1 with he1
            subst he1
            rw [hgcn] at he2
            injection he2 with he2
            subst he2
            rw [ite_end_getBlock, getBlock_setBlock_same]
          · intro y hy hy2
            have hty : ¬ t = y := fun hc => hy hc.symm
            have hnny : ¬ nn = y := fun hc => (hy2 nn rfl) hc.symm
            rw [ite_end_getBlock, getBlock_setBlock, if_neg hnny,
              getBlock_setBlock, if_neg hty, getBlock_setBlock, if_neg hty,
              getBlock_setBlock, if_neg hty]
          · rw [ite_end_brk]; simp [setBlock]
          · rw [ite_end_granted]; simp [setBlock]
          · rw [ite_end_mmapNext]; simp [setBlock]
          · rw [ite_end_heap_start]; simp [setBlock]
          · rw [ite_end_heap_pre]; simp [setBlock]
          · rw [ite_end_heap_end]; simp only [setBlock_heap_end]

theorem free_prevMerge {h : Heap} {t pa : Nat} {tb pb : BlockMeta}
    (hgt : getBlock h t = some tb) (hm : ¬ tb.status = Status.MAPPED)
    (hpa : tb.prev = some pa) (hpat : ¬ pa = t)
    (hgpa : getBlock h pa = some pb) (hpbf : pb.status = Status.FREE)
    (hnx : ∀ na, tb.next = some na → ¬ na = t ∧ ¬ na = pa ∧
      ∃ nb, getBlock h na = some nb ∧ ¬ nb.status = Status.FREE) :
    ∃ h2, os_free h (some (t + SIZEOF_BLOCK)) = some h2 ∧
      getBlock h2 pa = some ⟨wadd pb.size (wadd SIZEOF_BLOCK tb.size),
        Status.FREE, pb.prev, tb.next⟩ ∧
      (∀ na cn, tb.next = some na → getBlock h na = some cn →
        getBlock h2 na = some { cn with prev := some pa }) ∧
      (∀ y, ¬ y = t → ¬ y = pa → (∀ na, tb.next = some na → ¬ y = na) →
        getBlock h2 y = getBlock h y) ∧
      h2.brk = h.brk ∧ h2.granted = h.granted ∧ h2.mmapNext = h.mmapNext ∧
      h2.heap_start = h.heap_start ∧ h2.heap_pre = h.heap_pre ∧
      h2.heap_end = (if h.heap_end = some t then some pa
        else h.heap_end) := by
  have htpa : ¬ t = pa := fun hc => hpat hc.symm
  simp only [os_free]
  simp only [Nat.add_sub_cancel]
  rw [hgt, Option.bind_eq_bind, Option.some_bind]
  rw [if_neg hm]
  rw [setStatus_eq hgt Status.FREE, Option.bind_eq_bind, Option.some_bind]
  cases hbn : tb.next with
  | none =>
      simp only [Option.bind_eq_bind, Option.some_bind, Option.pure_def]
      rw [hpa]
      simp only []
      rw [getBlock_setBlock (x := pa), if_neg htpa, hgpa]
      simp only [Option.some_bind]
      rw [if_pos hpbf]
      rw [getBlock_setBlock_same]
      simp only [Option.some_bind]
      rw [setSize_eq (b := pb) (by rw [getBlock_setBlock, if_neg htpa]; exact hgpa)]
      simp only [Option.some_bind]
      rw [setNext_eq (getBlock_setBlock_same _ _ _)]
      simp only [Option.some_bind, Option.pure_def, setBlock_heap_end]
      refine ⟨_, rfl, ?_, ?_, ?_, ?_, ?_, ?_, ?_, ?_, ?_⟩
      · rw [ite_end_getBlock, getBlock_setBlock_same, hpbf]
      · intro na cn hc
        cases hc
      · intro y hy hy2 _
        have hty : ¬ t = y := fun hc => hy hc.symm
        have hpay : ¬ pa = y := fun hc => hy2 hc.symm
        rw [ite_end_getBlock, getBlock_setBlock, if_neg hpay,
          getBlock_setBlock, if_neg hpay, getBlock_setBlock, if_neg hty]
      · rw [ite_end_brk]; simp [setBlock]
      · rw [ite_end_granted]; simp [setBlock]
      · rw [ite_end_mmapNext]; simp [setBlock]
      · rw [ite_end_heap_start]; simp [setBlock]
      · rw [ite_end_heap_pre]; simp [setBlock]
      · rw [ite_end_heap_end]; simp only [setBlock_heap_end]
  | some na =>
      obtain ⟨hnat, hnapa, nb, hgna, hnbf⟩ := hnx na hbn
      have htna : ¬ t = na := fun hc => hnat hc.symm
      have hpana : ¬ pa = na := fun hc => hnapa hc.symm
      simp only [Option.bind_eq_bind]
      rw [getBlock_setBlock (x := na), if_neg htna, hgna]
      simp only [Option.some_bind]
      rw [if_neg hnbf]
      simp only [Option.pure_def, Option.some_bind]
      rw [hpa]
      simp only []
      rw [getBlock_setBlock (x := pa), if_neg htpa, hgpa]
      simp only [Option.some_bind]
      rw [if_pos hpbf]
      rw [getBlock_setBlock_same]
      simp only [Option.some_bind]
      rw [setSize_eq (b := pb) (by rw [getBlock_setBlock, if_neg htpa]; exact hgpa)]
      simp only [Option.some_bind]
      rw [setNext_eq (getBlock_setBlock_same _ _ _)]
      simp only [Option.some_bind]
      rw [setPrev_eq (b := nb) (by
        rw [getBlock_setBlock, if_neg hpana, getBlock_setBlock, if_neg hpana,
          getBlock_setBlock, if_neg htna]; exact hgna)]
      simp only [Option.some_bind, Option.pure_def, setBlock_heap_end]
      refine ⟨_, rfl, ?_, ?_, ?_, ?_, ?_, ?_, ?_, ?_, ?_⟩
      · rw [ite_end_getBlock, getBlock_setBlock, if_neg hnapa,
          getBlock_setBlock_same, hpbf]
      · intro na2 cn he1 he2
        injection he1 with he1
        subst he1
        rw [hgna] at he2
        injection he2 with he2
        subst he2
        rw [ite_end_getBlock, getBlock_setBlock_same]
      · intro y hy hy2 hy3
        have hty : ¬ t = y := fun hc => hy hc.symm
        have hpay : ¬ pa = y := fun hc => hy2 hc.symm
        have hnay : ¬ na = y := fun hc => (hy3 na rfl) hc.symm
        rw [ite_end_getBlock, getBlock_setBlock, if_neg hnay,
          getBlock_setBlock, if_neg hpay, getBlock_setBlock, if_neg hpay,
          getBlock_setBlock, if_neg hty]
      · rw [ite_end_brk]; simp [setBlock]
      · rw [ite_end_granted]; simp [setBlock]
      · rw [ite_end_mmapNext]; simp [setBlock]
      · rw [ite_end_heap_start]; simp [setBlock]
      · rw [ite_end_heap_pre]; simp [setBlock]
      · rw [ite_end_heap_end]; simp only [setBlock_heap_end]

theorem free_bothMerge {h : Heap} {t na pa : Nat} {tb nb pb : BlockMeta}
    (hgt : getBlock h t = some tb) (hm : ¬ tb.status = Status.MAPPED)
    (hna : tb.next = some na) (hnat : ¬ na = t)
    (hgna : getBlock h na = some nb) (hnbf : nb.status = Status.FREE)
    (hpa : tb.prev = some pa) (hpat : ¬ pa = t) (hpana : ¬ pa = na)
    (hgpa : getBlock h pa = some pb) (hpbf : pb.status = Status.FREE)
    (hnn : ∀ nn, nb.next = some nn → ¬ nn = t ∧ ¬ nn = na ∧ ¬ nn = pa ∧
      ∃ cn, getBlock h nn = some cn) :
    ∃ h2, os_free h (some (t + SIZEOF_BLOCK)) = some h2 ∧
      getBlock h2 pa = some ⟨wadd pb.size (wadd SIZEOF_BLOCK
        (wadd tb.size (wadd SIZEOF_BLOCK nb.size))), Status.FREE,
        pb.prev, nb.next⟩ ∧
      (∀ nn cn, nb.next = some nn → getBlock h nn = some cn →
        getBlock h2 nn = some { cn with prev := some pa }) ∧
      (∀ y, ¬ y = t → ¬ y = pa → (∀ nn, nb.next = some nn → ¬ y = nn) →
        getBlock h2 y = getBlock h y) ∧
      h2.brk = h.brk ∧ h2.granted = h.granted ∧ h2.mmapNext = h.mmapNext ∧
      h2.heap_start = h.heap_start ∧ h2.heap_pre = h.heap_pre ∧
      h2.heap_end = (if h.heap_end = some na then some pa
        else if h.heap_end = some t then some pa
        else h.heap_end) := by
  have htpa : ¬ t = pa := fun hc => hpat hc.symm
  have htna : ¬ t = na := fun hc => hnat hc.symm
  simp only [os_free]
  simp only [Nat.add_sub_cancel]
  rw [hgt, Option.bind_eq_bind, Option.some_bind]
  rw [if_neg hm]
  rw [setStatus_eq hgt Status.FREE, Option.bind_eq_bind, Option.some_bind]
  rw [hna]
  simp only [Option.bind_eq_bind]
  rw [getBlock_setBlock (x := na), if_neg htna, hgna]
  simp only [Option.some_bind]
  rw [if_pos hnbf]
  rw [getBlock_setBlock_same]
  simp only [Option.some_bind]
  rw [setSize_eq (getBlock_setBlock_same _ _ _)]
  simp only [Option.some_bind]
  rw [setNext_eq (getBlock_setBlock_same _ _ _) nb.next]
  simp only [Option.some_bind]
  cases hnn2 : nb.next with
  | none =>
      simp only [Option.pure_def, Option.some_bind, setBlock_heap_end]
      rw [hpa]
      simp only []
      rw [ite_end_getBlock, getBlock_setBlock (x := pa), if_neg htpa,
        getBlock_setBlock (x := pa), if_neg htpa,
        getBlock_setBlock (x := pa), if_neg htpa, hgpa]
      simp only [Option.some_bind]
      rw [if_pos hpbf]
      rw [ite_end_getBlock, getBlock_setBlock_same]
      simp only [Option.some_bind]
      rw [setSize_eq (b := pb) (by
        rw [ite_end_getBlock, getBlock_setBlock, if_neg htpa,
          getBlock_setBlock, if_neg htpa, getBlock_setBlock, if_neg htpa]
        exact hgpa)]
      simp only [Option.some_bind]
      rw [setNext_eq (getBlock_setBlock_same _ _ _)]
      simp only [Option.some_bind, Option.pure_def, setBlock_heap_end,
        ite_end_heap_end]
      refine ⟨_, rfl, ?_, ?_, ?_, ?_, ?_, ?_, ?_, ?_, ?_⟩
      · rw [ite_end_getBlock, getBlock_setBlock_same, hpbf]
      · intro nn cn hc
        cases hc
      · intro y hy hy2 _
        have hty : ¬ t = y := fun hc => hy hc.symm
        have hpay : ¬ pa = y := fun hc => hy2 hc.symm
        rw [ite_end_getBlock, getBlock_setBlock, if_neg hpay,
          getBlock_setBlock, if_neg hpay, ite_end_getBlock,
          getBlock_setBlock, if_neg hty, getBlock_setBlock, if_neg hty,
          getBlock_setBlock, if_neg hty]
      · split <;> split <;> rfl
      · split <;> split <;> rfl
      · split <;> split <;> rfl
      · split <;> split <;> rfl
      · split <;> split <;> rfl
      · rw [ite_end_heap_end]
        simp only [setBlock_heap_end, ite_end_heap_end]
        by_cases hc : h.heap_end = some na <;> simp [hc]
  | some nn =>
      obtain ⟨hnnt, hnnna, hnnpa, cn, hgcn⟩ := hnn nn hnn2
      have htnn : ¬ t = nn := fun hc => hnnt hc.symm
      have hpann : ¬ pa = nn := fun hc => hnnpa hc.symm
      simp only []
      rw [setPrev_eq (b := cn) (by
        rw [getBlock_setBlock, if_neg htnn, getBlock_setBlock, if_neg htnn,
          getBlock_setBlock, if_neg htnn, hgcn]) (some t)]
      simp only [Option.pure_def, Option.some_bind, setBlock_heap_end]
      rw [hpa]
      simp only []
      rw [ite_end_getBlock, getBlock_setBlock (x := pa), if_neg hnnpa,
        getBlock_setBlock (x := pa), if_neg htpa,
        getBlock_setBlock (x := pa), if_neg htpa,
        getBlock_setBlock (x := pa), if_neg htpa, hgpa]
      simp only [Option.some_bind]
      rw [if_pos hpbf]
      rw [ite_end_getBlock, getBlock_setBlock (x := t), if_neg hnnt,
        getBlock_setBlock_same]
      simp only [Option.some_bind]
      rw [setSize_eq (b := pb) (by
        rw [ite_end_getBlock, getBlock_setBlock, if_neg hnnpa,
          getBlock_setBlock, if_neg htpa, getBlock_setBlock, if_neg htpa,
          getBlock_setBlock, if_neg htpa]
        exact hgpa)]
      simp only [Option.some_bind]
      rw [setNext_eq (getBlock_setBlock_same _ _ _)]
      simp only [Option.some_bind]
      rw [setPrev_eq (b := { cn with prev := some t }) (by
        rw [getBlock_setBlock, if_neg hpann, getBlock_setBlock, if_neg hpann,
          ite_end_getBlock, getBlock_setBlock_same]) (some pa)]
      simp only [Option.some_bind, Option.pure_def, setBlock_heap_end,
        ite_end_heap_end]
      refine ⟨_, rfl, ?_, ?_, ?_, ?_, ?_, ?_, ?_, ?_, ?_⟩
      · rw [ite_end_getBlock, getBlock_setBlock, if_neg hnnpa,
          getBlock_setBlock_same, hpbf]
      · intro nn2 cn2 he1 he2
        injection he1 with he1
        subst he1
        rw [hgcn] at he2
        injection he2 with he2
        subst he2
        rw [ite_end_getBlock, getBlock_setBlock_same]
      · intro y hy hy2 hy3
        have hty : ¬ t = y := fun hc => hy hc.symm
        have hpay : ¬ pa = y := fun hc => hy2 hc.symm
        have hnny : ¬ nn = y := fun hc => (hy3 nn rfl) hc.symm
        rw [ite_end_getBlock, getBlock_setBlock, if_neg hnny,
          getBlock_setBlock, if_neg hpay, getBlock_setBlock, if_neg hpay,
          ite_end_getBlock, getBlock_setBlock, if_neg hnny,
          getBlock_setBlock, if_neg hty, getBlock_setBlock, if_neg hty,
          getBlock_setBlock, if_neg hty]
      · split <;> split <;> rfl
      · split <;> split <;> rfl
      · split <;> split <;> rfl
      · split <;> split <;> rfl
      · split <;> split <;> rfl
      · rw [ite_end_heap_end]
        simp only [setBlock_heap_end, ite_end_heap_end]
        by_cases hc : h.heap_end = some na <;> simp [hc]

theorem prevs_parts : ∀ (l1 : List (Nat × BlockMeta))
    {l2 : List (Nat × BlockMeta)} {pa : Option Nat},
    prevs (l1 ++ l2) pa → prevs l2 (lastOr l1 pa) := by
  intro l1
  induction l1 with
  | nil => intro l2 pa hp; exact hp
  | cons yc t ih =>
      obtain ⟨y, c⟩ := yc
      intro l2 pa hp
      obtain ⟨_, ht⟩ := hp
      rw [lastOr_cons]
      exact ih ht

theorem tiles_parts : ∀ (la : List (Nat × BlockMeta))
    {lb : List (Nat × BlockMeta)} {base stop : Nat},
    tiles base stop (la ++ lb) → ∃ m, tiles base m la ∧ tiles m stop lb := by
  intro la
  induction la with
  | nil => intro lb base stop ht; exact ⟨base, rfl, ht⟩
  | cons yc t ih =>
      obtain ⟨y, c⟩ := yc
      intro lb base stop ht
      obtain ⟨hy, htt⟩ := ht
      obtain ⟨m, h1, h2⟩ := ih htt
      exact ⟨m, ⟨hy, h1⟩, h2⟩

theorem nodup_c9 {l1 l2 : List (Nat × BlockMeta)} {x1 x2 x3 : Nat}
    {b1 b2 b3 : BlockMeta}
    (hnd : ((l1 ++ (x1, b1) :: (x2, b2) :: (x3, b3) :: l2).map
      Prod.fst).Nodup) :
    (¬ x1 = x2 ∧ ¬ x1 = x3 ∧ ¬ x2 = x3) ∧
    (∀ a ∈ l1.map Prod.fst, ¬ a = x1 ∧ ¬ a = x2 ∧ ¬ a = x3 ∧
      ∀ c ∈ l2.map Prod.fst, ¬ a = c) ∧
    (∀ c ∈ l2.map Prod.fst, ¬ c = x1 ∧ ¬ c = x2 ∧ ¬ c = x3) := by
  rw [List.map_append, List.nodup_append] at hnd
  obtain ⟨_, hnd2, hdisj⟩ := hnd
  simp only [List.map_cons, List.nodup_cons, List.mem_cons, not_or] at hnd2
  obtain ⟨⟨h12, h13, h1l⟩, ⟨h23, h2l⟩, h3l, _⟩ := hnd2
  refine ⟨⟨h12, h13, h23⟩, ?_, ?_⟩
  · intro a ha
    have hna := hdisj ha
    simp only [List.map_cons, List.mem_cons] at hna
    exact ⟨fun hc => hna (Or.inl hc), fun hc => hna (Or.inr (Or.inl hc)),
      fun hc => hna (Or.inr (Or.inr (Or.inl hc))),
      fun c hc hac => hna (Or.inr (Or.inr (Or.inr (by rw [hac]; exact hc))))⟩
  · intro c hc
    exact ⟨fun hce => h1l (by rw [← hce]; exact hc),
      fun hce => h2l (by rw [← hce]; exact hc),
      fun hce => h3l (by rw [← hce]; exact hc)⟩

theorem freeSeq3 (h : Heap) (a b c : Nat) :
    freeSeq h [a, b, c] = (os_free h (some a)).bind (fun h1 =>
      (os_free h1 (some b)).bind (fun h2 => os_free h2 (some c))) := by
  simp [freeSeq, List.foldlM, Option.bind_eq_bind]

theorem c9_order1 {h : Heap} {x1 x2 x3 : Nat} {b1 b2 b3 : BlockMeta}
    (hg1 : getBlock h x1 = some b1) (hg2 : getBlock h x2 = some b2)
    (hg3 : getBlock h x3 = some b3)
    (hb1n : b1.next = some x2) (hb2n : b2.next = some x3)
    (hb2p : b2.prev = some x1) (hb3p : b3.prev = some x2)
    (hm1 : ¬ b1.status = Status.MAPPED) (hm2 : ¬ b2.status = Status.MAPPED)
    (hm3 : ¬ b3.status = Status.MAPPED)
    (hf2 : ¬ b2.status = Status.FREE) (hf3 : ¬ b3.status = Status.FREE)
    (hx12 : ¬ x1 = x2) (hx13 : ¬ x1 = x3) (hx23 : ¬ x2 = x3)
    (hPA : ∀ pa, b1.prev = some pa → ¬ pa = x1 ∧ ¬ pa = x2 ∧ ¬ pa = x3 ∧
      (∀ na, b3.next = some na → ¬ pa = na) ∧
      ∃ pb, getBlock h pa = some pb ∧ ¬ pb.status = Status.FREE)
    (hNA : ∀ na, b3.next = some na → ¬ na = x1 ∧ ¬ na = x2 ∧ ¬ na = x3 ∧
      ∃ cn, getBlock h na = some cn ∧ ¬ cn.status = Status.FREE)
    (hne2 : ¬ h.heap_end = some x2)
    (htot : b1.size + SIZEOF_BLOCK + b2.size + SIZEOF_BLOCK + b3.size
      < W64) :
    ∃ h2, freeSeq h [x1 + SIZEOF_BLOCK, x2 + SIZEOF_BLOCK,
        x3 + SIZEOF_BLOCK] = some h2 ∧
      getBlock h2 x1 = some ⟨b1.size + SIZEOF_BLOCK + b2.size +
        SIZEOF_BLOCK + b3.size, Status.FREE, b1.prev, b3.next⟩ ∧
      (∀ na cn, b3.next = some na → getBlock h na = some cn →
        getBlock h2 na = some { cn with prev := some x1 }) ∧
      (∀ y, ¬ y = x1 → ¬ y = x2 → ¬ y = x3 →
        (∀ na, b3.next = some na → ¬ y = na) →
        getBlock h2 y = getBlock h y) ∧
      h2.brk = h.brk ∧ h2.granted = h.granted ∧ h2.mmapNext = h.mmapNext ∧
      h2.heap_start = h.heap_start ∧ h2.heap_pre = h.heap_pre ∧
      h2.heap_end = (if h.heap_end = some x3 then some x1
        else h.heap_end) := by
  have hW := W64_eq
  have hx21 : ¬ x2 = x1 := fun hc => hx12 hc.symm
  have hx31 : ¬ x3 = x1 := fun hc => hx13 hc.symm
  have hx32 : ¬ x3 = x2 := fun hc => hx23 hc.symm
  have heq1 := free_noMerge hg1 hm1
    (fun na hna => by
      rw [hb1n] at hna
      injection hna with hna
      subst hna
      exact ⟨hx21, b2, hg2, hf2⟩)
    (fun pa hpa => by
      obtain ⟨hp1, _, _, _, pb, hgpb, hpbf⟩ := hPA pa hpa
      exact ⟨hp1, pb, hgpb, hpbf⟩)
  have hg1a : getBlock (setBlock h x1 { b1 with status := Status.FREE }) x1
      = some { b1 with status := Status.FREE } := getBlock_setBlock_same _ _ _
  have hgo1 : ∀ y, ¬ x1 = y →
      getBlock (setBlock h x1 { b1 with status := Status.FREE }) y
        = getBlock h y := fun y hy => by
    rw [getBlock_setBlock, if_neg hy]
  obtain ⟨hA, heq2, hA1, hA2, hA3, hAbrk, hAgr, hAmn, hAhs, hAhp, hAhe⟩ :=
    free_prevMerge (t := x2)
      (by rw [hgo1 x2 hx12]; exact hg2) hm2 hb2p hx12 hg1a rfl
      (fun na hna => by
        rw [hb2n] at hna
        injection hna with hna
        subst hna
        exact ⟨hx32, hx31, b3, by rw [hgo1 x3 hx13]; exact hg3, hf3⟩)
  have hA1' : getBlock hA x1 = some ⟨wadd b1.size (wadd SIZEOF_BLOCK
      b2.size), Status.FREE, b1.prev, some x3⟩ := by
    rw [← hb2n]; exact hA1
  have hA3' : getBlock hA x3 = some { b3 with prev := some x1 } :=
    hA2 x3 b3 hb2n (by rw [hgo1 x3 hx13]; exact hg3)
  have hAo : ∀ y, ¬ y = x1 → ¬ y = x2 → ¬ y = x3 →
      getBlock hA y = getBlock h y := fun y h1y h2y h3y => by
    rw [hA3 y h2y h1y (fun na hna => by
      rw [hb2n] at hna
      injection hna with hna
      subst hna
      exact h3y), hgo1 y (fun hc => h1y hc.symm)]
  have hAend : hA.heap_end = h.heap_end := by
    rw [hAhe, setBlock_heap_end, if_neg hne2]
  obtain ⟨hB, heq3, hB1, hB2, hB3, hBbrk, hBgr, hBmn, hBhs, hBhp, hBhe⟩ :=
    free_prevMerge (t := x3)
      hA3' hm3 rfl hx13 hA1' rfl
      (fun na hna => by
        obtain ⟨hna1, hna2, hna3, cn, hgcn, hcnf⟩ := hNA na hna
        exact ⟨hna3, hna1, cn,
          by rw [hAo na hna1 hna2 hna3]; exact hgcn, hcnf⟩)
  have hsz : wadd (wadd b1.size (wadd SIZEOF_BLOCK b2.size))
      (wadd SIZEOF_BLOCK b3.size) =
      b1.size + SIZEOF_BLOCK + b2.size + SIZEOF_BLOCK + b3.size := by
    have h32 : SIZEOF_BLOCK = 32 := rfl
    rw [wadd_eq (a := SIZEOF_BLOCK) (b := b2.size) (by omega),
      wadd_eq (a := SIZEOF_BLOCK) (b := b3.size) (by omega),
      wadd_eq (a := b1.size) (b := SIZEOF_BLOCK + b2.size) (by omega),
      wadd_eq (by omega)]
    omega
  refine ⟨hB, ?_, ?_, ?_, ?_, ?_, ?_, ?_, ?_, ?_, ?_⟩
  · rw [freeSeq3, heq1, Option.some_bind, heq2, Option.some_bind, heq3]
  · rw [← hsz]
    exact hB1
  · intro na cn hna hgcn
    obtain ⟨hna1, hna2, hna3, _⟩ := hNA na hna
    exact hB2 na cn hna (by rw [hAo na hna1 hna2 hna3]; exact hgcn)
  · intro y hy1 hy2 hy3 hyna
    rw [hB3 y hy3 hy1 (fun na hna => hyna na hna), hAo y hy1 hy2 hy3]
  · rw [hBbrk, hAbrk, setBlock_brk]
  · rw [hBgr, hAgr, setBlock_granted]
  · rw [hBmn, hAmn, setBlock_mmapNext]
  · rw [hBhs, hAhs, setBlock_heap_start]
  · rw [hBhp, hAhp, setBlock_heap_pre]
  · rw [hBhe, hAend]

theorem c9_order2 {h : Heap} {x1 x2 x3 : Nat} {b1 b2 b3 : BlockMeta}
    (hg1 : getBlock h x1 = some b1) (hg2 : getBlock h x2 = some b2)
    (hg3 : getBlock h x3 = some b3)
    (hb1n : b1.next = some x2) (hb2n : b2.next = some x3)
    (hb2p : b2.prev = some x1) (hb3p : b3.prev = some x2)
    (hm1 : ¬ b1.status = Status.MAPPED) (hm2 : ¬ b2.status = Status.MAPPED)
    (hm3 : ¬ b3.status = Status.MAPPED)
    (hf1 : ¬ b1.status = Status.FREE)
    (hf2 : ¬ b2.status = Status.FREE) (hf3 : ¬ b3.status = Status.FREE)
    (hx12 : ¬ x1 = x2) (hx13 : ¬ x1 = x3) (hx23 : ¬ x2 = x3)
    (hPA : ∀ pa, b1.prev = some pa → ¬ pa = x1 ∧ ¬ pa = x2 ∧ ¬ pa = x3 ∧
      (∀ na, b3.next = some na → ¬ pa = na) ∧
      ∃ pb, getBlock h pa = some pb ∧ ¬ pb.status = Status.FREE)
    (hNA : ∀ na, b3.next = some na → ¬ na = x1 ∧ ¬ na = x2 ∧ ¬ na = x3 ∧
      ∃ cn, getBlock h na = some cn ∧ ¬ cn.status = Status.FREE)
    (hne2 : ¬ h.heap_end = some x2)
    (htot : b1.size + SIZEOF_BLOCK + b2.size + SIZEOF_BLOCK + b3.size
      < W64) :
    ∃ h2, freeSeq h [x2 + SIZEOF_BLOCK, x1 + SIZEOF_BLOCK,
        x3 + SIZEOF_BLOCK] = some h2 ∧
      getBlock h2 x1 = some ⟨b1.size + SIZEOF_BLOCK + b2.size +
        SIZEOF_BLOCK + b3.size, Status.FREE, b1.prev, b3.next⟩ ∧
      (∀ na cn, b3.next = some na → getBlock h na = some cn →
        getBlock h2 na = some { cn with prev := some x1 }) ∧
      (∀ y, ¬ y = x1 → ¬ y = x2 → ¬ y = x3 →
        (∀ na, b3.next = some na → ¬ y = na) →
        getBlock h2 y = getBlock h y) ∧
      h2.brk = h.brk ∧ h2.granted = h.granted ∧ h2.mmapNext = h.mmapNext ∧
      h2.heap_start = h.heap_start ∧ h2.heap_pre = h.heap_pre ∧
      h2.heap_end = (if h.heap_end = some x3 then some x1
        else h.heap_end) := by
  have hW := W64_eq
  have hx21 : ¬ x2 = x1 := fun hc => hx12 hc.symm
  have hx31 : ¬ x3 = x1 := fun hc => hx13 hc.symm
  have hx32 : ¬ x3 = x2 := fun hc => hx23 hc.symm
  have heq1 := free_noMerge hg2 hm2
    (fun na hna => by
      rw [hb2n] at hna
      injection hna with hna
      subst hna
      exact ⟨hx32, b3, hg3, hf3⟩)
    (fun pa hpa => by
      rw [hb2p] at hpa
      injection hpa with hpa
      subst hpa
      exact ⟨hx12, b1, hg1, hf1⟩)
  have hg2a : getBlock (setBlock h x2 { b2 with status := Status.FREE }) x2
      = some { b2 with status := Status.FREE } := getBlock_setBlock_same _ _ _
  have hgo1 : ∀ y, ¬ x2 = y →
      getBlock (setBlock h x2 { b2 with status := Status.FREE }) y
        = getBlock h y := fun y hy => by
    rw [getBlock_setBlock, if_neg hy]
  obtain ⟨hA, heq2, hA1, hA2, hA3, hAbrk, hAgr, hAmn, hAhs, hAhp, hAhe⟩ :=
    free_nextMerge (t := x1)
      (by rw [hgo1 x1 hx21]; exact hg1) hm1 hb1n hx21 hg2a rfl
      (fun nn hnn => by
        have hnn' : b2.next = some nn := hnn
        rw [hb2n] at hnn'
        injection hnn' with hnn'
        subst hnn'
        exact ⟨hx31, hx32, b3, by rw [hgo1 x3 hx23]; exact hg3⟩)
      (fun pa hpa => by
        obtain ⟨hp1, hp2, hp3, _, pb, hgpb, hpbf⟩ := hPA pa hpa
        refine ⟨hp1, fun nn hnn => ?_, pb,
          by rw [hgo1 pa (fun hc => hp2 hc.symm)]; exact hgpb, hpbf⟩
        have hnn' : b2.next = some nn := hnn
        rw [hb2n] at hnn'
        injection hnn' with hnn'
        subst hnn'
        exact hp3)
  have hA1' : getBlock hA x1 = some ⟨wadd b1.size (wadd SIZEOF_BLOCK
      b2.size), Status.FREE, b1.prev, some x3⟩ := by
    rw [← hb2n]; exact hA1
  have hA3' : getBlock hA x3 = some { b3 with prev := some x1 } :=
    hA2 x3 b3 hb2n (by rw [hgo1 x3 hx23]; exact hg3)
  have hAo : ∀ y, ¬ y = x1 → ¬ y = x2 → ¬ y = x3 →
      getBlock hA y = getBlock h y := fun y h1y h2y h3y => by
    rw [hA3 y h1y (fun nn hnn => by
      have hnn' : b2.next = some nn := hnn
      rw [hb2n] at hnn'
      injection hnn' with hnn'
      subst hnn'
      exact h3y), hgo1 y (fun hc => h2y hc.symm)]
  have hAend : hA.heap_end = h.heap_end := by
    rw [hAhe, setBlock_heap_end, if_neg hne2]
  obtain ⟨hB, heq3, hB1, hB2, hB3, hBbrk, hBgr, hBmn, hBhs, hBhp, hBhe⟩ :=
    free_prevMerge (t := x3)
      hA3' hm3 rfl hx13 hA1' rfl
      (fun na hna => by
        obtain ⟨hna1, hna2, hna3, cn, hgcn, hcnf⟩ := hNA na hna
        exact ⟨hna3, hna1, cn,
          by rw [hAo na hna1 hna2 hna3]; exact hgcn, hcnf⟩)
  have hsz : wadd (wadd b1.size (wadd SIZEOF_BLOCK b2.size))
      (wadd SIZEOF_BLOCK b3.size) =
      b1.size + SIZEOF_BLOCK + b2.size + SIZEOF_BLOCK + b3.size := by
    have h32 : SIZEOF_BLOCK = 32 := rfl
    rw [wadd_eq (a := SIZEOF_BLOCK) (b := b2.size) (by omega),
      wadd_eq (a := SIZEOF_BLOCK) (b := b3.size) (by omega),
      wadd_eq (a := b1.size) (b := SIZEOF_BLOCK + b2.size) (by omega),
      wadd_eq (by omega)]
    omega
  refine ⟨hB, ?_, ?_, ?_, ?_, ?_, ?_, ?_, ?_, ?_, ?_⟩
  · rw [freeSeq3, heq1, Option.some_bind, heq2, Option.some_bind, heq3]
  · rw [← hsz]
    exact hB1
  · intro na cn hna hgcn
    obtain ⟨hna1, hna2, hna3, _⟩ := hNA na hna
    exact hB2 na cn hna (by rw [hAo na hna1 hna2 hna3]; exact hgcn)
  · intro y hy1 hy2 hy3 hyna
    rw [hB3 y hy3 hy1 (fun na hna => hyna na hna), hAo y hy1 hy2 hy3]
  · rw [hBbrk, hAbrk, setBlock_brk]
  · rw [hBgr, hAgr, setBlock_granted]
  · rw [hBmn, hAmn, setBlock_mmapNext]
  · rw [hBhs, hAhs, setBlock_heap_start]
  · rw [hBhp, hAhp, setBlock_heap_pre]
  · rw [hBhe, hAend]

theorem c9_order3 {h : Heap} {x1 x2 x3 : Nat} {b1 b2 b3 : BlockMeta}
    (hg1 : getBlock h x1 = some b1) (hg2 : getBlock h x2 = some b2)
    (hg3 : getBlock h x3 = some b3)
    (hb1n : b1.next = some x2) (hb2n : b2.next = some x3)
    (hb2p : b2.prev = some x1) (hb3p : b3.prev = some x2)
    (hm1 : ¬ b1.status = Status.MAPPED) (hm2 : ¬ b2.status = Status.MAPPED)
    (hm3 : ¬ b3.status = Status.MAPPED)
    (hf1 : ¬ b1.status = Status.FREE)
    (hf2 : ¬ b2.status = Status.FREE) (hf3 : ¬ b3.status = Status.FREE)
    (hx12 : ¬ x1 = x2) (hx13 : ¬ x1 = x3) (hx23 : ¬ x2 = x3)
    (hPA : ∀ pa, b1.prev = some pa → ¬ pa = x1 ∧ ¬ pa = x2 ∧ ¬ pa = x3 ∧
      (∀ na, b3.next = some na → ¬ pa = na) ∧
      ∃ pb, getBlock h pa = some pb ∧ ¬ pb.status = Status.FREE)
    (hNA : ∀ na, b3.next = some na → ¬ na = x1 ∧ ¬ na = x2 ∧ ¬ na = x3 ∧
      ∃ cn, getBlock h na = some cn ∧ ¬ cn.status = Status.FREE)
    (hne2 : ¬ h.heap_end = some x2)
    (htot : b1.size + SIZEOF_BLOCK + b2.size + SIZEOF_BLOCK + b3.size
      < W64) :
    ∃ h2, freeSeq h [x2 + SIZEOF_BLOCK, x3 + SIZEOF_BLOCK,
        x1 + SIZEOF_BLOCK] = some h2 ∧
      getBlock h2 x1 = some ⟨b1.size + SIZEOF_BLOCK + b2.size +
        SIZEOF_BLOCK + b3.size, Status.FREE, b1.prev, b3.next⟩ ∧
      (∀ na cn, b3.next = some na → getBlock h na = some cn →
        getBlock h2 na = some { cn with prev := some x1 }) ∧
      (∀ y, ¬ y = x1 → ¬ y = x2 → ¬ y = x3 →
        (∀ na, b3.next = some na → ¬ y = na) →
        getBlock h2 y = getBlock h y) ∧
      h2.brk = h.brk ∧ h2.granted = h.granted ∧ h2.mmapNext = h.mmapNext ∧
      h2.heap_start = h.heap_start ∧ h2.heap_pre = h.heap_pre ∧
      h2.heap_end = (if h.heap_end = some x3 then some x1
        else h.heap_end) := by
  have hW := W64_eq
  have hx21 : ¬ x2 = x1 := fun hc => hx12 hc.symm
  have hx31 : ¬ x3 = x1 := fun hc => hx13 hc.symm
  have hx32 : ¬ x3 = x2 := fun hc => hx23 hc.symm
  have heq1 := free_noMerge hg2 hm2
    (fun na hna => by
      rw [hb2n] at hna
      injection hna with hna
      subst hna
      exact ⟨hx32, b3, hg3, hf3⟩)
    (fun pa hpa => by
      rw [hb2p] at hpa
      injection hpa with hpa
      subst hpa
      exact ⟨hx12, b1, hg1, hf1⟩)
  have hg2a : getBlock (setBlock h x2 { b2 with status := Status.FREE }) x2
      = some { b2 with status := Status.FREE } := getBlock_setBlock_same _ _ _
  have hgo1 : ∀ y, ¬ x2 = y →
      getBlock (setBlock h x2 { b2 with status := Status.FREE }) y
        = getBlock h y := fun y hy => by
    rw [getBlock_setBlock, if_neg hy]
  obtain ⟨hA, heq2, hA1, hA2, hA3, hAbrk, hAgr, hAmn, hAhs, hAhp, hAhe⟩ :=
    free_prevMerge (t := x3)
      (by rw [hgo1 x3 hx23]; exact hg3) hm3 hb3p hx23 hg2a rfl
      (fun na hna => by
        obtain ⟨hna1, hna2, hna3, cn, hgcn, hcnf⟩ := hNA na hna
        exact ⟨hna3, hna2, cn,
          by rw [hgo1 na (fun hc => hna2 hc.symm)]; exact hgcn, hcnf⟩)
  have hA2' : getBlock hA x2 = some ⟨wadd b2.size (wadd SIZEOF_BLOCK
      b3.size), Status.FREE, some x1, b3.next⟩ := by
    rw [← hb2p]; exact hA1
  have hAo : ∀ y, ¬ y = x2 → ¬ y = x3 →
      (∀ na, b3.next = some na → ¬ y = na) →
      getBlock hA y = getBlock h y := fun y h2y h3y hyna => by
    rw [hA3 y h3y h2y hyna, hgo1 y (fun hc => h2y hc.symm)]
  have hArel : ∀ na cn, b3.next = some na → getBlock h na = some cn →
      getBlock hA na = some { cn with prev := some x2 } := by
    intro na cn hna hgcn
    obtain ⟨hna1, hna2, hna3, _⟩ := hNA na hna
    exact hA2 na cn hna
      (by rw [hgo1 na (fun hc => hna2 hc.symm)]; exact hgcn)
  have hAend : hA.heap_end =
      (if h.heap_end = some x3 then some x2 else h.heap_end) := by
    rw [hAhe, setBlock_heap_end]
  obtain ⟨hB, heq3, hB1, hB2, hB3, hBbrk, hBgr, hBmn, hBhs, hBhp, hBhe⟩ :=
    free_nextMerge (t := x1)
      (by
        rw [hAo x1 hx12 hx13 (fun na hna => fun hc =>
          (hNA na hna).1 hc.symm)]
        exact hg1)
      hm1 hb1n hx21 hA2' rfl
      (fun nn hnn => by
        have hnn' : b3.next = some nn := hnn
        obtain ⟨hnn1, hnn2, hnn3, cn, hgcn, _⟩ := hNA nn hnn'
        exact ⟨hnn1, hnn2, { cn with prev := some x2 },
          hArel nn cn hnn' hgcn⟩)
      (fun pa hpa => by
        obtain ⟨hp1, hp2, hp3, hpna, pb, hgpb, hpbf⟩ := hPA pa hpa
        exact ⟨hp1, fun nn hnn => hpna nn hnn, pb,
          by rw [hAo pa hp2 hp3 hpna]; exact hgpb, hpbf⟩)
  have hsz2 : wadd b1.size (wadd SIZEOF_BLOCK
      (wadd b2.size (wadd SIZEOF_BLOCK b3.size))) =
      b1.size + SIZEOF_BLOCK + b2.size + SIZEOF_BLOCK + b3.size := by
    have h32 : SIZEOF_BLOCK = 32 := rfl
    rw [wadd_eq (a := SIZEOF_BLOCK) (b := b3.size) (by omega),
      wadd_eq (a := b2.size) (b := SIZEOF_BLOCK + b3.size) (by omega),
      wadd_eq (a := SIZEOF_BLOCK)
        (b := b2.size + (SIZEOF_BLOCK + b3.size)) (by omega),
      wadd_eq (by omega)]
    omega
  refine ⟨hB, ?_, ?_, ?_, ?_, ?_, ?_, ?_, ?_, ?_, ?_⟩
  · rw [freeSeq3, heq1, Option.some_bind, heq2, Option.some_bind, heq3]
  · rw [← hsz2]
    exact hB1
  · intro na cn hna hgcn
    have := hB2 na { cn with prev := some x2 } hna (hArel na cn hna hgcn)
    exact this
  · intro y hy1 hy2 hy3 hyna
    rw [hB3 y hy1 (fun nn hnn => hyna nn hnn), hAo y hy2 hy3 hyna]
  · rw [hBbrk, hAbrk, setBlock_brk]
  · rw [hBgr, hAgr, setBlock_granted]
  · rw [hBmn, hAmn, setBlock_mmapNext]
  · rw [hBhs, hAhs, setBlock_heap_start]
  · rw [hBhp, hAhp, setBlock_heap_pre]
  · rw [hBhe, hAend]
    by_cases hc : h.heap_end = some x3 <;> simp [hc, hne2]

theorem c9_order4 {h : Heap} {x1 x2 x3 : Nat} {b1 b2 b3 : BlockMeta}
    (hg1 : getBlock h x1 = some b1) (hg2 : getBlock h x2 = some b2)
    (hg3 : getBlock h x3 = some b3)
    (hb1n : b1.next = some x2) (hb2n : b2.next = some x3)
    (hb2p : b2.prev = some x1) (hb3p : b3.prev = some x2)
    (hm1 : ¬ b1.status = Status.MAPPED) (hm2 : ¬ b2.status = Status.MAPPED)
    (hm3 : ¬ b3.status = Status.MAPPED)
    (hf1 : ¬ b1.status = Status.FREE)
    (hf2 : ¬ b2.status = Status.FREE) (hf3 : ¬ b3.status = Status.FREE)
    (hx12 : ¬ x1 = x2) (hx13 : ¬ x1 = x3) (hx23 : ¬ x2 = x3)
    (hPA : ∀ pa, b1.prev = some pa → ¬ pa = x1 ∧ ¬ pa = x2 ∧ ¬ pa = x3 ∧
      (∀ na, b3.next = some na → ¬ pa = na) ∧
      ∃ pb, getBlock h pa = some pb ∧ ¬ pb.status = Status.FREE)
    (hNA : ∀ na, b3.next = some na → ¬ na = x1 ∧ ¬ na = x2 ∧ ¬ na = x3 ∧
      ∃ cn, getBlock h na = some cn ∧ ¬ cn.status = Status.FREE)
    (hne2 : ¬ h.heap_end = some x2)
    (htot : b1.size + SIZEOF_BLOCK + b2.size + SIZEOF_BLOCK + b3.size
      < W64) :
    ∃ h2, freeSeq h [x3 + SIZEOF_BLOCK, x2 + SIZEOF_BLOCK,
        x1 + SIZEOF_BLOCK] = some h2 ∧
      getBlock h2 x1 = some ⟨b1.size + SIZEOF_BLOCK + b2.size +
        SIZEOF_BLOCK + b3.size, Status.FREE, b1.prev, b3.next⟩ ∧
      (∀ na cn, b3.next = some na → getBlock h na = some cn →
        getBlock h2 na = some { cn with prev := some x1 }) ∧
      (∀ y, ¬ y = x1 → ¬ y = x2 → ¬ y = x3 →
        (∀ na, b3.next = some na → ¬ y = na) →
        getBlock h2 y = getBlock h y) ∧
      h2.brk = h.brk ∧ h2.granted = h.granted ∧ h2.mmapNext = h.mmapNext ∧
      h2.heap_start = h.heap_start ∧ h2.heap_pre = h.heap_pre ∧
      h2.heap_end = (if h.heap_end = some x3 then some x1
        else h.heap_end) := by
  have hW := W64_eq
  have hx21 : ¬ x2 = x1 := fun hc => hx12 hc.symm
  have hx31 : ¬ x3 = x1 := fun hc => hx13 hc.symm
  have hx32 : ¬ x3 = x2 := fun hc => hx23 hc.symm
  have heq1 := free_noMerge hg3 hm3
    (fun na hna => by
      obtain ⟨hna1, hna2, hna3, cn, hgcn, hcnf⟩ := hNA na hna
      exact ⟨hna3, cn, hgcn, hcnf⟩)
    (fun pa hpa => by
      rw [hb3p] at hpa
      injection hpa with hpa
      subst hpa
      exact ⟨hx23, b2, hg2, hf2⟩)
  have hg3a : getBlock (setBlock h x3 { b3 with status := Status.FREE }) x3
      = some { b3 with status := Status.FREE } := getBlock_setBlock_same _ _ _
  have hgo1 : ∀ y, ¬ x3 = y →
      getBlock (setBlock h x3 { b3 with status := Status.FREE }) y
        = getBlock h y := fun y hy => by
    rw [getBlock_setBlock, if_neg hy]
  obtain ⟨hA, heq2, hA1, hA2, hA3, hAbrk, hAgr, hAmn, hAhs, hAhp, hAhe⟩ :=
    free_nextMerge (t := x2)
      (by rw [hgo1 x2 hx32]; exact hg2) hm2 hb2n hx32 hg3a rfl
      (fun nn hnn => by
        have hnn' : b3.next = some nn := hnn
        obtain ⟨hnn1, hnn2, hnn3, cn, hgcn, _⟩ := hNA nn hnn'
        exact ⟨hnn2, hnn3, cn,
          by rw [hgo1 nn (fun hc => hnn3 hc.symm)]; exact hgcn⟩)
      (fun pa hpa => by
        rw [hb2p] at hpa
        injection hpa with hpa
        subst hpa
        refine ⟨hx12, fun nn hnn => ?_, b1,
          by rw [hgo1 x1 hx31]; exact hg1, hf1⟩
        have hnn' : b3.next = some nn := hnn
        exact fun hc => (hNA nn hnn').1 hc.symm)
  have hA2' : getBlock hA x2 = some ⟨wadd b2.size (wadd SIZEOF_BLOCK
      b3.size), Status.FREE, some x1, b3.next⟩ := by
    rw [← hb2p]; exact hA1
  have hAo : ∀ y, ¬ y = x2 → ¬ y = x3 →
      (∀ na, b3.next = some na → ¬ y = na) →
      getBlock hA y = getBlock h y := fun y h2y h3y hyna => by
    rw [hA3 y h2y (fun nn hnn => hyna nn hnn), hgo1 y (fun hc => h3y hc.symm)]
  have hArel : ∀ na cn, b3.next = some na → getBlock h na = some cn →
      getBlock hA na = some { cn with prev := some x2 } := by
    intro na cn hna hgcn
    obtain ⟨hna1, hna2, hna3, _⟩ := hNA na hna
    exact hA2 na cn hna
      (by rw [hgo1 na (fun hc => hna3 hc.symm)]; exact hgcn)
  have hAend : hA.heap_end =
      (if h.heap_end = some x3 then some x2 else h.heap_end) := by
    rw [hAhe, setBlock_heap_end]
  obtain ⟨hB, heq3, hB1, hB2, hB3, hBbrk, hBgr, hBmn, hBhs, hBhp, hBhe⟩ :=
    free_nextMerge (t := x1)
      (by
        rw [hAo x1 hx12 hx13 (fun na hna => fun hc =>
          (hNA na hna).1 hc.symm)]
        exact hg1)
      hm1 hb1n hx21 hA2' rfl
      (fun nn hnn => by
        have hnn' : b3.next = some nn := hnn
        obtain ⟨hnn1, hnn2, hnn3, cn, hgcn, _⟩ := hNA nn hnn'
        exact ⟨hnn1, hnn2, { cn with prev := some x2 },
          hArel nn cn hnn' hgcn⟩)
      (fun pa hpa => by
        obtain ⟨hp1, hp2, hp3, hpna, pb, hgpb, hpbf⟩ := hPA pa hpa
        exact ⟨hp1, fun nn hnn => hpna nn hnn, pb,
          by rw [hAo pa hp2 hp3 hpna]; exact hgpb, hpbf⟩)
  have hsz2 : wadd b1.size (wadd SIZEOF_BLOCK
      (wadd b2.size (wadd SIZEOF_BLOCK b3.size))) =
      b1.size + SIZEOF_BLOCK + b2.size + SIZEOF_BLOCK + b3.size := by
    have h32 : SIZEOF_BLOCK = 32 := rfl
    rw [wadd_eq (a := SIZEOF_BLOCK) (b := b3.size) (by omega),
      wadd_eq (a := b2.size) (b := SIZEOF_BLOCK + b3.size) (by omega),
      wadd_eq (a := SIZEOF_BLOCK)
        (b := b2.size + (SIZEOF_BLOCK + b3.size)) (by omega),
      wadd_eq (by omega)]
    omega
  refine ⟨hB, ?_, ?_, ?_, ?_, ?_, ?_, ?_, ?_, ?_, ?_⟩
  · rw [freeSeq3, heq1, Option.some_bind, heq2, Option.some_bind, heq3]
  · rw [← hsz2]
    exact hB1
  · intro na cn hna hgcn
    exact hB2 na { cn with prev := some x2 } hna (hArel na cn hna hgcn)
  · intro y hy1 hy2 hy3 hyna
    rw [hB3 y hy1 (fun nn hnn => hyna nn hnn), hAo y hy2 hy3 hyna]
  · rw [hBbrk, hAbrk, setBlock_brk]
  · rw [hBgr, hAgr, setBlock_granted]
  · rw [hBmn, hAmn, setBlock_mmapNext]
  · rw [hBhs, hAhs, setBlock_heap_start]
  · rw [hBhp, hAhp, setBlock_heap_pre]
  · rw [hBhe, hAend]
    by_cases hc : h.heap_end = some x3 <;> simp [hc, hne2]

theorem c9_order5 {h : Heap} {x1 x2 x3 : Nat} {b1 b2 b3 : BlockMeta}
    (hg1 : getBlock h x1 = some b1) (hg2 : getBlock h x2 = some b2)
    (hg3 : getBlock h x3 = some b3)
    (hb1n : b1.next = some x2) (hb2n : b2.next = some x3)
    (hb2p : b2.prev = some x1) (hb3p : b3.prev = some x2)
    (hm1 : ¬ b1.status = Status.MAPPED) (hm2 : ¬ b2.status = Status.MAPPED)
    (hm3 : ¬ b3.status = Status.MAPPED)
    (hf1 : ¬ b1.status = Status.FREE)
    (hf2 : ¬ b2.status = Status.FREE) (hf3 : ¬ b3.status = Status.FREE)
    (hx12 : ¬ x1 = x2) (hx13 : ¬ x1 = x3) (hx23 : ¬ x2 = x3)
    (hPA : ∀ pa, b1.prev = some pa → ¬ pa = x1 ∧ ¬ pa = x2 ∧ ¬ pa = x3 ∧
      (∀ na, b3.next = some na → ¬ pa = na) ∧
      ∃ pb, getBlock h pa = some pb ∧ ¬ pb.status = Status.FREE)
    (hNA : ∀ na, b3.next = some na → ¬ na = x1 ∧ ¬ na = x2 ∧ ¬ na = x3 ∧
      ∃ cn, getBlock h na = some cn ∧ ¬ cn.status = Status.FREE)
    (hne2 : ¬ h.heap_end = some x2)
    (htot : b1.size + SIZEOF_BLOCK + b2.size + SIZEOF_BLOCK + b3.size
      < W64) :
    ∃ h2, freeSeq h [x1 + SIZEOF_BLOCK, x3 + SIZEOF_BLOCK,
        x2 + SIZEOF_BLOCK] = some h2 ∧
      getBlock h2 x1 = some ⟨b1.size + SIZEOF_BLOCK + b2.size +
        SIZEOF_BLOCK + b3.size, Status.FREE, b1.prev, b3.next⟩ ∧
      (∀ na cn, b3.next = some na → getBlock h na = some cn →
        getBlock h2 na = some { cn with prev := some x1 }) ∧
      (∀ y, ¬ y = x1 → ¬ y = x2 → ¬ y = x3 →
        (∀ na, b3.next = some na → ¬ y = na) →
        getBlock h2 y = getBlock h y) ∧
      h2.brk = h.brk ∧ h2.granted = h.granted ∧ h2.mmapNext = h.mmapNext ∧
      h2.heap_start = h.heap_start ∧ h2.heap_pre = h.heap_pre ∧
      h2.heap_end = (if h.heap_end = some x3 then some x1
        else h.heap_end) := by
  have hW := W64_eq
  have hx21 : ¬ x2 = x1 := fun hc => hx12 hc.symm
  have hx31 : ¬ x3 = x1 := fun hc => hx13 hc.symm
  have hx32 : ¬ x3 = x2 := fun hc => hx23 hc.symm
  have heq1 := free_noMerge hg1 hm1
    (fun na hna => by
      rw [hb1n] at hna
      injection hna with hna
      subst hna
      exact ⟨hx21, b2, hg2, hf2⟩)
    (fun pa hpa => by
      obtain ⟨hp1, _, _, _, pb, hgpb, hpbf⟩ := hPA pa hpa
      exact ⟨hp1, pb, hgpb, hpbf⟩)
  have hgo1 : ∀ y, ¬ x1 = y →
      getBlock (setBlock h x1 { b1 with status := Status.FREE }) y
        = getBlock h y := fun y hy => by
    rw [getBlock_setBlock, if_neg hy]
  have heq2 := free_noMerge (t := x3)
    (by rw [hgo1 x3 hx13]; exact hg3) hm3
    (fun na hna => by
      obtain ⟨hna1, hna2, hna3, cn, hgcn, hcnf⟩ := hNA na hna
      exact ⟨hna3, cn,
        by rw [hgo1 na (fun hc => hna1 hc.symm)]; exact hgcn, hcnf⟩)
    (fun pa hpa => by
      rw [hb3p] at hpa
      injection hpa with hpa
      subst hpa
      exact ⟨hx23, b2, by rw [hgo1 x2 hx12]; exact hg2, hf2⟩)
  have hgp1 : getBlock (setBlock (setBlock h x1
      { b1 with status := Status.FREE }) x3
      { b3 with status := Status.FREE }) x1
      = some { b1 with status := Status.FREE } := by
    rw [getBlock_setBlock, if_neg hx31, getBlock_setBlock_same]
  have hgp3 : getBlock (setBlock (setBlock h x1
      { b1 with status := Status.FREE }) x3
      { b3 with status := Status.FREE }) x3
      = some { b3 with status := Status.FREE } := getBlock_setBlock_same _ _ _
  have hgp2 : getBlock (setBlock (setBlock h x1
      { b1 with status := Status.FREE }) x3
      { b3 with status := Status.FREE }) x2 = some b2 := by
    rw [getBlock_setBlock, if_neg hx32, hgo1 x2 hx12]
    exact hg2
  have hpo : ∀ y, ¬ y = x1 → ¬ y = x3 →
      getBlock (setBlock (setBlock h x1
        { b1 with status := Status.FREE }) x3
        { b3 with status := Status.FREE }) y = getBlock h y :=
    fun y h1y h3y => by
      rw [getBlock_setBlock, if_neg (fun hc => h3y hc.symm),
        hgo1 y (fun hc => h1y hc.symm)]
  obtain ⟨hB, heq3, hB1, hB2, hB3, hBbrk, hBgr, hBmn, hBhs, hBhp, hBhe⟩ :=
    free_bothMerge (t := x2)
      hgp2 hm2 hb2n hx32 hgp3 rfl hb2p hx12 hx13 hgp1 rfl
      (fun nn hnn => by
        have hnn' : b3.next = some nn := hnn
        obtain ⟨hnn1, hnn2, hnn3, cn, hgcn, _⟩ := hNA nn hnn'
        exact ⟨hnn2, hnn3, hnn1, cn,
          by rw [hpo nn hnn1 hnn3]; exact hgcn⟩)
  have hsz2 : wadd b1.size (wadd SIZEOF_BLOCK
      (wadd b2.size (wadd SIZEOF_BLOCK b3.size))) =
      b1.size + SIZEOF_BLOCK + b2.size + SIZEOF_BLOCK + b3.size := by
    have h32 : SIZEOF_BLOCK = 32 := rfl
    rw [wadd_eq (a := SIZEOF_BLOCK) (b := b3.size) (by omega),
      wadd_eq (a := b2.size) (b := SIZEOF_BLOCK + b3.size) (by omega),
      wadd_eq (a := SIZEOF_BLOCK)
        (b := b2.size + (SIZEOF_BLOCK + b3.size)) (by omega),
      wadd_eq (by omega)]
    omega
  refine ⟨hB, ?_, ?_, ?_, ?_, ?_, ?_, ?_, ?_, ?_, ?_⟩
  · rw [freeSeq3, heq1, Option.some_bind, heq2, Option.some_bind, heq3]
  · rw [← hsz2]
    exact hB1
  · intro na cn hna hgcn
    obtain ⟨hna1, hna2, hna3, _⟩ := hNA na hna
    exact hB2 na cn hna (by rw [hpo na hna1 hna3]; exact hgcn)
  · intro y hy1 hy2 hy3 hyna
    rw [hB3 y hy2 hy1 (fun nn hnn => hyna nn hnn), hpo y hy1 hy3]
  · rw [hBbrk, setBlock_brk, setBlock_brk]
  · rw [hBgr, setBlock_granted, setBlock_granted]
  · rw [hBmn, setBlock_mmapNext, setBlock_mmapNext]
  · rw [hBhs, setBlock_heap_start, setBlock_heap_start]
  · rw [hBhp, setBlock_heap_pre, setBlock_heap_pre]
  · rw [hBhe, setBlock_heap_end, setBlock_heap_end]
    by_cases hc : h.heap_end = some x3 <;> simp [hc, hne2]

theorem c9_order6 {h : Heap} {x1 x2 x3 : Nat} {b1 b2 b3 : BlockMeta}
    (hg1 : getBlock h x1 = some b1) (hg2 : getBlock h x2 = some b2)
    (hg3 : getBlock h x3 = some b3)
    (hb1n : b1.next = some x2) (hb2n : b2.next = some x3)
    (hb2p : b2.prev = some x1) (hb3p : b3.prev = some x2)
    (hm1 : ¬ b1.status = Status.MAPPED) (hm2 : ¬ b2.status = Status.MAPPED)
    (hm3 : ¬ b3.status = Status.MAPPED)
    (hf1 : ¬ b1.status = Status.FREE)
    (hf2 : ¬ b2.status = Status.FREE) (hf3 : ¬ b3.status = Status.FREE)
    (hx12 : ¬ x1 = x2) (hx13 : ¬ x1 = x3) (hx23 : ¬ x2 = x3)
    (hPA : ∀ pa, b1.prev = some pa → ¬ pa = x1 ∧ ¬ pa = x2 ∧ ¬ pa = x3 ∧
      (∀ na, b3.next = some na → ¬ pa = na) ∧
      ∃ pb, getBlock h pa = some pb ∧ ¬ pb.status = Status.FREE)
    (hNA : ∀ na, b3.next = some na → ¬ na = x1 ∧ ¬ na = x2 ∧ ¬ na = x3 ∧
      ∃ cn, getBlock h na = some cn ∧ ¬ cn.status = Status.FREE)
    (hne2 : ¬ h.heap_end = some x2)
    (htot : b1.size + SIZEOF_BLOCK + b2.size + SIZEOF_BLOCK + b3.size
      < W64) :
    ∃ h2, freeSeq h [x3 + SIZEOF_BLOCK, x1 + SIZEOF_BLOCK,
        x2 + SIZEOF_BLOCK] = some h2 ∧
      getBlock h2 x1 = some ⟨b1.size + SIZEOF_BLOCK + b2.size +
        SIZEOF_BLOCK + b3.size, Status.FREE, b1.prev, b3.next⟩ ∧
      (∀ na cn, b3.next = some na → getBlock h na = some cn →
        getBlock h2 na = some { cn with prev := some x1 }) ∧
      (∀ y, ¬ y = x1 → ¬ y = x2 → ¬ y = x3 →
        (∀ na, b3.next = some na → ¬ y = na) →
        getBlock h2 y = getBlock h y) ∧
      h2.brk = h.brk ∧ h2.granted = h.granted ∧ h2.mmapNext = h.mmapNext ∧
      h2.heap_start = h.heap_start ∧ h2.heap_pre = h.heap_pre ∧
      h2.heap_end = (if h.heap_end = some x3 then some x1
        else h.heap_end) := by
  have hW := W64_eq
  have hx21 : ¬ x2 = x1 := fun hc => hx12 hc.symm
  have hx31 : ¬ x3 = x1 := fun hc => hx13 hc.symm
  have hx32 : ¬ x3 = x2 := fun hc => hx23 hc.symm
  have heq1 := free_noMerge hg3 hm3
    (fun na hna => by
      obtain ⟨hna1, hna2, hna3, cn, hgcn, hcnf⟩ := hNA na hna
      exact ⟨hna3, cn, hgcn, hcnf⟩)
    (fun pa hpa => by
      rw [hb3p] at hpa
      injection hpa with hpa
      subst hpa
      exact ⟨hx23, b2, hg2, hf2⟩)
  have hgo1 : ∀ y, ¬ x3 = y →
      getBlock (setBlock h x3 { b3 with status := Status.FREE }) y
        = getBlock h y := fun y hy => by
    rw [getBlock_setBlock, if_neg hy]
  have heq2 := free_noMerge (t := x1)
    (by rw [hgo1 x1 hx31]; exact hg1) hm1
    (fun na hna => by
      rw [hb1n] at hna
      injection hna with hna
      subst hna
      exact ⟨hx21, b2, by rw [hgo1 x2 hx32]; exact hg2, hf2⟩)
    (fun pa hpa => by
      obtain ⟨hp1, _, hp3, _, pb, hgpb, hpbf⟩ := hPA pa hpa
      exact ⟨hp1, pb,
        by rw [hgo1 pa (fun hc => hp3 hc.symm)]; exact hgpb, hpbf⟩)
  have hgp1 : getBlock (setBlock (setBlock h x3
      { b3 with status := Status.FREE }) x1
      { b1 with status := Status.FREE }) x1
      = some { b1 with status := Status.FREE } := getBlock_setBlock_same _ _ _
  have hgp3 : getBlock (setBlock (setBlock h x3
      { b3 with status := Status.FREE }) x1
      { b1 with status := Status.FREE }) x3
      = some { b3 with status := Status.FREE } := by
    rw [getBlock_setBlock, if_neg hx13, getBlock_setBlock_same]
  have hgp2 : getBlock (setBlock (setBlock h x3
      { b3 with status := Status.FREE }) x1
      { b1 with status := Status.FREE }) x2 = some b2 := by
    rw [getBlock_setBlock, if_neg hx12, hgo1 x2 hx32]
    exact hg2
  have hpo : ∀ y, ¬ y = x1 → ¬ y = x3 →
      getBlock (setBlock (setBlock h x3
        { b3 with status := Status.FREE }) x1
        { b1 with status := Status.FREE }) y = getBlock h y :=
    fun y h1y h3y => by
      rw [getBlock_setBlock, if_neg (fun hc => h1y hc.symm),
        hgo1 y (fun hc => h3y hc.symm)]
  obtain ⟨hB, heq3, hB1, hB2, hB3, hBbrk, hBgr, hBmn, hBhs, hBhp, hBhe⟩ :=
    free_bothMerge (t := x2)
      hgp2 hm2 hb2n hx32 hgp3 rfl hb2p hx12 hx13 hgp1 rfl
      (fun nn hnn => by
        have hnn' : b3.next = some nn := hnn
        obtain ⟨hnn1, hnn2, hnn3, cn, hgcn, _⟩ := hNA nn hnn'
        exact ⟨hnn2, hnn3, hnn1, cn,
          by rw [hpo nn hnn1 hnn3]; exact hgcn⟩)
  have hsz2 : wadd b1.size (wadd SIZEOF_BLOCK
      (wadd b2.size (wadd SIZEOF_BLOCK b3.size))) =
      b1.size + SIZEOF_BLOCK + b2.size + SIZEOF_BLOCK + b3.size := by
    have h32 : SIZEOF_BLOCK = 32 := rfl
    rw [wadd_eq (a := SIZEOF_BLOCK) (b := b3.size) (by omega),
      wadd_eq (a := b2.size) (b := SIZEOF_BLOCK + b3.size) (by omega),
      wadd_eq (a := SIZEOF_BLOCK)
        (b := b2.size + (SIZEOF_BLOCK + b3.size)) (by omega),
      wadd_eq (by omega)]
    omega
  refine ⟨hB, ?_, ?_, ?_, ?_, ?_, ?_, ?_, ?_, ?_, ?_⟩
  · rw [freeSeq3, heq1, Option.some_bind, heq2, Option.some_bind, heq3]
  · rw [← hsz2]
    exact hB1
  · intro na cn hna hgcn
    obtain ⟨hna1, hna2, hna3, _⟩ := hNA na hna
    exact hB2 na cn hna (by rw [hpo na hna1 hna3]; exact hgcn)
  · intro y hy1 hy2 hy3 hyna
    rw [hB3 y hy2 hy1 (fun nn hnn => hyna nn hnn), hpo y hy1 hy3]
  · rw [hBbrk, setBlock_brk, setBlock_brk]
  · rw [hBgr, setBlock_granted, setBlock_granted]
  · rw [hBmn, setBlock_mmapNext, setBlock_mmapNext]
  · rw [hBhs, setBlock_heap_start, setBlock_heap_start]
  · rw [hBhp, setBlock_heap_pre, setBlock_heap_pre]
  · rw [hBhe, setBlock_heap_end, setBlock_heap_end]
    by_cases hc : h.heap_end = some x3 <;> simp [hc, hne2]

theorem chain_head_none {h : Heap} {l2 : List (Nat × BlockMeta)}
    {a? : Option Nat} (hc : chain h none a? l2) {na : Nat}
    (hna : a? = some na) :
    ∃ cn, getBlock h na = some cn ∧ na ∈ l2.map Prod.fst := by
  cases l2 with
  | nil =>
      rw [hc] at hna
      cases hna
  | cons e t =>
      obtain ⟨he, hge, _⟩ := hc
      rw [he] at hna
      injection hna with hna
      subst hna
      exact ⟨e.2, hge, by simp⟩

/-- Claim C9 (amended): for any well-formed heap whose registry contains
three consecutive entries, all arena-backed and `ALLOC`, whose registry
neighbours on both sides are not `FREE`, the three blocks are physically
adjacent, and releasing their three payloads in any of the six possible
orders succeeds and leaves a single `FREE` block at the first header whose
capacity spans the three blocks' combined headers and payloads (one header
plus the merged payload `b1.size + 32 + b2.size + 32 + b3.size`), with the
list links bridged over the absorbed headers, every block outside the
triple unchanged except the successor's necessary `prev` relink, the
scalar state unchanged, and `heap_end` retargeted to the merged block
exactly when it pointed at the third one.  The literal claim, which asks
for the merge for any three PHYSICALLY adjacent `ALLOC` blocks and forbids
any other change, is refuted by `claim_C9_counterexample`. -/
theorem claim_C9 {h : Heap} {l l1 l2 : List (Nat × BlockMeta)}
    {x1 x2 x3 : Nat} {b1 b2 b3 : BlockMeta}
    (hwf : WF h l)
    (hleq : l = l1 ++ (x1, b1) :: (x2, b2) :: (x3, b3) :: l2)
    (hs1 : b1.status = Status.ALLOC) (hs2 : b2.status = Status.ALLOC)
    (hs3 : b3.status = Status.ALLOC)
    (hP : ∀ pa pb, b1.prev = some pa → getBlock h pa = some pb →
      ¬ pb.status = Status.FREE)
    (hN : ∀ na nb, b3.next = some na → getBlock h na = some nb →
      ¬ nb.status = Status.FREE) :
    x2 = x1 + SIZEOF_BLOCK + b1.size ∧
    x3 = x2 + SIZEOF_BLOCK + b2.size ∧
    ∀ o ∈ [[x1 + SIZEOF_BLOCK, x2 + SIZEOF_BLOCK, x3 + SIZEOF_BLOCK],
        [x1 + SIZEOF_BLOCK, x3 + SIZEOF_BLOCK, x2 + SIZEOF_BLOCK],
        [x2 + SIZEOF_BLOCK, x1 + SIZEOF_BLOCK, x3 + SIZEOF_BLOCK],
        [x2 + SIZEOF_BLOCK, x3 + SIZEOF_BLOCK, x1 + SIZEOF_BLOCK],
        [x3 + SIZEOF_BLOCK, x1 + SIZEOF_BLOCK, x2 + SIZEOF_BLOCK],
        [x3 + SIZEOF_BLOCK, x2 + SIZEOF_BLOCK, x1 + SIZEOF_BLOCK]],
      ∃ h2, freeSeq h o = some h2 ∧
        getBlock h2 x1 = some ⟨b1.size + SIZEOF_BLOCK + b2.size +
          SIZEOF_BLOCK + b3.size, Status.FREE, b1.prev, b3.next⟩ ∧
        (∀ na cn, b3.next = some na → getBlock h na = some cn →
          getBlock h2 na = some { cn with prev := some x1 }) ∧
        (∀ y, ¬ y = x1 → ¬ y = x2 → ¬ y = x3 →
          (∀ na, b3.next = some na → ¬ y = na) →
          getBlock h2 y = getBlock h y) ∧
        h2.brk = h.brk ∧ h2.granted = h.granted ∧
        h2.mmapNext = h.mmapNext ∧ h2.heap_start = h.heap_start ∧
        h2.heap_pre = h.heap_pre ∧
        h2.heap_end = (if h.heap_end = some x3 then some x1
          else h.heap_end) := by
  have hch := hwf.chain_ok
  rw [hleq] at hch
  obtain ⟨mid, hch1, hch2⟩ := chain_parts l1 hch
  simp only [chain] at hch2
  obtain ⟨hmid, hg1, hb1n, hg2, hb2n, hg3, hch5⟩ := hch2
  have hpv0 := hwf.prevs_ok
  rw [hleq] at hpv0
  have hpv1 := prevs_parts l1 hpv0
  simp only [prevs] at hpv1
  obtain ⟨hb1p, hb2p, hb3p, _⟩ := hpv1
  have hnd := hwf.nodup
  rw [hleq] at hnd
  obtain ⟨⟨hx12, hx13, hx23⟩, hl1f, hl2f⟩ := nodup_c9 hnd
  have hmem1 : (x1, b1) ∈ l := by
    rw [hleq]; exact List.mem_append_right _ (by simp)
  have hmem3 : (x3, b3) ∈ l := by
    rw [hleq]; exact List.mem_append_right _ (by simp)
  have hm1 : ¬ b1.status = Status.MAPPED := by rw [hs1]; decide
  have hm2 : ¬ b2.status = Status.MAPPED := by rw [hs2]; decide
  have hm3 : ¬ b3.status = Status.MAPPED := by rw [hs3]; decide
  have hf1 : ¬ b1.status = Status.FREE := by rw [hs1]; decide
  have hf2 : ¬ b2.status = Status.FREE := by rw [hs2]; decide
  have hf3 : ¬ b3.status = Status.FREE := by rw [hs3]; decide
  have hNA : ∀ na, b3.next = some na → ¬ na = x1 ∧ ¬ na = x2 ∧ ¬ na = x3 ∧
      ∃ cn, getBlock h na = some cn ∧ ¬ cn.status = Status.FREE := by
    intro na hna
    obtain ⟨cn, hgcn, hnal2⟩ := chain_head_none hch5 hna
    obtain ⟨hna1, hna2, hna3⟩ := hl2f na hnal2
    exact ⟨hna1, hna2, hna3, cn, hgcn, hN na cn hna hgcn⟩
  have hPA : ∀ pa, b1.prev = some pa → ¬ pa = x1 ∧ ¬ pa = x2 ∧ ¬ pa = x3 ∧
      (∀ na, b3.next = some na → ¬ pa = na) ∧
      ∃ pb, getBlock h pa = some pb ∧ ¬ pb.status = Status.FREE := by
    intro pa hpa
    have hpa2 := hpa
    rw [hb1p, lastOr_none_eq] at hpa2
    cases hgl1 : l1.getLast? with
    | none =>
        rw [hgl1] at hpa2
        cases hpa2
    | some e =>
        rw [hgl1] at hpa2
        simp only [Option.map_some'] at hpa2
        injection hpa2 with hpa2
        have hel1 : e ∈ l1 := mem_of_getLast hgl1
        obtain ⟨he1, he2, he3, hel2⟩ :=
          hl1f e.1 (List.mem_map.2 ⟨e, hel1, rfl⟩)
        have hge : getBlock h e.1 = some e.2 := chain_mem hch1 e hel1
        subst hpa2
        refine ⟨he1, he2, he3, ?_, e.2, hge, hP e.1 e.2 hpa hge⟩
        intro na hna
        obtain ⟨cn, hgcn, hnal2⟩ := chain_head_none hch5 hna
        exact hel2 na hnal2
  have hends := hwf.end_ok
  rw [hleq] at hends
  have hgl : (l1 ++ (x1, b1) :: (x2, b2) :: (x3, b3) :: l2).getLast?
      = ((x3, b3) :: l2).getLast? := by
    rw [List.getLast?_append_cons, List.getLast?_cons_cons,
      List.getLast?_cons_cons]
  have hne2 : ¬ h.heap_end = some x2 := by
    intro hc
    rw [hends, hgl] at hc
    cases hgle : ((x3, b3) :: l2).getLast? with
    | none => simp at hgle
    | some e =>
        rw [hgle] at hc
        simp only [Option.map_some'] at hc
        injection hc with hc
        have hee : e ∈ (x3, b3) :: l2 := mem_of_getLast hgle
        rcases List.mem_cons.1 hee with rfl | het
        · exact hx23 hc.symm
        · exact (hl2f e.1 (List.mem_map.2 ⟨e, het, rfl⟩)).2.1 hc
  have hti := hwf.tiles_ok
  rw [hleq] at hti
  have harena : arenaOf (l1 ++ (x1, b1) :: (x2, b2) :: (x3, b3) :: l2)
      = arenaOf l1 ++ (x1, b1) :: (x2, b2) :: (x3, b3) :: arenaOf l2 := by
    simp [arenaOf, List.filter_append, hs1, hs2, hs3]
  rw [harena] at hti
  obtain ⟨m, hti1, hti2⟩ := tiles_parts (arenaOf l1) hti
  simp only [tiles] at hti2
  obtain ⟨hx1m, hx2e, hx3e, _⟩ := hti2
  subst hx1m
  have hadj2 : x2 = x1 + SIZEOF_BLOCK + b1.size := hx2e
  have hadj3 : x3 = x2 + SIZEOF_BLOCK + b2.size := by omega
  have hfoot1 : HEAP_BASE ≤ x1 := (WF_foot hwf (x1, b1) hmem1).1
  have hfoot3 : x3 + SIZEOF_BLOCK + b3.size ≤ MMAP_TOP :=
    (WF_foot hwf (x3, b3) hmem3).2
  have htot : b1.size + SIZEOF_BLOCK + b2.size + SIZEOF_BLOCK + b3.size
      < W64 := by
    have hW := W64_eq
    have hmt : MMAP_TOP = 4611686018427387904 := by norm_num [MMAP_TOP]
    have hhb : HEAP_BASE = 4096 := by norm_num [HEAP_BASE]
    omega
  refine ⟨hadj2, hadj3, ?_⟩
  intro o ho
  simp only [List.mem_cons, List.not_mem_nil, or_false] at ho
  rcases ho with rfl | rfl | rfl | rfl | rfl | rfl
  · exact c9_order1 hg1 hg2 hg3 hb1n hb2n hb2p hb3p hm1 hm2 hm3 hf2 hf3
      hx12 hx13 hx23 hPA hNA hne2 htot
  · exact c9_order5 hg1 hg2 hg3 hb1n hb2n hb2p hb3p hm1 hm2 hm3 hf1 hf2
      hf3 hx12 hx13 hx23 hPA hNA hne2 htot
  · exact c9_order2 hg1 hg2 hg3 hb1n hb2n hb2p hb3p hm1 hm2 hm3 hf1 hf2
      hf3 hx12 hx13 hx23 hPA hNA hne2 htot
  · exact c9_order3 hg1 hg2 hg3 hb1n hb2n hb2p hb3p hm1 hm2 hm3 hf1 hf2
      hf3 hx12 hx13 hx23 hPA hNA hne2 htot
  · exact c9_order6 hg1 hg2 hg3 hb1n hb2n hb2p hb3p hm1 hm2 hm3 hf1 hf2
      hf3 hx12 hx13 hx23 hPA hNA hne2 htot
  · exact c9_order4 hg1 hg2 hg3 hb1n hb2n hb2p hb3p hm1 hm2 hm3 hf1 hf2
      hf3 hx12 hx13 hx23 hPA hNA hne2 htot

/-- Claim C9, counterexample to the literal statement: starting from the
empty heap, `malloc(131040)` fills the preallocated arena exactly,
`malloc(200000)` links a `MAPPED` block after it in the registry, and two
`malloc(100)` calls append two more arena blocks after the mapped entry.
The arena blocks at 4096, 135168 and 135304 are then three physically
adjacent arena-backed `ALLOCATED` blocks (4096 + 32 + 131040 = 135168 and
135168 + 32 + 104 = 135304), yet releasing all three leaves TWO separate
`FREE` blocks, of sizes 131040 and 240, rather than one `FREE` block
spanning the combined capacity 131312: `os_free` coalesces registry
neighbours only, and the intervening `MAPPED` registry entry keeps the
first block apart from the other two. -/
theorem claim_C9_counterexample :
    c9cxPre.map (fun hp => (getBlock hp 4096, getBlock hp 135168,
        getBlock hp 135304)) =
      some (some ⟨131040, Status.ALLOC, none, some 4611686018427187200⟩,
        some ⟨104, Status.ALLOC, some 4611686018427187200, some 135304⟩,
        some ⟨104, Status.ALLOC, some 135168, none⟩) ∧
    4096 + SIZEOF_BLOCK + 131040 = 135168 ∧
    135168 + SIZEOF_BLOCK + 104 = 135304 ∧
    c9cxPost.map listFrom = some (some
      [(4096, ⟨131040, Status.FREE, none, some 4611686018427187200⟩),
       (4611686018427187200, ⟨200000, Status.MAPPED, some 4096,
         some 135168⟩),
       (135168, ⟨240, Status.FREE, some 4611686018427187200, none⟩)]) := by
  refine ⟨by decide, by decide, by decide, by decide⟩

/-- Witness for C9: the amended theorem applied to a concrete ready arena
holding an allocated guard, three adjacent `ALLOC` blocks of sizes 48, 104
and 256, an allocated tail and a mapped block; releasing the triple in
order yields the single spanning `FREE` block of size 472. -/
theorem claim_C9_witness :
    ∃ h2, freeSeq (c9heap 48 104 256) [4224, 4304, 4440] = some h2 ∧
      getBlock h2 4192 = some ⟨472, Status.FREE, some 4096, some 4696⟩ := by
  obtain ⟨-, -, hall⟩ :=
    @claim_C9 (c9heap 48 104 256)
      [(4096, ⟨64, Status.ALLOC, none, some 4192⟩),
       (4192, ⟨48, Status.ALLOC, some 4096, some 4272⟩),
       (4272, ⟨104, Status.ALLOC, some 4192, some 4408⟩),
       (4408, ⟨256, Status.ALLOC, some 4272, some 4696⟩),
       (4696, ⟨130440, Status.ALLOC, some 4408, some 200704⟩),
       (200704, ⟨4064, Status.MAPPED, some 4696, none⟩)]
      [(4096, ⟨64, Status.ALLOC, none, some 4192⟩)]
      [(4696, ⟨130440, Status.ALLOC, some 4408, some 200704⟩),
       (200704, ⟨4064, Status.MAPPED, some 4696, none⟩)]
      4192 4272 4408
      ⟨48, Status.ALLOC, some 4096, some 4272⟩
      ⟨104, Status.ALLOC, some 4192, some 4408⟩
      ⟨256, Status.ALLOC, some 4272, some 4696⟩
      (by constructor <;> decide) rfl rfl rfl rfl
      (fun pa pb h1 h2 => by
        injection h1 with h1
        subst h1
        have h3 : getBlock (c9heap 48 104 256) 4096 =
            some ⟨64, Status.ALLOC, none, some 4192⟩ := by decide
        rw [h3] at h2
        injection h2 with h2
        subst h2
        decide)
      (fun na nb h1 h2 => by
        injection h1 with h1
        subst h1
        have h3 : getBlock (c9heap 48 104 256) 4696 =
            some ⟨130440, Status.ALLOC, some 4408, some 200704⟩ := by decide
        rw [h3] at h2
        injection h2 with h2
        subst h2
        decide)
  obtain ⟨h2, heq, hg, -⟩ := hall [4224, 4304, 4440] (by decide)
  exact ⟨h2, heq, hg⟩

end OSMem
